import Mathlib

/-!
# librinoo: the task driver (src/scheduler/task.c)

A shallow embedding of the cooperative task driver of librinoo and the
properties of its scheduling operations.

Conventions of the embedding.

* `time_t` and `suseconds_t` are signed 64-bit integers in the source; they are
  represented by `Int` (signed overflow is undefined in C, so no wrap-around is
  modelled).  The one conversion to an unsigned 32-bit value, the result of
  `rinoo_task_driver_run`, is an explicit reduction modulo `2 ^ 32`.
* A pointer to a task is a `TaskPtr`; a pointer that may be `NULL` is an
  `Option TaskPtr`.  The task embedded in the driver (`driver.main`) is the
  task stored at `TaskPtr.main`.
* The scheduler is passed by value, so a function that takes `t_rinoosched *`
  takes a `t_rinoosched` here and returns the new one next to its C result.
-/

namespace Rinoo

/-! ## Time values (sys/time.h) -/

/-- The C `struct timeval`: seconds and microseconds. -/
structure Timeval where
  tv_sec : Int
  tv_usec : Int
deriving DecidableEq, Repr

/-- The macro `timercmp(a, b, <)`: compare the microseconds when the seconds
are equal, the seconds otherwise. -/
def timercmp_lt (a b : Timeval) : Bool :=
  if a.tv_sec = b.tv_sec then decide (a.tv_usec < b.tv_usec)
  else decide (a.tv_sec < b.tv_sec)

/-- The macro `timercmp(a, b, <=)`. -/
def timercmp_le (a b : Timeval) : Bool :=
  if a.tv_sec = b.tv_sec then decide (a.tv_usec ≤ b.tv_usec)
  else decide (a.tv_sec ≤ b.tv_sec)

/-- The macro `timersub(a, b, result)`: field-wise difference with one borrow
from the seconds when the microseconds come out negative. -/
def timersub (a b : Timeval) : Timeval :=
  let sec := a.tv_sec - b.tv_sec
  let usec := a.tv_usec - b.tv_usec
  if usec < 0 then ⟨sec - 1, usec + 1000000⟩ else ⟨sec, usec⟩

/-- The macro `timeradd(a, b, result)`: field-wise sum with one carry into
the seconds when the microseconds reach one million. -/
def timeradd (a b : Timeval) : Timeval :=
  let sec := a.tv_sec + b.tv_sec
  let usec := a.tv_usec + b.tv_usec
  if usec ≥ 1000000 then ⟨sec + 1, usec - 1000000⟩ else ⟨sec, usec⟩

/-- The all-zero timeval that `memset(&task->tv, 0, sizeof(task->tv))` writes. -/
def Timeval.zero : Timeval := ⟨0, 0⟩

/-- A timeval is normalized when its microseconds lie in `[0, 1000000)`. -/
def Timeval.normalized (t : Timeval) : Prop :=
  0 ≤ t.tv_usec ∧ t.tv_usec < 1000000

/-- The number of microseconds a timeval stands for. -/
def Timeval.micros (t : Timeval) : Int :=
  t.tv_sec * 1000000 + t.tv_usec

/-! ## Tasks, contexts and the scheduler -/

/-- The address of a task: the task embedded in the driver (`driver.main`) or a
task obtained from `malloc`. -/
inductive TaskPtr where
  | main
  | heap (addr : Nat)
deriving DecidableEq, Repr

/-- The part of `t_fcontext` the driver reads and writes: `link`, the context
(named by the task that owns it) entered when the entry function returns, and
the entry function with its argument once the context has been bootstrapped. -/
structure t_fcontext where
  link : Option TaskPtr
  entry : Option (Nat × Nat)
deriving DecidableEq, Repr

/-- The fields of `t_rinootask` used by the driver.  `sched` tells whether
`task->sched` is non-null (there is one scheduler); membership of `proc_node`
in the timer tree is recorded in the tree. -/
structure t_rinootask where
  sched : Bool
  scheduled : Bool
  tv : Timeval
  context : t_fcontext
deriving DecidableEq, Repr

/-- Modelled from the spec: the red-black tree module (`rinoorbtree`,
`rinoorbtree_put`, `rinoorbtree_remove`, `rinoorbtree_head`) is not among the
sources.  The spec describes the timer tree as "a balanced ordered tree keyed
by target wall-clock time" whose minimum the driver pops; the tree is
represented by the in-order sequence of its nodes, each node named by the task
that embeds it. -/
structure t_rinoorbtree where
  nodes : List TaskPtr
deriving DecidableEq, Repr

/-- Modelled from the spec: the `size` field of the tree, the number of its
nodes. -/
def t_rinoorbtree.size (tree : t_rinoorbtree) : Nat :=
  tree.nodes.length

/-- Modelled from the spec: the search of `rinoorbtree_put` for the place of
`node`, on the in-order sequence.  The node goes to the left of the first node
it compares below; it passes the nodes it compares above ("the timer
comparator treats equal times as greater-than, which means insertion of a task
with time equal to an existing node places it after"); meeting a node it
compares equal to, the search gives up. -/
def rinoorbtree_descend (compare : TaskPtr → TaskPtr → Int) (node : TaskPtr) :
    List TaskPtr → Option (List TaskPtr)
  | [] => some [node]
  | cur :: rest =>
    if compare node cur < 0 then some (node :: cur :: rest)
    else if compare node cur > 0 then
      (rinoorbtree_descend compare node rest).map (fun l => cur :: l)
    else none

/-- Modelled from the spec: `rinoorbtree_put`, returning 0 and the tree with
`node` inserted, or -1 and the tree as it was ("schedule failure returns -1"). -/
def rinoorbtree_put (compare : TaskPtr → TaskPtr → Int) (tree : t_rinoorbtree)
    (node : TaskPtr) : Int × t_rinoorbtree :=
  match rinoorbtree_descend compare node tree.nodes with
  | some l => (0, ⟨l⟩)
  | none => (-1, tree)

/-- Modelled from the spec: `rinoorbtree_remove` takes the node out of the
tree ("remove from tree"). -/
def rinoorbtree_remove (tree : t_rinoorbtree) (node : TaskPtr) : t_rinoorbtree :=
  ⟨tree.nodes.erase node⟩

/-- Modelled from the spec: `rinoorbtree_head`, the minimum of the tree
("the tree's minimum") or `NULL` when the tree is empty. -/
def rinoorbtree_head (tree : t_rinoorbtree) : Option TaskPtr :=
  tree.nodes.head?

/-- The fields of `t_rinootask_driver`: the timer tree and the current task
(`main` is the task at `TaskPtr.main`). -/
structure t_rinootask_driver where
  proc_tree : t_rinoorbtree
  current : TaskPtr
deriving DecidableEq, Repr

/-- The scheduler as the driver sees it: the clock, the driver, and the memory
holding the tasks (`task`), with `live` telling which tasks are allocated. -/
structure t_rinoosched where
  clock : Timeval
  driver : t_rinootask_driver
  task : TaskPtr → t_rinootask
  live : TaskPtr → Bool

/-- Write the task stored at `p`. -/
def t_rinoosched.set_task (s : t_rinoosched) (p : TaskPtr) (t : t_rinootask) :
    t_rinoosched :=
  { s with task := Function.update s.task p t }

/-- Write the timer tree. -/
def t_rinoosched.set_tree (s : t_rinoosched) (tree : t_rinoorbtree) : t_rinoosched :=
  { s with driver := { s.driver with proc_tree := tree } }

/-- Write the current task. -/
def t_rinoosched.set_current (s : t_rinoosched) (p : TaskPtr) : t_rinoosched :=
  { s with driver := { s.driver with current := p } }

/-- The nodes of the timer tree, in order. -/
def t_rinoosched.nodes (s : t_rinoosched) : List TaskPtr :=
  s.driver.proc_tree.nodes

/-- The target time of the task at `p`. -/
def t_rinoosched.tv (s : t_rinoosched) (p : TaskPtr) : Timeval :=
  (s.task p).tv

/-- Modelled from the spec: `fcontext_swap` is not among the sources.  A value
of this type stands for everything that runs between the moment control leaves
the context of `from` for the context of `to` and the moment it re-enters
`from`: the scheduler as it is found on re-entry, and the result of the swap
(1 when the other side suspended back, 0 when it terminated through its link). -/
abbrev Swap := t_rinoosched → TaskPtr → TaskPtr → Int × t_rinoosched

/-- Modelled from the spec: `fcontext` (bootstrap) is not among the sources; it
"prepares ctx so that the first swap to it begins executing entry(arg)" and
keeps the link set by the caller. -/
def fcontext (ctx : t_fcontext) (function arg : Nat) : t_fcontext :=
  { ctx with entry := some (function, arg) }

/-! ## The task driver (task.c) -/

/-- The comparator of the timer tree, `rinoo_task_cmp`: 0 for one and the same
task, -1 when the first target time is strictly earlier, 1 otherwise. -/
def rinoo_task_cmp (s : t_rinoosched) (node1 node2 : TaskPtr) : Int :=
  if node1 = node2 then 0
  else if timercmp_lt (s.task node1).tv (s.task node2).tv then -1
  else 1

/-- The function `rinoo_task_driver_init`: an empty timer tree, and the main
task as the current one. -/
def rinoo_task_driver_init (s : t_rinoosched) : Int × t_rinoosched :=
  (0, { s with driver := { proc_tree := ⟨[]⟩, current := TaskPtr.main } })

/-- The function `rinoo_task_driver_nbpending`: the size of the timer tree. -/
def rinoo_task_driver_nbpending (s : t_rinoosched) : Nat :=
  s.driver.proc_tree.size

/-- The function `rinoo_task_driver_getcurrent`. -/
def rinoo_task_driver_getcurrent (s : t_rinoosched) : TaskPtr :=
  s.driver.current

/-- The function `rinoo_task`: `malloc` is the result of the allocation
(`none` when it fails), `function` the entry function (`none` for `NULL`).
Returns the new task, or `none` for `NULL`. -/
def rinoo_task (s : t_rinoosched) (malloc : Option Nat) (parent : Option TaskPtr)
    (function : Option Nat) (arg : Nat) : Option TaskPtr × t_rinoosched :=
  match function with
  | none => (none, s)
  | some f =>
    match malloc with
    | none => (none, s)
    | some addr =>
      let task := TaskPtr.heap addr
      let ctx0 : t_fcontext := { link := none, entry := none }
      let ctx1 : t_fcontext :=
        match parent with
        | some p => { ctx0 with link := some p }
        | none => ctx0
      let t : t_rinootask :=
        { sched := true, scheduled := false, tv := Timeval.zero,
          context := fcontext ctx1 f arg }
      (some task,
        { s with task := Function.update s.task task t,
                 live := Function.update s.live task true })

/-- The function `rinoo_task_unschedule`. -/
def rinoo_task_unschedule (s : t_rinoosched) (task : Option TaskPtr) :
    Int × t_rinoosched :=
  match task with
  | none => (-1, s)
  | some t =>
    if (s.task t).sched = false then (-1, s)
    else if (s.task t).scheduled = true then
      let s1 := s.set_tree (rinoorbtree_remove s.driver.proc_tree t)
      (0, s1.set_task t { s1.task t with tv := Timeval.zero, scheduled := false })
    else (0, s)

/-- The function `rinoo_task_schedule`; `tv = none` is the null pointer. -/
def rinoo_task_schedule (s : t_rinoosched) (task : Option TaskPtr)
    (tv : Option Timeval) : Int × t_rinoosched :=
  match task with
  | none => (-1, s)
  | some t =>
    if (s.task t).sched = false then (-1, s)
    else
      let s1 :=
        if (s.task t).scheduled = true then
          (s.set_tree (rinoorbtree_remove s.driver.proc_tree t)).set_task t
            { s.task t with scheduled := false }
        else s
      let s2 :=
        match tv with
        | some v => s1.set_task t { s1.task t with tv := v }
        | none => s1.set_task t { s1.task t with tv := Timeval.zero }
      let r := rinoorbtree_put (rinoo_task_cmp s2) s2.driver.proc_tree t
      if r.1 ≠ 0 then (-1, s2)
      else (0, (s2.set_tree r.2).set_task t { s2.task t with scheduled := true })

/-- The function `rinoo_task_destroy`: unschedule, then free. -/
def rinoo_task_destroy (s : t_rinoosched) (task : TaskPtr) : t_rinoosched :=
  let s1 := (rinoo_task_unschedule s (some task)).2
  { s1 with live := Function.update s1.live task false }

/-- The function `rinoo_task_resume`, over the swap it calls. -/
def rinoo_task_resume (fcontext_swap : Swap) (s : t_rinoosched)
    (task : Option TaskPtr) : Int × t_rinoosched :=
  match task with
  | none => (-1, s)
  | some t =>
    let old := s.driver.current
    let s1 := s.set_current t
    let r := fcontext_swap s1 old t
    let s2 := r.2.set_current old
    if r.1 = 0 then (r.1, rinoo_task_destroy s2 t) else (r.1, s2)

/-- The function `rinoo_task_start`. -/
def rinoo_task_start (s : t_rinoosched) (malloc : Option Nat) (function : Option Nat)
    (arg : Nat) : Int × t_rinoosched :=
  let r := rinoo_task s malloc (some TaskPtr.main) function arg
  match r.1 with
  | none => (-1, r.2)
  | some task => (0, (rinoo_task_schedule r.2 (some task) none).2)

/-- The function `rinoo_task_run`. -/
def rinoo_task_run (fcontext_swap : Swap) (s : t_rinoosched) (malloc : Option Nat)
    (function : Option Nat) (arg : Nat) : Int × t_rinoosched :=
  let r := rinoo_task s malloc (some s.driver.current) function arg
  match r.1 with
  | none => (-1, r.2)
  | some task => rinoo_task_resume fcontext_swap r.2 (some task)

/-- The function `rinoo_task_release`: the swap from the current task to main.
It moves control and leaves the scheduler data as it is, so the scheduler that
main finds is the one the task left. -/
def rinoo_task_release (s : t_rinoosched) : t_rinoosched := s

/-- The function `rinoo_task_wait`, `ms` being an unsigned 32-bit value.  The
scheduler returned is the one at the point where the call gives up control
(release) or fails; after a release the call returns 0 once the task is
resumed. -/
def rinoo_task_wait (s : t_rinoosched) (ms : Nat) : Int × t_rinoosched :=
  if ms = 0 then
    let r := rinoo_task_schedule s (some (rinoo_task_driver_getcurrent s)) none
    if r.1 ≠ 0 then (-1, r.2) else (0, rinoo_task_release r.2)
  else
    let toadd : Timeval := ⟨((ms / 1000 : Nat) : Int), (((ms % 1000) * 1000 : Nat) : Int)⟩
    let res := timeradd s.clock toadd
    let r := rinoo_task_schedule s (some (rinoo_task_driver_getcurrent s)) (some res)
    if r.1 ≠ 0 then (-1, r.2) else (0, rinoo_task_release r.2)

/-- One resumption made by `rinoo_task_driver_run`: the task taken from the
tree, with its target time and the clock at that moment. -/
structure Resumption where
  task : TaskPtr
  tv : Timeval
  clock : Timeval
deriving DecidableEq, Repr

/-- The outcome of `rinoo_task_driver_run` after a bounded number of loop
iterations: `ret` is the value returned (`none` when the loop is still
running), `sched` the scheduler reached, `resumed` the resumptions made, in
order. -/
structure DriverRun where
  ret : Option Nat
  sched : t_rinoosched
  resumed : List Resumption

/-- The function `rinoo_task_driver_run`, its `while` loop unrolled at most
`fuel` times.  The value returned is the C expression
`(tv.tv_sec * 1000) + (tv.tv_usec / 1000)` converted to `u32`: the division
truncates, the conversion reduces modulo `2 ^ 32`.  (The guard that returns
1000 for a null scheduler has no counterpart, the scheduler being a value.) -/
def rinoo_task_driver_run (fcontext_swap : Swap) : Nat → t_rinoosched → DriverRun
  | 0, s => ⟨none, s, []⟩
  | fuel + 1, s =>
    match rinoorbtree_head s.driver.proc_tree with
    | none => ⟨some 1000, s, []⟩
    | some task =>
      if timercmp_le (s.task task).tv s.clock = true then
        let s1 := (rinoo_task_unschedule s (some task)).2
        let s2 := (rinoo_task_resume fcontext_swap s1 (some task)).2
        let r := rinoo_task_driver_run fcontext_swap fuel s2
        ⟨r.ret, r.sched, ⟨task, (s.task task).tv, s.clock⟩ :: r.resumed⟩
      else
        let tv := timersub (s.task task).tv s.clock
        ⟨some (((tv.tv_sec * 1000 + Int.tdiv tv.tv_usec 1000) % 4294967296).toNat), s, []⟩

/-! ## Notions used to state the properties -/

instance (t : Timeval) : Decidable t.normalized := by
  unfold Timeval.normalized
  infer_instance

/-- The in-order sequence `l` with `t` placed for the target time `w`: after
the leading nodes whose target time is not later than `w`, before the rest. -/
def placed (s : t_rinoosched) (w : Timeval) (t : TaskPtr) (l : List TaskPtr) :
    List TaskPtr :=
  l.takeWhile (fun x => !timercmp_lt w (s.task x).tv) ++
    t :: l.dropWhile (fun x => !timercmp_lt w (s.task x).tv)
/-- The timer tree is well formed: it has no node twice, its nodes are in
non-decreasing order of target time, and each node belongs to a task that is
attached to the scheduler and has its `scheduled` flag set. -/
def t_rinoosched.wf (s : t_rinoosched) : Prop :=
  s.nodes.Nodup ∧
  s.nodes.Pairwise (fun a b => timercmp_lt (s.task b).tv (s.task a).tv = false) ∧
  ∀ t ∈ s.nodes, (s.task t).sched = true ∧ (s.task t).scheduled = true

instance (s : t_rinoosched) : Decidable s.wf := by
  unfold t_rinoosched.wf
  infer_instance

/-- Between `s` and `s'` nothing touched the task `x` as a timer: the clock and
the target time of `x` are the same, and `x` is still in the tree if it was. -/
def Undisturbed (x : TaskPtr) (s s' : t_rinoosched) : Prop :=
  s'.clock = s.clock ∧ (s'.task x).tv = (s.task x).tv ∧ (x ∈ s.nodes → x ∈ s'.nodes)

/-- Between `s` and `s'` nothing was scheduled or unscheduled: the clock, the
timer tree and the scheduling fields of every task are the same. -/
def SameTimers (s s' : t_rinoosched) : Prop :=
  s'.clock = s.clock ∧ s'.nodes = s.nodes ∧
  ∀ p, (s'.task p).tv = (s.task p).tv ∧ (s'.task p).scheduled = (s.task p).scheduled ∧
    (s'.task p).sched = (s.task p).sched

/-- A swap during which the tasks that run schedule and unschedule nothing. -/
def Swap.quiet (swap : Swap) : Prop :=
  ∀ s a b, SameTimers s (swap s a b).2

/-- One pass of the loop of `rinoo_task_driver_run` on the due task `task`:
unschedule it, then resume it. -/
def driver_step (fcontext_swap : Swap) (s : t_rinoosched) (task : TaskPtr) :
    t_rinoosched :=
  (rinoo_task_resume fcontext_swap (rinoo_task_unschedule s (some task)).2 (some task)).2

/-- The value `rinoo_task_driver_run` returns for the head `task` that is not
yet due. -/
def driver_delta (s : t_rinoosched) (task : TaskPtr) : Nat :=
  (((timersub (s.task task).tv s.clock).tv_sec * 1000
    + Int.tdiv (timersub (s.task task).tv s.clock).tv_usec 1000) % 4294967296).toNat

/-- Schedule the tasks of `l`, each for its time, one call of
`rinoo_task_schedule` after the other. -/
def schedule_all (s : t_rinoosched) : List (TaskPtr × Timeval) → t_rinoosched
  | [] => s
  | p :: l => schedule_all (rinoo_task_schedule s (some p.1) (some p.2)).2 l

/-- The scheduler `s` holds in its timer tree exactly the tasks of `done`, each
with the target time it was scheduled for, in timer order: the tree is well
formed, and of two tasks of `done` the one scheduled first, if its time is not
the later one, comes first in the tree. -/
def InTimerOrder (s : t_rinoosched) (done : List (TaskPtr × Timeval)) : Prop :=
  s.wf ∧ s.nodes.Perm (done.map Prod.fst) ∧ (∀ p ∈ done, (s.task p.1).tv = p.2) ∧
  ∀ a b wa wb, List.Sublist [(a, wa), (b, wb)] done → timercmp_lt wb wa = false →
    List.Sublist [a, b] s.nodes

/-! ## Concrete schedulers and swaps used to instantiate the theorems -/

/-- A task record as `rinoo_task` leaves it, without a link. -/
def task0 : t_rinootask := ⟨true, false, Timeval.zero, ⟨none, none⟩⟩

/-- A scheduler at clock 10 s with an empty timer tree, main being current. -/
def sched0 : t_rinoosched :=
  ⟨⟨10, 0⟩, ⟨⟨[]⟩, TaskPtr.main⟩, fun _ => task0, fun _ => true⟩

/-- The swap into a task whose entry function returns at once. -/
def swap_finish : Swap := fun s _ _ => (0, s)

/-- The swap into a task that calls `rinoo_task_wait(sched, 2500)`. -/
def swap_sleep : Swap := fun s _ _ => (1, (rinoo_task_wait s 2500).2)

/-- The swap into a task that releases itself at once. -/
def swap_release : Swap := fun s _ _ => (1, s)

/-- The scheduler `sched0` with three tasks scheduled through
`rinoo_task_schedule`: task 1 for 5 s, task 2 for 3 s, task 3 for 15.0005 s. -/
def sched1 : t_rinoosched :=
  (rinoo_task_schedule
    (rinoo_task_schedule
      (rinoo_task_schedule sched0 (some (TaskPtr.heap 1)) (some ⟨5, 0⟩)).2
      (some (TaskPtr.heap 2)) (some ⟨3, 0⟩)).2
    (some (TaskPtr.heap 3)) (some ⟨15, 500⟩)).2

/-- The scheduler `sched1` with task 5 scheduled with a null time (target time
zero) and task 7 as the current task. -/
def sched2 : t_rinoosched :=
  (rinoo_task_schedule sched1 (some (TaskPtr.heap 5)) none).2.set_current (TaskPtr.heap 7)

/-- The body of task T3 of the nested-run test: its entry function returns. -/
def swap_task3 : Swap := fun s _ _ => (0, s)

/-- The body of task T2 of the nested-run test: it creates T3 (at address 3)
and runs it synchronously with `rinoo_task_run`, then returns. -/
def swap_task2 : Swap :=
  fun s _ _ => (0, (rinoo_task_run swap_task3 s (some 3) (some 3) 0).2)

/-- The body of task T1 of the nested-run test: it creates T2 (at address 2)
and runs it synchronously with `rinoo_task_run`, then returns. -/
def swap_task1 : Swap :=
  fun s _ _ => (0, (rinoo_task_run swap_task2 s (some 2) (some 2) 0).2)

/-- The scheduler of the nested-run test when the loop starts: T1 created (at
address 1) with main as its parent and scheduled with a null time. -/
def sched_nested : t_rinoosched :=
  (rinoo_task_start sched0 (some 1) (some 1) 0).2

/-- The scheduler `sched1` in which the memory at address 9 is not allocated. -/
def sched_free9 : t_rinoosched :=
  { sched1 with live := fun p => decide (p ≠ TaskPtr.heap 9) }

/-- The swap into the tasks of a scheduler in which task 1 calls
`rinoo_task_wait(sched, 0)` every time it is resumed and the entry function of
every other task returns at once. -/
def swap_spin : Swap :=
  fun s _ b => if b = TaskPtr.heap 1 then (1, (rinoo_task_wait s 0).2) else (0, s)

/-- The task `t`, entered by the swap in the scheduler `s`, yields with
`rinoo_task_wait(sched, 0)`: what it did before the call changed only its own
saved context, the state that is private to the task, and the swap returns 1
with the scheduler `rinoo_task_wait` leaves. -/
def yields_zero (swap : Swap) (s : t_rinoosched) (a t : TaskPtr) : Prop :=
  ∃ ctx : t_fcontext,
    swap s a t = (1, (rinoo_task_wait (s.set_task t { s.task t with context := ctx }) 0).2)

/-- The swap into a task whose entry function calls `rinoo_task_wait(sched, 0)`
as many times as its argument says and then returns.  The number of calls left
is private to the task; it is kept in its saved context, in the place of the
argument. -/
def swap_countdown : Swap :=
  fun s _ b =>
    match (s.task b).context.entry with
    | some (f, n + 1) =>
      (1, (rinoo_task_wait (s.set_task b
        { s.task b with context := { (s.task b).context with entry := some (f, n) } }) 0).2)
    | _ => (0, s)

/-- The number of times the task at `u` still yields under `swap_countdown`. -/
def yields_left (s : t_rinoosched) (u : TaskPtr) : Nat :=
  match (s.task u).context.entry with
  | some e => e.2
  | none => 0

/-- The number of resumptions the tasks of the tree still need under
`swap_countdown`: one for each task, and one more for each yield left. -/
def yield_budget (s : t_rinoosched) : Nat :=
  (s.nodes.map (fun u => yields_left s u + 1)).sum

/-- The scheduler `sched0` (clock 10 s) with task 1 started with the argument
2: under `swap_countdown` it yields twice, then returns. -/
def sched_yield2 : t_rinoosched :=
  (rinoo_task_start sched0 (some 1) (some 7) 2).2
/-! ## The readiness poller (epoll.c) -/

/-- The flag `EPOLLIN` of sys/epoll.h. -/
def EPOLLIN : Nat := 1

/-- The flag `EPOLLOUT` of sys/epoll.h. -/
def EPOLLOUT : Nat := 4

/-- The flag `EPOLLERR` of sys/epoll.h. -/
def EPOLLERR : Nat := 8

/-- The flag `EPOLLHUP` of sys/epoll.h. -/
def EPOLLHUP : Nat := 16

/-- The flag `EPOLLONESHOT` of sys/epoll.h, `1u << 30`. -/
def EPOLLONESHOT : Nat := 1073741824

/-- The operation `EPOLL_CTL_ADD` of sys/epoll.h. -/
def EPOLL_CTL_ADD : Nat := 1

/-- The operation `EPOLL_CTL_DEL` of sys/epoll.h. -/
def EPOLL_CTL_DEL : Nat := 2

/-- The operation `EPOLL_CTL_MOD` of sys/epoll.h. -/
def EPOLL_CTL_MOD : Nat := 3

/-- The error number `ECONNRESET` of errno.h. -/
def ECONNRESET : Int := 104

/-- The C `struct epoll_event`: the event mask (a `uint32_t`) and the
descriptor stored in `data.fd`. -/
structure epoll_event where
  events : Nat
  fd : Int
deriving DecidableEq, Repr

/-- The fields of `t_rinoosocket` the poller reads: the descriptor, and the
epoll descriptor of the poller of its scheduler
(`((t_rinooepoll *) socket->sched->poll->context)->fd`). -/
structure t_rinoosocket where
  fd : Int
  epfd : Int
deriving DecidableEq, Repr

/-- The system call `epoll_ctl(epfd, op, fd, event)`, as far as the poller
sees it: its result. -/
abbrev EpollCtl := Int → Nat → Int → Option epoll_event → Int

/-- The function `rinoo_epoll_insert`.  The constants `RINOO_MODE_IN` and
`RINOO_MODE_OUT` are declared in a header that is not among the sources and
are parameters. -/
def rinoo_epoll_insert (epoll_ctl : EpollCtl) (RINOO_MODE_IN RINOO_MODE_OUT : Nat)
    (socket : Option t_rinoosocket) (mode : Nat) : Int :=
  match socket with
  | none => -1
  | some sk =>
    let ev0 : epoll_event := ⟨0, 0⟩
    let ev1 : epoll_event :=
      if mode &&& RINOO_MODE_IN = RINOO_MODE_IN then
        { ev0 with events := ev0.events ||| EPOLLIN }
      else ev0
    let ev2 : epoll_event :=
      if mode &&& RINOO_MODE_OUT = RINOO_MODE_OUT then
        { ev1 with events := ev1.events ||| EPOLLOUT }
      else ev1
    let ev3 : epoll_event := { ev2 with events := ev2.events ||| EPOLLONESHOT }
    let ev4 : epoll_event := { ev3 with fd := sk.fd }
    if epoll_ctl sk.epfd EPOLL_CTL_ADD sk.fd (some ev4) ≠ 0 then -1 else 0

/-- The function `rinoo_epoll_addmode`. -/
def rinoo_epoll_addmode (epoll_ctl : EpollCtl) (RINOO_MODE_IN RINOO_MODE_OUT : Nat)
    (socket : Option t_rinoosocket) (mode : Nat) : Int :=
  match socket with
  | none => -1
  | some sk =>
    let ev0 : epoll_event := ⟨0, 0⟩
    let ev1 : epoll_event :=
      if mode &&& RINOO_MODE_IN = RINOO_MODE_IN then
        { ev0 with events := ev0.events ||| EPOLLIN }
      else ev0
    let ev2 : epoll_event :=
      if mode &&& RINOO_MODE_OUT = RINOO_MODE_OUT then
        { ev1 with events := ev1.events ||| EPOLLOUT }
      else ev1
    let ev3 : epoll_event := { ev2 with events := ev2.events ||| EPOLLONESHOT }
    let ev4 : epoll_event := { ev3 with fd := sk.fd }
    if epoll_ctl sk.epfd EPOLL_CTL_MOD sk.fd (some ev4) ≠ 0 then -1 else 0

/-- The function `rinoo_epoll_remove`. -/
def rinoo_epoll_remove (epoll_ctl : EpollCtl) (socket : Option t_rinoosocket) : Int :=
  match socket with
  | none => -1
  | some sk => if epoll_ctl sk.epfd EPOLL_CTL_DEL sk.fd none ≠ 0 then -1 else 0

/-- What `rinoo_epoll_poll` reads and writes of the scheduler: the descriptor
table (descriptor number to socket, a socket being named by its address) and
`errno`. -/
structure t_rinoopoll where
  table : Int → Option Nat
  errno : Int

/-- Modelled from the spec: `rinoo_sched_get` is not among the sources; it
"looks up its socket in the descriptor table" and returns `NULL` for a
descriptor that is not in the table. -/
def rinoo_sched_get (s : t_rinoopoll) (fd : Int) : Option Nat :=
  s.table fd

/-- Modelled from the spec: `rinoo_socket_resume` is not among the sources; it
"resumes the parked task".  A value of this type stands for everything that
runs until the call returns (the resumed task may close sockets, which takes
them out of the descriptor table): it gives the state found on return. -/
abbrev SocketResume := t_rinoopoll → Option Nat → t_rinoopoll

/-- What `rinoo_epoll_poll` does that can be observed: a lookup in the
descriptor table with its result, or a call of `rinoo_socket_resume` with its
argument and the value of `errno` at the call. -/
inductive PollAction where
  | get (fd : Int) (found : Option Nat)
  | resume (socket : Option Nat) (errno : Int)
deriving DecidableEq, Repr

/-- Whether the action is a call of `rinoo_socket_resume`. -/
def PollAction.is_resume : PollAction → Bool
  | PollAction.get _ _ => false
  | PollAction.resume _ _ => true

/-- The body of the `for` loop of `rinoo_epoll_poll`, for the event `ev`: the
state reached and the actions made, in order. -/
def rinoo_epoll_poll_event (rinoo_socket_resume : SocketResume) (s : t_rinoopoll)
    (ev : epoll_event) : t_rinoopoll × List PollAction :=
  let cur0 := rinoo_sched_get s ev.fd
  let r1 : t_rinoopoll × List PollAction :=
    if ev.events &&& EPOLLIN = EPOLLIN then
      (rinoo_socket_resume { s with errno := 0 } cur0,
        [PollAction.get ev.fd cur0, PollAction.resume cur0 0])
    else (s, [PollAction.get ev.fd cur0])
  let cur1 := rinoo_sched_get r1.1 ev.fd
  match cur1 with
  | none => (r1.1, r1.2 ++ [PollAction.get ev.fd none])
  | some c1 =>
    let r2 : t_rinoopoll × List PollAction :=
      if ev.events &&& EPOLLOUT = EPOLLOUT then
        (rinoo_socket_resume { r1.1 with errno := 0 } (some c1),
          r1.2 ++ [PollAction.get ev.fd (some c1), PollAction.resume (some c1) 0])
      else (r1.1, r1.2 ++ [PollAction.get ev.fd (some c1)])
    let cur2 := rinoo_sched_get r2.1 ev.fd
    match cur2 with
    | none => (r2.1, r2.2 ++ [PollAction.get ev.fd none])
    | some c2 =>
      if ev.events &&& EPOLLERR = EPOLLERR ∨ ev.events &&& EPOLLHUP = EPOLLHUP then
        (rinoo_socket_resume { r2.1 with errno := ECONNRESET } (some c2),
          r2.2 ++ [PollAction.get ev.fd (some c2), PollAction.resume (some c2) ECONNRESET])
      else (r2.1, r2.2 ++ [PollAction.get ev.fd (some c2)])

/-- The `for` loop of `rinoo_epoll_poll` over the reported events. -/
def rinoo_epoll_poll_loop (rinoo_socket_resume : SocketResume) :
    t_rinoopoll → List epoll_event → t_rinoopoll × List PollAction
  | s, [] => (s, [])
  | s, ev :: rest =>
    let r := rinoo_epoll_poll_event rinoo_socket_resume s ev
    let r' := rinoo_epoll_poll_loop rinoo_socket_resume r.1 rest
    (r'.1, r.2 ++ r'.2)

/-- The function `rinoo_epoll_poll`.  The call of `epoll_pwait` is given by
its result `nbevents` and the content `events` of the event buffer, of which
the loop reads the first `nbevents` entries.  Returns the result, the state
reached and the actions made, in order. -/
def rinoo_epoll_poll (rinoo_socket_resume : SocketResume) (s : t_rinoopoll)
    (nbevents : Int) (events : List epoll_event) :
    Int × t_rinoopoll × List PollAction :=
  if nbevents = -1 then (0, s, [])
  else
    let r := rinoo_epoll_poll_loop rinoo_socket_resume s (events.take nbevents.toNat)
    (0, r.1, r.2)

/-- The resumptions the rules of dispatch ask for, for one event with the flags
`F` on the socket `socket`: one with the error cleared if `F` contains IN, then
one with the error cleared if `F` contains OUT, then one with the error set to
"connection reset" if `F` contains ERR or HUP. -/
def dispatch_rule (socket : Option Nat) (F : Nat) : List PollAction :=
  (if F &&& EPOLLIN = EPOLLIN then [PollAction.resume socket 0] else []) ++
  (if F &&& EPOLLOUT = EPOLLOUT then [PollAction.resume socket 0] else []) ++
  (if F &&& EPOLLERR = EPOLLERR ∨ F &&& EPOLLHUP = EPOLLHUP then
    [PollAction.resume socket ECONNRESET] else [])

/-- The state after the IN step of the loop body for the event `ev`: the
socket found by the first lookup has been resumed with `errno` 0 if the flags
contain IN. -/
def after_in_step (resume : SocketResume) (s : t_rinoopoll) (ev : epoll_event) :
    t_rinoopoll :=
  if ev.events &&& EPOLLIN = EPOLLIN then
    resume { s with errno := 0 } (rinoo_sched_get s ev.fd)
  else s

/-- The state after the OUT step of the loop body for the event `ev`, from the
state `s1` in which the lookup found the socket `c1`: that socket has been
resumed with `errno` 0 if the flags contain OUT. -/
def after_out_step (resume : SocketResume) (s1 : t_rinoopoll) (ev : epoll_event)
    (c1 : Nat) : t_rinoopoll :=
  if ev.events &&& EPOLLOUT = EPOLLOUT then resume { s1 with errno := 0 } (some c1)
  else s1

/-- Every call of `rinoo_socket_resume` in the sequence of actions comes right
after a lookup that found that very socket in the descriptor table. -/
def guarded : List PollAction → Bool
  | [] => true
  | PollAction.resume _ _ :: _ => false
  | PollAction.get _ found :: PollAction.resume socket _ :: rest =>
    decide (found = socket ∧ socket ≠ none) && guarded rest
  | PollAction.get _ _ :: rest => guarded rest

/-- A descriptor table with the sockets 100, 101 and 102 on the descriptors 3,
4 and 5. -/
def poll0 : t_rinoopoll :=
  ⟨fun fd => if fd = 3 then some 100 else if fd = 4 then some 101
    else if fd = 5 then some 102 else none, 0⟩

/-- A resumed task that leaves the descriptor table as it is. -/
def resume_keep : SocketResume := fun s _ => s

/-- A resumed task that closes its socket: the descriptor of the socket is
taken out of the descriptor table. -/
def resume_close : SocketResume :=
  fun s so => { s with table := fun fd => if s.table fd = so then none else s.table fd }

/-- A kernel that accepts every `epoll_ctl` request. -/
def ctl_ok : EpollCtl := fun _ _ _ _ => 0

/-- A kernel that refuses every `epoll_ctl` request. -/
def ctl_fail : EpollCtl := fun _ _ _ _ => -1


/-- A resumed task that, when its socket 100 is resumed, closes the socket on
descriptor 4 as well as leaving its own: descriptor 4 is taken out of the
descriptor table. -/
def resume_close_peer : SocketResume :=
  fun s so =>
    if so = some 100 then { s with table := fun fd => if fd = 4 then none else s.table fd }
    else s
/-! ## Linked nodes in memory -/

/-- The nodes at the addresses `l`, in this order, are linked from the pointer
`p` to the pointer `q` by the link `nx` (the `next` field, or the `prev`
field read backwards): `p` points to the first, the link of each points to the
following one, and the link of the last is `q`. -/
def sseg (nx : Nat → Option Nat) : Option Nat → List Nat → Option Nat → Prop
  | p, [], q => p = q
  | p, a :: l, q => p = some a ∧ sseg nx (nx a) l q

instance sseg_decidable (nx : Nat → Option Nat) :
    (p : Option Nat) → (l : List Nat) → (q : Option Nat) → Decidable (sseg nx p l q)
  | p, [], q => inferInstanceAs (Decidable (p = q))
  | _, a :: l, q => @instDecidableAnd _ _ _ (sseg_decidable nx (nx a) l q)

/-! ## The fifo (fifo.c) -/

/-- The C `t_fifonode`: the element, the function that frees it, and the next
node (`none` is `NULL`). -/
structure t_fifonode where
  node : Option Nat
  free_func : Option Nat
  next : Option Nat
deriving DecidableEq, Repr

/-- The C `t_fifo`: the head and tail nodes and the number of elements.  The
counter `size` is an unsigned machine integer; its width in bits is the
parameter `bits` of the functions that write it (32 for a `u32`). -/
structure t_fifo where
  head : Option Nat
  tail : Option Nat
  size : Nat
deriving DecidableEq, Repr

/-- A fifo with the memory that holds its nodes: `mem` gives the node stored at
an address, `live` tells which addresses are allocated. -/
structure FifoState where
  fifo : t_fifo
  mem : Nat → t_fifonode
  live : Nat → Bool

/-- The function `fifo_create`: a zeroed fifo (`calloc`), or nothing when the
allocation fails; `calloc` tells whether it succeeds. -/
def fifo_create (calloc : Bool) (mem : Nat → t_fifonode) (live : Nat → Bool) :
    Option FifoState :=
  if calloc then some ⟨⟨none, none, 0⟩, mem, live⟩ else none

/-- The function `fifo_push`: `calloc` is the address of the node allocated
(`none` when the allocation fails), `node` the element (`none` for `NULL`). -/
def fifo_push (bits : Nat) (s : FifoState) (calloc : Option Nat) (node : Option Nat)
    (free_func : Option Nat) : Int × FifoState :=
  match node with
  | none => (-1, s)
  | some _ =>
    match calloc with
    | none => (-1, s)
    | some new =>
      let m0 := Function.update s.mem new ⟨none, none, none⟩
      let m1 := Function.update m0 new { m0 new with node := node }
      let m2 := Function.update m1 new { m1 new with free_func := free_func }
      let f1 : t_fifo :=
        if s.fifo.head = none then { s.fifo with head := some new } else s.fifo
      let m3 :=
        match f1.tail with
        | some tail => Function.update m2 tail { m2 tail with next := some new }
        | none => m2
      let f2 : t_fifo := { f1 with tail := some new }
      let f3 : t_fifo := { f2 with size := (f2.size + 1) % 2 ^ bits }
      (0, ⟨f3, m3, Function.update s.live new true⟩)

/-- The function `fifo_pop`: the element of the head node, which is unlinked
and freed, or `none` (`NULL`) when the fifo is empty. -/
def fifo_pop (bits : Nat) (s : FifoState) : Option Nat × FifoState :=
  match s.fifo.head with
  | none => (none, s)
  | some elem =>
    let f1 : t_fifo := { s.fifo with head := (s.mem elem).next }
    let f2 : t_fifo := if f1.head = none then { f1 with tail := none } else f1
    let node := (s.mem elem).node
    let f3 : t_fifo := { f2 with size := (f2.size + 2 ^ bits - 1) % 2 ^ bits }
    (node, ⟨f3, s.mem, Function.update s.live elem false⟩)

/-- The function `fifo_get`: the element of the head node, or `none` (`NULL`)
when the fifo is empty.  It writes nothing. -/
def fifo_get (s : FifoState) : Option Nat :=
  match s.fifo.head with
  | none => none
  | some head => (s.mem head).node

/-- The fifo `s` queues the nodes at the addresses `l`, head first: they are
linked by `next` from `head` to `NULL`, `tail` is the last of them, `size` is
their number, and no address occurs twice. -/
def FifoState.queues (s : FifoState) (l : List Nat) : Prop :=
  sseg (fun a => (s.mem a).next) s.fifo.head l none ∧ s.fifo.tail = l.getLast? ∧
  s.fifo.size = l.length ∧ l.Nodup

instance (s : FifoState) (l : List Nat) : Decidable (s.queues l) := by
  unfold FifoState.queues
  infer_instance

/-- The elements of the nodes at the addresses `l`. -/
def FifoState.elems (s : FifoState) (l : List Nat) : List (Option Nat) :=
  l.map (fun a => (s.mem a).node)

/-- Push the elements of `l`, each given with the address `calloc` returns for
its node, one call of `fifo_push` after the other, all with the same
`free_func`: the results and the fifo. -/
def fifo_push_all (bits : Nat) (free_func : Option Nat) (s : FifoState) :
    List (Nat × Nat) → List Int × FifoState
  | [] => ([], s)
  | p :: l =>
    let r := fifo_push bits s (some p.1) (some p.2) free_func
    let r' := fifo_push_all bits free_func r.2 l
    (r.1 :: r'.1, r'.2)

/-- Call `fifo_pop` `n` times: the elements returned, in order, and the fifo. -/
def fifo_pop_n (bits : Nat) : Nat → FifoState → List (Option Nat) × FifoState
  | 0, s => ([], s)
  | n + 1, s =>
    let r := fifo_pop bits s
    let r' := fifo_pop_n bits n r.2
    (r.1 :: r'.1, r'.2)

/-- An empty fifo, as `fifo_create` returns it, in a memory of zeroed nodes. -/
def fifo0 : FifoState := ⟨⟨none, none, 0⟩, fun _ => ⟨none, none, none⟩, fun _ => false⟩

/-! ## The doubly linked list (list.c) -/

/-- The C `t_listnode`: the element, the previous and next nodes and the
function that frees the element (`none` is `NULL`). -/
structure t_listnode where
  node : Option Nat
  prev : Option Nat
  next : Option Nat
  free_func : Option Nat
deriving DecidableEq, Repr

/-- The C `t_listtype`: where `list_addnode` starts to look for the place of a
new node. -/
inductive t_listtype where
  | LIST_SORTED_HEAD
  | LIST_SORTED_TAIL
deriving DecidableEq, Repr

/-- The C `t_list`: the head and tail nodes, the number of elements, the type
and the compare function given to `list_create`.  The counter `size` is an
unsigned machine integer; its width in bits is the parameter `bits` of the
functions that write it (32 for a `u32`). -/
structure t_list where
  head : Option Nat
  tail : Option Nat
  size : Nat
  type : t_listtype
  cmp_func : Option Nat → Option Nat → Int

/-- A list with the memory that holds its nodes: `mem` gives the node stored at
an address, `live` tells which addresses are allocated, and `freed` records
the calls of a `free_func`, oldest first: the function and the element it was
given. -/
structure ListState where
  list : t_list
  mem : Nat → t_listnode
  live : Nat → Bool
  freed : List (Option Nat × Option Nat)

/-- The function `list_insertnode`: link the list node `new` between `prev`
and `next` (`NULL` for the head and for the tail of the list) and count one
element more.  A `NULL` node leaves the list as it is. -/
def list_insertnode (bits : Nat) (s : ListState) (new : Option Nat) (prev next : Option Nat) :
    ListState :=
  match new with
  | none => s
  | some n =>
    let m1 := Function.update s.mem n { s.mem n with prev := prev }
    let m2 := Function.update m1 n { m1 n with next := next }
    let r1 : t_list × (Nat → t_listnode) :=
      match prev with
      | none => ({ s.list with head := some n }, m2)
      | some p => (s.list, Function.update m2 p { m2 p with next := some n })
    let r2 : t_list × (Nat → t_listnode) :=
      match next with
      | none => ({ r1.1 with tail := some n }, r1.2)
      | some x => (r1.1, Function.update r1.2 x { r1.2 x with prev := some n })
    ⟨{ r2.1 with size := (r2.1.size + 1) % 2 ^ bits }, r2.2, s.live, s.freed⟩

/-- The loop of `list_addnode` for `LIST_SORTED_HEAD`:
`while (new->next != NULL && cmp_func(new->node, new->next->node) > 0)
{ new->prev = new->next; new->next = new->next->next; }`
run for at most `fuel` tests of its condition, on the memory `mem`; `nx` is
the node `new->next` points to, which the first assignment leaves as it is.
The result is the memory when the loop ends, or `none` when the fuel runs out. -/
def list_addnode_head (cmp_func : Option Nat → Option Nat → Int) (new : Nat) :
    Nat → (Nat → t_listnode) → Option (Nat → t_listnode)
  | 0, _ => none
  | fuel + 1, mem =>
    match (mem new).next with
    | none => some mem
    | some nx =>
      if cmp_func (mem new).node (mem nx).node > 0 then
        let m1 := Function.update mem new { mem new with prev := (mem new).next }
        let m2 := Function.update m1 new { m1 new with next := (m1 nx).next }
        list_addnode_head cmp_func new fuel m2
      else some mem

/-- The loop of `list_addnode` for `LIST_SORTED_TAIL`:
`while (new->prev != NULL && cmp_func(new->node, new->prev->node) < 0)
{ new->next = new->prev; new->prev = new->prev->prev; }`
run for at most `fuel` tests of its condition, on the memory `mem`. -/
def list_addnode_tail (cmp_func : Option Nat → Option Nat → Int) (new : Nat) :
    Nat → (Nat → t_listnode) → Option (Nat → t_listnode)
  | 0, _ => none
  | fuel + 1, mem =>
    match (mem new).prev with
    | none => some mem
    | some pv =>
      if cmp_func (mem new).node (mem pv).node < 0 then
        let m1 := Function.update mem new { mem new with next := (mem new).prev }
        let m2 := Function.update m1 new { m1 new with prev := (m1 pv).prev }
        list_addnode_tail cmp_func new fuel m2
      else some mem

/-- The function `list_addnode`: look for the place of the list node `new`,
from the head for a `LIST_SORTED_HEAD` list and from the tail for a
`LIST_SORTED_TAIL` list, and insert it there; the result is 0, or -1 for a
`NULL` node.  The result is `none` when the search runs out of fuel. -/
def list_addnode (bits fuel : Nat) (s : ListState) (new : Option Nat) :
    Option (Int × ListState) :=
  match new with
  | none => some (-1, s)
  | some n =>
    let found : Option (Nat → t_listnode) :=
      match s.list.type with
      | t_listtype.LIST_SORTED_HEAD =>
        let m1 := Function.update s.mem n { s.mem n with next := s.list.head }
        let m2 := Function.update m1 n { m1 n with prev := none }
        list_addnode_head s.list.cmp_func n fuel m2
      | t_listtype.LIST_SORTED_TAIL =>
        let m1 := Function.update s.mem n { s.mem n with next := none }
        let m2 := Function.update m1 n { m1 n with prev := s.list.tail }
        list_addnode_tail s.list.cmp_func n fuel m2
    match found with
    | none => none
    | some mem =>
      some (0, list_insertnode bits { s with mem := mem } (some n) (mem n).prev (mem n).next)

/-- The function `list_add`: `calloc` is the address of the list node
allocated (`none` when the allocation fails), `node` the element.  The result
is the new list node, or `NULL`; it is `none` when the search of
`list_addnode` runs out of fuel. -/
def list_add (bits fuel : Nat) (s : ListState) (calloc : Option Nat) (node : Option Nat)
    (free_func : Option Nat) : Option (Option Nat × ListState) :=
  match calloc with
  | none => some (none, s)
  | some n =>
    let m0 := Function.update s.mem n ⟨none, none, none, none⟩
    let m1 := Function.update m0 n { m0 n with node := node }
    let m2 := Function.update m1 n { m1 n with free_func := free_func }
    let s1 : ListState := { s with mem := m2, live := Function.update s.live n true }
    match list_addnode bits fuel s1 (some n) with
    | none => none
    | some r =>
      if r.1 ≠ 0 then some (none, { r.2 with live := Function.update r.2.live n false })
      else some (some n, r.2)

/-- The function `list_removenode`: unlink the list node `node` from its
neighbours (or from the head and the tail of the list), call its `free_func`
on the element when there is one and `needfree` is `TRUE`, free the node and
count one element less.  `needfree` tells whether the C argument equals
`TRUE`; a `NULL` node gives -1. -/
def list_removenode (bits : Nat) (s : ListState) (node : Option Nat) (needfree : Bool) :
    Int × ListState :=
  match node with
  | none => (-1, s)
  | some n =>
    let r1 : t_list × (Nat → t_listnode) :=
      match (s.mem n).prev with
      | none => ({ s.list with head := (s.mem n).next }, s.mem)
      | some p => (s.list, Function.update s.mem p { s.mem p with next := (s.mem n).next })
    let r2 : t_list × (Nat → t_listnode) :=
      match (r1.2 n).next with
      | none => ({ r1.1 with tail := (r1.2 n).prev }, r1.2)
      | some x => (r1.1, Function.update r1.2 x { r1.2 x with prev := (r1.2 n).prev })
    let freed :=
      if (r2.2 n).free_func ≠ none ∧ needfree = true then
        s.freed ++ [((r2.2 n).free_func, (r2.2 n).node)]
      else s.freed
    (0, ⟨{ r2.1 with size := (r2.1.size + 2 ^ bits - 1) % 2 ^ bits }, r2.2,
      Function.update s.live n false, freed⟩)

/-- The loop of `list_remove` and `list_find`:
`while (cur != NULL && list->cmp_func(cur->node, node) != 0) cur = cur->next;`
run for at most `fuel` tests of its condition.  The result is the value of
`cur` when the loop ends, or `none` when the fuel runs out before. -/
def list_search (s : ListState) (node : Option Nat) : Nat → Option Nat → Option (Option Nat)
  | 0, _ => none
  | _ + 1, none => some none
  | fuel + 1, some cur =>
    if s.list.cmp_func (s.mem cur).node node ≠ 0 then
      list_search s node fuel (s.mem cur).next
    else some (some cur)

/-- The function `list_remove`: remove the first node from the head whose
element compares equal to `node`, and return 0, or return -1 when the search
ends at `NULL`.  The result is `none` when the search runs out of fuel. -/
def list_remove (bits : Nat) (fuel : Nat) (s : ListState) (node : Option Nat)
    (needfree : Bool) : Option (Int × ListState) :=
  match list_search s node fuel s.list.head with
  | none => none
  | some (some cur) => some (0, (list_removenode bits s (some cur) needfree).2)
  | some none => some (-1, s)

/-- The function `list_find`: the element of the first node from the head whose
element compares equal to `node`, or `NULL` when the search ends at `NULL`.
The result is `none` when the search runs out of fuel.  It writes nothing. -/
def list_find (fuel : Nat) (s : ListState) (node : Option Nat) : Option (Option Nat) :=
  match list_search s node fuel s.list.head with
  | none => none
  | some (some cur) => some (s.mem cur).node
  | some none => some none

/-- The function `list_getnext`: `iterator` is the iterator the caller passes
by address, `none` for a `NULL` address and `some it` for an iterator that
holds the node `it`.  The iterator moves to the head of the list when it holds
`NULL` and to the next node otherwise; the result is the element of the node
it then holds, or `NULL`, together with the iterator. -/
def list_getnext (s : ListState) (iterator : Option (Option Nat)) :
    Option Nat × Option (Option Nat) :=
  match iterator with
  | none => (none, none)
  | some it =>
    let it1 : Option Nat :=
      match it with
      | none => s.list.head
      | some cur => (s.mem cur).next
    match it1 with
    | none => (none, some none)
    | some cur => ((s.mem cur).node, some (some cur))

/-- The list `s` holds the nodes at the addresses `l`, head first: they are
linked by `next` from `head` to `NULL` and by `prev` from `tail` back to
`NULL`, `size` is their number, and no address occurs twice. -/
def ListState.holds (s : ListState) (l : List Nat) : Prop :=
  sseg (fun a => (s.mem a).next) s.list.head l none ∧
  sseg (fun a => (s.mem a).prev) s.list.tail l.reverse none ∧
  s.list.size = l.length ∧ l.Nodup

instance (s : ListState) (l : List Nat) : Decidable (s.holds l) := by
  unfold ListState.holds
  infer_instance

/-- The elements of the nodes at the addresses `l`. -/
def ListState.elems (s : ListState) (l : List Nat) : List (Option Nat) :=
  l.map (fun a => (s.mem a).node)

/-- A compare function that stands for a total preorder: its sign is
antisymmetric (one element compares below another iff the other compares above
it, so two elements compare equal in both orders or in none), and comparing
below or equal is transitive. -/
def cmp_total_preorder (cmp_func : Option Nat → Option Nat → Int) : Prop :=
  (∀ a b, cmp_func a b < 0 ↔ 0 < cmp_func b a) ∧
  ∀ a b c, cmp_func a b ≤ 0 → cmp_func b c ≤ 0 → cmp_func a c ≤ 0

/-- The elements `l` are in non-decreasing order under `cmp_func`. -/
def non_decreasing (cmp_func : Option Nat → Option Nat → Int) (l : List (Option Nat)) :
    Prop :=
  l.Pairwise (fun a b => cmp_func a b ≤ 0)

instance (cmp_func : Option Nat → Option Nat → Int) (l : List (Option Nat)) :
    Decidable (non_decreasing cmp_func l) := by
  unfold non_decreasing
  infer_instance

/-- The list `s'` is the list `s`, which holds the nodes `l`, with the node
`new` of element `x` added in order: `new` stands between two parts `A` and
`B` of `l`, the other nodes keep their places and all elements are as they
were, the elements are in non-decreasing order, the size is one larger, and
`new` stands before the elements that compare equal to `x` in a
`LIST_SORTED_HEAD` list (none of them is in `A`) and after them in a
`LIST_SORTED_TAIL` list (none of them is in `B`). -/
def ListState.added (s : ListState) (l : List Nat) (new : Nat) (x : Option Nat)
    (s' : ListState) : Prop :=
  ∃ A B, l = A ++ B ∧ s'.holds (A ++ new :: B) ∧
    s'.elems (A ++ new :: B) = s.elems A ++ x :: s.elems B ∧
    non_decreasing s.list.cmp_func (s'.elems (A ++ new :: B)) ∧
    s'.list.size = s.list.size + 1 ∧
    (s.list.type = t_listtype.LIST_SORTED_HEAD →
      ∀ e ∈ s.elems A, s.list.cmp_func x e ≠ 0 ∧ s.list.cmp_func e x ≠ 0) ∧
    (s.list.type = t_listtype.LIST_SORTED_TAIL →
      ∀ e ∈ s.elems B, s.list.cmp_func x e ≠ 0 ∧ s.list.cmp_func e x ≠ 0)

/-- Call `list_getnext` `n` times on the same list with one iterator: the
element returned and the node the iterator holds after each call, in order. -/
def list_getnext_calls (s : ListState) : Nat → Option (Option Nat) →
    List (Option Nat × Option (Option Nat))
  | 0, _ => []
  | n + 1, iterator =>
    let r := list_getnext s iterator
    r :: list_getnext_calls s n r.2

/-- A compare function for the examples: the difference of the last decimal
digits of two elements, a `NULL` element counting as 0. -/
def cmp_digit (a b : Option Nat) : Int :=
  ((a.getD 0 % 10 : Nat) : Int) - ((b.getD 0 % 10 : Nat) : Int)

/-- A list of the four elements 7, 17, 8, 9, in the order of `cmp_digit`, in the
nodes at the addresses 20, 21, 22, 23. -/
def list0 : ListState :=
  ⟨⟨some 20, some 23, 4, t_listtype.LIST_SORTED_HEAD, cmp_digit⟩,
    fun a =>
      if a = 20 then ⟨some 7, none, some 21, none⟩
      else if a = 21 then ⟨some 17, some 20, some 22, some 1⟩
      else if a = 22 then ⟨some 8, some 21, some 23, none⟩
      else if a = 23 then ⟨some 9, some 22, none, none⟩
      else ⟨none, none, none, none⟩,
    fun a => decide (20 ≤ a ∧ a ≤ 23), []⟩

/-- The list `list0` as a `LIST_SORTED_TAIL` list. -/
def list0_tail : ListState :=
  { list0 with list := { list0.list with type := t_listtype.LIST_SORTED_TAIL } }

/-! ## Sequences of calls of the task driver -/

/-- The timer tree and the tasks agree: the tree has no node twice, each of its
nodes is an allocated task attached to the scheduler with its `scheduled` flag
set, and every allocated task whose `scheduled` flag is set is a node of the
tree. -/
def t_rinoosched.consistent (s : t_rinoosched) : Prop :=
  s.nodes.Nodup ∧
  (∀ t ∈ s.nodes, s.live t = true ∧ (s.task t).sched = true ∧ (s.task t).scheduled = true) ∧
  ∀ t, s.live t = true → (s.task t).scheduled = true → t ∈ s.nodes

/-- A swap that leads from a consistent scheduler to a consistent one, when it
is entered as `rinoo_task_resume` enters it: for an allocated task that has
been made the current task.  The tasks that run during the swap act on the
scheduler through the functions of the driver. -/
def Swap.consistent (swap : Swap) : Prop :=
  ∀ s a t, s.consistent → s.live t = true → s.driver.current = t →
    (swap s a t).2.consistent

/-- A call of one of the functions of the task driver that write the
scheduler, with its arguments. -/
inductive DriverCall where
  | task (malloc : Option Nat) (parent : Option TaskPtr) (function : Option Nat) (arg : Nat)
  | schedule (task : Option TaskPtr) (tv : Option Timeval)
  | unschedule (task : Option TaskPtr)
  | start (malloc : Option Nat) (function : Option Nat) (arg : Nat)
  | destroy (task : TaskPtr)
  | driver_run (fcontext_swap : Swap) (fuel : Nat)

/-- The scheduler a call leaves. -/
def DriverCall.result (s : t_rinoosched) : DriverCall → t_rinoosched
  | DriverCall.task malloc parent function arg => (rinoo_task s malloc parent function arg).2
  | DriverCall.schedule t tv => (rinoo_task_schedule s t tv).2
  | DriverCall.unschedule t => (rinoo_task_unschedule s t).2
  | DriverCall.start malloc function arg => (rinoo_task_start s malloc function arg).2
  | DriverCall.destroy t => rinoo_task_destroy s t
  | DriverCall.driver_run fcontext_swap fuel =>
    (rinoo_task_driver_run fcontext_swap fuel s).sched

/-- What C asks of the arguments of a call: a task passed by address is an
allocated task, `malloc` returns memory that was not allocated, and the tasks
resumed by the driver act through the functions of the driver. -/
def DriverCall.allowed (s : t_rinoosched) : DriverCall → Prop
  | DriverCall.task malloc _ _ _ =>
    match malloc with
    | none => True
    | some addr => s.live (TaskPtr.heap addr) = false
  | DriverCall.schedule t _ =>
    match t with
    | none => True
    | some p => s.live p = true
  | DriverCall.unschedule t =>
    match t with
    | none => True
    | some p => s.live p = true
  | DriverCall.start malloc _ _ =>
    match malloc with
    | none => True
    | some addr => s.live (TaskPtr.heap addr) = false
  | DriverCall.destroy t => s.live t = true
  | DriverCall.driver_run fcontext_swap _ => fcontext_swap.consistent

/-- The scheduler reached from `s` by the calls of `calls`, in order. -/
def run_calls (s : t_rinoosched) : List DriverCall → t_rinoosched
  | [] => s
  | c :: calls => run_calls (DriverCall.result s c) calls

/-- Every call of `calls` is allowed in the scheduler it is made in. -/
def calls_allowed (s : t_rinoosched) : List DriverCall → Prop
  | [] => True
  | c :: calls => DriverCall.allowed s c ∧ calls_allowed (DriverCall.result s c) calls

/-- A scheduler at clock 10 s before `rinoo_task_driver_init`: only the main
task exists, and its memory is zeroed. -/
def sched_boot : t_rinoosched :=
  ⟨⟨10, 0⟩, ⟨⟨[]⟩, TaskPtr.main⟩, fun _ => ⟨false, false, Timeval.zero, ⟨none, none⟩⟩,
    fun p => decide (p = TaskPtr.main)⟩

/-- A sequence of calls for the examples: task 1 is started, task 2 created and
scheduled for 15 s, the driver runs (task 1 is due and finishes at once), task
3 is created and scheduled for 20 s, task 2 is rescheduled for 25 s, task 3 is
unscheduled and destroyed. -/
def calls0 : List DriverCall :=
  [DriverCall.start (some 1) (some 7) 0,
    DriverCall.task (some 2) none (some 7) 0,
    DriverCall.schedule (some (TaskPtr.heap 2)) (some ⟨15, 0⟩),
    DriverCall.driver_run swap_finish 5,
    DriverCall.task (some 3) none (some 7) 0,
    DriverCall.schedule (some (TaskPtr.heap 3)) (some ⟨20, 0⟩),
    DriverCall.schedule (some (TaskPtr.heap 2)) (some ⟨25, 0⟩),
    DriverCall.unschedule (some (TaskPtr.heap 3)),
    DriverCall.destroy (TaskPtr.heap 3)]

/-! ## Reading a scheduler after a write -/

@[simp] theorem set_task_task (s : t_rinoosched) (p : TaskPtr) (t : t_rinootask) :
    (s.set_task p t).task = Function.update s.task p t := rfl
@[simp] theorem set_task_driver (s : t_rinoosched) (p : TaskPtr) (t : t_rinootask) :
    (s.set_task p t).driver = s.driver := rfl
@[simp] theorem set_task_clock (s : t_rinoosched) (p : TaskPtr) (t : t_rinootask) :
    (s.set_task p t).clock = s.clock := rfl
@[simp] theorem set_task_live (s : t_rinoosched) (p : TaskPtr) (t : t_rinootask) :
    (s.set_task p t).live = s.live := rfl
@[simp] theorem set_task_nodes (s : t_rinoosched) (p : TaskPtr) (t : t_rinootask) :
    (s.set_task p t).nodes = s.nodes := rfl
@[simp] theorem set_tree_task (s : t_rinoosched) (tree : t_rinoorbtree) :
    (s.set_tree tree).task = s.task := rfl
@[simp] theorem set_tree_clock (s : t_rinoosched) (tree : t_rinoorbtree) :
    (s.set_tree tree).clock = s.clock := rfl
@[simp] theorem set_tree_live (s : t_rinoosched) (tree : t_rinoorbtree) :
    (s.set_tree tree).live = s.live := rfl
@[simp] theorem set_tree_nodes (s : t_rinoosched) (tree : t_rinoorbtree) :
    (s.set_tree tree).nodes = tree.nodes := rfl
@[simp] theorem set_tree_proc_tree (s : t_rinoosched) (tree : t_rinoorbtree) :
    (s.set_tree tree).driver.proc_tree = tree := rfl
@[simp] theorem set_tree_current (s : t_rinoosched) (tree : t_rinoorbtree) :
    (s.set_tree tree).driver.current = s.driver.current := rfl
@[simp] theorem set_current_task (s : t_rinoosched) (p : TaskPtr) :
    (s.set_current p).task = s.task := rfl
@[simp] theorem set_current_clock (s : t_rinoosched) (p : TaskPtr) :
    (s.set_current p).clock = s.clock := rfl
@[simp] theorem set_current_live (s : t_rinoosched) (p : TaskPtr) :
    (s.set_current p).live = s.live := rfl
@[simp] theorem set_current_nodes (s : t_rinoosched) (p : TaskPtr) :
    (s.set_current p).nodes = s.nodes := rfl
@[simp] theorem set_current_proc_tree (s : t_rinoosched) (p : TaskPtr) :
    (s.set_current p).driver.proc_tree = s.driver.proc_tree := rfl
@[simp] theorem set_current_current (s : t_rinoosched) (p : TaskPtr) :
    (s.set_current p).driver.current = p := rfl
theorem nodes_def (s : t_rinoosched) : s.driver.proc_tree.nodes = s.nodes := rfl

/-! ## Claim C1: the result of rinoo_task_resume -/

/-- Claim C1, as the code behaves: `rinoo_task_resume` returns the very value
the context swap returned.  When the swap returned 0 (the entry function of
the task finished) the task is destroyed and the result is 0, not the 1 its
documentation announces; when the swap returned 1 (the task released itself)
the result is 1, not 0, and the scheduler is the one the swap left with the
current task restored. -/
theorem rinoo_task_resume_returns_swap_result (fcontext_swap : Swap) (s : t_rinoosched)
    (t : TaskPtr) :
    (rinoo_task_resume fcontext_swap s (some t)).1
        = (fcontext_swap (s.set_current t) s.driver.current t).1 ∧
      ((fcontext_swap (s.set_current t) s.driver.current t).1 = 0 →
        (rinoo_task_resume fcontext_swap s (some t)).1 = 0 ∧
        (rinoo_task_resume fcontext_swap s (some t)).2.live t = false) ∧
      ((fcontext_swap (s.set_current t) s.driver.current t).1 = 1 →
        (rinoo_task_resume fcontext_swap s (some t)).1 = 1 ∧
        (rinoo_task_resume fcontext_swap s (some t)).2
          = (fcontext_swap (s.set_current t) s.driver.current t).2.set_current
              s.driver.current) := by
  refine ⟨?_, ?_, ?_⟩
  · unfold rinoo_task_resume
    simp only
    split <;> rfl
  · intro h
    unfold rinoo_task_resume
    simp only [h, if_true]
    refine ⟨trivial, ?_⟩
    simp [rinoo_task_destroy]
  · intro h
    unfold rinoo_task_resume
    simp [h]

/-- A finishing task: the swap returns 0, and so does `rinoo_task_resume`, which
destroys the task.  A releasing task: the swap returns 1, and so does
`rinoo_task_resume`. -/
theorem rinoo_task_resume_returns_swap_result_witness :
    (swap_finish (sched0.set_current (TaskPtr.heap 1)) sched0.driver.current
        (TaskPtr.heap 1)).1 = 0 ∧
      ((rinoo_task_resume swap_finish sched0 (some (TaskPtr.heap 1))).1 = 0 ∧
        (rinoo_task_resume swap_finish sched0 (some (TaskPtr.heap 1))).2.live
          (TaskPtr.heap 1) = false) ∧
      (swap_release (sched0.set_current (TaskPtr.heap 1)) sched0.driver.current
        (TaskPtr.heap 1)).1 = 1 ∧
      (rinoo_task_resume swap_release sched0 (some (TaskPtr.heap 1))).1 = 1 :=
  ⟨rfl, (rinoo_task_resume_returns_swap_result swap_finish sched0 (TaskPtr.heap 1)).2.1 rfl,
    rfl,
    ((rinoo_task_resume_returns_swap_result swap_release sched0 (TaskPtr.heap 1)).2.2 rfl).1⟩

/-! ## Claim C10: the link of a new task -/

theorem rinoo_task_ok_iff (s : t_rinoosched) (malloc : Option Nat) (parent : Option TaskPtr)
    (function : Option Nat) (arg : Nat) (task : TaskPtr) :
    (rinoo_task s malloc parent function arg).1 = some task ↔
      function.isSome = true ∧ ∃ a, malloc = some a ∧ task = TaskPtr.heap a := by
  unfold rinoo_task
  cases function <;> cases malloc <;> simp [eq_comm]

/-- Claim C10, amended: for every call of `rinoo_task` that succeeds, the link
of the created task is the parent that was passed: the context of the parent
when the parent is non-null, and null when the parent is null (the parent
does not default to main). -/
theorem rinoo_task_link_is_parent (s : t_rinoosched) (malloc : Option Nat)
    (parent : Option TaskPtr) (function : Option Nat) (arg : Nat) (task : TaskPtr)
    (hok : (rinoo_task s malloc parent function arg).1 = some task) :
    ((rinoo_task s malloc parent function arg).2.task task).context.link = parent := by
  obtain ⟨hf, a, ha, rfl⟩ := (rinoo_task_ok_iff s malloc parent function arg task).1 hok
  obtain ⟨f, rfl⟩ := Option.isSome_iff_exists.1 hf
  subst ha
  cases parent <;> simp [rinoo_task, fcontext]

/-- A task created with main as its parent has the context of main as its link. -/
theorem rinoo_task_link_is_parent_witness :
    (rinoo_task sched0 (some 1) (some TaskPtr.main) (some 7) 0).1 = some (TaskPtr.heap 1) ∧
    ((rinoo_task sched0 (some 1) (some TaskPtr.main) (some 7) 0).2.task
      (TaskPtr.heap 1)).context.link = some TaskPtr.main :=
  ⟨rfl, rinoo_task_link_is_parent sched0 (some 1) (some TaskPtr.main) (some 7) 0
    (TaskPtr.heap 1) rfl⟩

/-- Claim C10, counterexample: `rinoo_task` called with a null parent succeeds
and leaves the link of the new task null; it is not the context of main. -/
theorem rinoo_task_null_parent_null_link :
    (rinoo_task sched0 (some 1) none (some 7) 0).1 = some (TaskPtr.heap 1) ∧
    ((rinoo_task sched0 (some 1) none (some 7) 0).2.task (TaskPtr.heap 1)).context.link
      = none ∧
    ((rinoo_task sched0 (some 1) none (some 7) 0).2.task (TaskPtr.heap 1)).context.link
      ≠ some TaskPtr.main := by
  refine ⟨rfl, ?_, ?_⟩ <;> simp [rinoo_task, fcontext]

/-! ## Claim C9: rinoo_task_unschedule is idempotent -/

theorem rinoo_task_unschedule_scheduled (s : t_rinoosched) (t : TaskPtr)
    (hs : (s.task t).sched = true) (h : (s.task t).scheduled = true) :
    rinoo_task_unschedule s (some t) =
      (0, (s.set_tree (rinoorbtree_remove s.driver.proc_tree t)).set_task t
            { s.task t with tv := Timeval.zero, scheduled := false }) := by
  simp [rinoo_task_unschedule, hs, h]

theorem rinoo_task_unschedule_unscheduled (s : t_rinoosched) (t : TaskPtr)
    (hs : (s.task t).sched = true) (h : (s.task t).scheduled = false) :
    rinoo_task_unschedule s (some t) = (0, s) := by
  simp [rinoo_task_unschedule, hs, h]

theorem rinoo_task_unschedule_nosched (s : t_rinoosched) (t : TaskPtr)
    (hs : (s.task t).sched = false) :
    rinoo_task_unschedule s (some t) = (-1, s) := by
  simp [rinoo_task_unschedule, hs]

/-- Claim C9: `rinoo_task_unschedule` is idempotent.  For every task a second
call returns the same result and leaves the same scheduler and task state as
the first.  For a task attached to a scheduler (`task->sched` non-null, as
`rinoo_task` sets it) both calls return 0; on a scheduled task the first call
removes the task from the tree (no other task enters or leaves it), zeroes its
target time and clears its flag; on a task that is not scheduled the call
changes nothing. -/
theorem rinoo_task_unschedule_idempotent (s : t_rinoosched) (t : TaskPtr) :
    rinoo_task_unschedule (rinoo_task_unschedule s (some t)).2 (some t)
      = rinoo_task_unschedule s (some t) ∧
    ((s.task t).sched = true →
      (rinoo_task_unschedule s (some t)).1 = 0 ∧
      (rinoo_task_unschedule (rinoo_task_unschedule s (some t)).2 (some t)).1 = 0 ∧
      ((s.task t).scheduled = true →
        (s.nodes.Nodup → t ∉ (rinoo_task_unschedule s (some t)).2.nodes) ∧
        (∀ u, u ≠ t → (u ∈ (rinoo_task_unschedule s (some t)).2.nodes ↔ u ∈ s.nodes)) ∧
        ((rinoo_task_unschedule s (some t)).2.task t).tv = Timeval.zero ∧
        ((rinoo_task_unschedule s (some t)).2.task t).scheduled = false) ∧
      ((s.task t).scheduled = false → (rinoo_task_unschedule s (some t)).2 = s)) := by
  cases hs : (s.task t).sched
  · simp [rinoo_task_unschedule_nosched s t hs]
  · cases h : (s.task t).scheduled
    · simp [rinoo_task_unschedule_unscheduled s t hs h]
    · have h2 : rinoo_task_unschedule
          ((s.set_tree (rinoorbtree_remove s.driver.proc_tree t)).set_task t
            { s.task t with tv := Timeval.zero, scheduled := false }) (some t)
          = (0, (s.set_tree (rinoorbtree_remove s.driver.proc_tree t)).set_task t
            { s.task t with tv := Timeval.zero, scheduled := false }) := by
        rw [rinoo_task_unschedule_unscheduled] <;> simp [hs]
      rw [rinoo_task_unschedule_scheduled s t hs h]
      refine ⟨h2, fun _ => ⟨rfl, by rw [h2], fun _ => ⟨?_, ?_, by simp, by simp⟩, ?_⟩⟩
      · intro hnd
        simpa [rinoorbtree_remove, t_rinoosched.nodes] using hnd.not_mem_erase
      · intro u hu
        simp only [set_task_nodes, set_tree_nodes, rinoorbtree_remove]
        exact List.mem_erase_of_ne hu
      · intro h'; simp at h'

/-- Task 1 of `sched1` is attached and scheduled: unscheduling it twice returns
0 both times. -/
theorem rinoo_task_unschedule_idempotent_witness :
    (sched1.task (TaskPtr.heap 1)).sched = true ∧
    (sched1.task (TaskPtr.heap 1)).scheduled = true ∧
    (rinoo_task_unschedule sched1 (some (TaskPtr.heap 1))).1 = 0 ∧
    (rinoo_task_unschedule (rinoo_task_unschedule sched1 (some (TaskPtr.heap 1))).2
      (some (TaskPtr.heap 1))).1 = 0 :=
  ⟨rfl, rfl,
    ((rinoo_task_unschedule_idempotent sched1 (TaskPtr.heap 1)).2 rfl).1,
    ((rinoo_task_unschedule_idempotent sched1 (TaskPtr.heap 1)).2 rfl).2.1⟩

/-! ## Claim C8: the effect of rinoo_task_schedule -/

theorem rinoorbtree_descend_task_cmp (s : t_rinoosched) (w : Timeval) (t : TaskPtr)
    (hw : (s.task t).tv = w) (f : TaskPtr → t_rinootask)
    (l : List TaskPtr) (hf : ∀ x ∈ l, s.task x = f x) (ht : t ∉ l) :
    rinoorbtree_descend (rinoo_task_cmp s) t l
      = some (l.takeWhile (fun x => !timercmp_lt w (f x).tv) ++
          t :: l.dropWhile (fun x => !timercmp_lt w (f x).tv)) := by
  induction l with
  | nil => rfl
  | cons x l ih =>
    have hx : t ≠ x := fun h => ht (h ▸ List.mem_cons_self _ _)
    have hl : t ∉ l := fun h => ht (List.mem_cons_of_mem _ h)
    have hfx : s.task x = f x := hf x (List.mem_cons_self _ _)
    have ih' := ih (fun y hy => hf y (List.mem_cons_of_mem _ hy)) hl
    unfold rinoorbtree_descend
    cases hlt : timercmp_lt w (f x).tv
    · simp [rinoo_task_cmp, hx, hw, hfx, hlt, ih', List.takeWhile, List.dropWhile]
    · simp [rinoo_task_cmp, hx, hw, hfx, hlt, List.takeWhile, List.dropWhile]

theorem mem_placed (s : t_rinoosched) (w : Timeval) (t u : TaskPtr) (l : List TaskPtr) :
    u ∈ placed s w t l ↔ u = t ∨ u ∈ l := by
  unfold placed
  rw [List.mem_append, List.mem_cons]
  constructor
  · rintro (h | h | h)
    · exact Or.inr ((List.takeWhile_sublist _).subset h)
    · exact Or.inl h
    · exact Or.inr ((List.dropWhile_sublist _).subset h)
  · rintro (h | h)
    · exact Or.inr (Or.inl h)
    · rw [← List.takeWhile_append_dropWhile (fun x => !timercmp_lt w (s.task x).tv) l,
        List.mem_append] at h
      rcases h with h | h
      · exact Or.inl h
      · exact Or.inr (Or.inr h)

theorem placed_perm (s : t_rinoosched) (w : Timeval) (t : TaskPtr) (l : List TaskPtr) :
    (placed s w t l).Perm (t :: l) := by
  unfold placed
  refine List.perm_middle.trans ?_
  rw [List.takeWhile_append_dropWhile]

theorem length_placed (s : t_rinoosched) (w : Timeval) (t : TaskPtr) (l : List TaskPtr) :
    (placed s w t l).length = l.length + 1 := by
  simpa using (placed_perm s w t l).length_eq

/-- The effect of `rinoo_task_schedule` on a task attached to the scheduler, when
the timer tree has no node twice and holds the task only when its flag is set. -/
theorem rinoo_task_schedule_eq (s : t_rinoosched) (t : TaskPtr) (tv : Option Timeval)
    (hs : (s.task t).sched = true) (hnd : s.nodes.Nodup)
    (hflag : t ∈ s.nodes → (s.task t).scheduled = true) :
    rinoo_task_schedule s (some t) tv =
      (0, (s.set_tree ⟨placed s (tv.getD Timeval.zero) t (s.nodes.erase t)⟩).set_task t
            { s.task t with tv := tv.getD Timeval.zero, scheduled := true }) := by
  have hte : t ∉ s.nodes.erase t := hnd.not_mem_erase
  have herase : (s.task t).scheduled = false → s.nodes.erase t = s.nodes := by
    intro h
    apply List.erase_of_not_mem
    intro hm
    rw [hflag hm] at h
    exact Bool.noConfusion h
  have key : ∀ (s2 : t_rinoosched), s2.nodes = s.nodes.erase t →
      (s2.task t).tv = tv.getD Timeval.zero → (∀ x, x ≠ t → s2.task x = s.task x) →
      (if (rinoorbtree_put (rinoo_task_cmp s2) s2.driver.proc_tree t).1 ≠ 0 then
          ((-1 : Int), s2)
        else (0, (s2.set_tree (rinoorbtree_put (rinoo_task_cmp s2) s2.driver.proc_tree t).2).set_task
          t { s2.task t with scheduled := true }))
        = (0, (s2.set_tree ⟨placed s (tv.getD Timeval.zero) t (s.nodes.erase t)⟩).set_task
          t { s2.task t with scheduled := true }) := by
    intro s2 h1 h2 h3
    have hput : rinoorbtree_put (rinoo_task_cmp s2) s2.driver.proc_tree t
        = (0, ⟨placed s (tv.getD Timeval.zero) t (s.nodes.erase t)⟩) := by
      unfold rinoorbtree_put
      rw [nodes_def, h1, rinoorbtree_descend_task_cmp s2 _ t h2 s.task _ ?_ hte]
      · rfl
      · intro x hx
        exact h3 x (fun h => hte (h ▸ hx))
    rw [hput]
    simp
  unfold rinoo_task_schedule
  simp only [hs, Bool.true_eq_false, if_false]
  cases hsch : (s.task t).scheduled
  · simp only [Bool.false_eq_true, if_false]
    cases tv with
    | none =>
      refine (key _ (by simp [herase hsch]) (by simp) (by intro x hx; simp [hx])).trans ?_
      simp [t_rinoosched.set_task, t_rinoosched.set_tree, hsch, hs]
    | some v =>
      refine (key _ (by simp [herase hsch]) (by simp) (by intro x hx; simp [hx])).trans ?_
      simp [t_rinoosched.set_task, t_rinoosched.set_tree, hsch, hs]
  · simp only [if_true]
    cases tv with
    | none =>
      refine (key _ (by simp [rinoorbtree_remove, nodes_def]) (by simp)
        (by intro x hx; simp [hx])).trans ?_
      simp [t_rinoosched.set_task, t_rinoosched.set_tree, hs]
    | some v =>
      refine (key _ (by simp [rinoorbtree_remove, nodes_def]) (by simp)
        (by intro x hx; simp [hx])).trans ?_
      simp [t_rinoosched.set_task, t_rinoosched.set_tree, hs]

theorem rinoo_task_schedule_nosched (s : t_rinoosched) (t : TaskPtr) (tv : Option Timeval)
    (hs : (s.task t).sched = false) : rinoo_task_schedule s (some t) tv = (-1, s) := by
  simp [rinoo_task_schedule, hs]

/-- Claim C8: on a timer tree without duplicate nodes in which the flag of the
task tells whether the task is in the tree, a successful
`rinoo_task_schedule(task, when)` leaves the task in the tree exactly once,
with `scheduled = true` and target time `when` (zero when `when` is null),
whether or not it was scheduled before; every other task keeps its membership
and its record, and the pending count grows by one if the task was not
scheduled before and is unchanged if it was. -/
theorem rinoo_task_schedule_success (s : t_rinoosched) (t : TaskPtr) (tv : Option Timeval)
    (hnd : s.nodes.Nodup) (hflag : (s.task t).scheduled = true ↔ t ∈ s.nodes)
    (hok : (rinoo_task_schedule s (some t) tv).1 = 0) :
    (rinoo_task_schedule s (some t) tv).2.nodes.count t = 1 ∧
    ((rinoo_task_schedule s (some t) tv).2.task t).scheduled = true ∧
    ((rinoo_task_schedule s (some t) tv).2.task t).tv = tv.getD Timeval.zero ∧
    (∀ u, u ≠ t →
      (u ∈ (rinoo_task_schedule s (some t) tv).2.nodes ↔ u ∈ s.nodes) ∧
      (rinoo_task_schedule s (some t) tv).2.task u = s.task u) ∧
    ((s.task t).scheduled = false →
      rinoo_task_driver_nbpending (rinoo_task_schedule s (some t) tv).2
        = rinoo_task_driver_nbpending s + 1) ∧
    ((s.task t).scheduled = true →
      rinoo_task_driver_nbpending (rinoo_task_schedule s (some t) tv).2
        = rinoo_task_driver_nbpending s) := by
  have hs : (s.task t).sched = true := by
    cases h : (s.task t).sched
    · rw [rinoo_task_schedule_nosched s t tv h] at hok
      exact absurd hok (by simp)
    · rfl
  rw [rinoo_task_schedule_eq s t tv hs hnd hflag.2]
  have hte : t ∉ s.nodes.erase t := hnd.not_mem_erase
  refine ⟨?_, by simp, by simp, ?_, ?_, ?_⟩
  · simp only [set_task_nodes, set_tree_nodes]
    rw [(placed_perm s _ t _).count_eq, List.count_cons_self, List.count_eq_zero_of_not_mem hte]
  · intro u hu
    refine ⟨?_, by simp [hu]⟩
    simp only [set_task_nodes, set_tree_nodes, mem_placed]
    constructor
    · rintro (h | h)
      · exact absurd h hu
      · exact List.mem_of_mem_erase h
    · intro h
      exact Or.inr ((List.mem_erase_of_ne hu).2 h)
  · intro h
    have hnm : t ∉ s.nodes := fun hm => by
      rw [hflag.2 hm] at h
      exact Bool.noConfusion h
    simp only [rinoo_task_driver_nbpending, t_rinoorbtree.size, set_task_driver,
      set_tree_proc_tree, length_placed, List.erase_of_not_mem hnm]
    rfl
  · intro h
    have hm : t ∈ s.nodes := hflag.1 h
    have hpos : 0 < s.nodes.length := List.length_pos_of_mem hm
    simp only [rinoo_task_driver_nbpending, t_rinoorbtree.size, set_task_driver,
      set_tree_proc_tree, length_placed, List.length_erase_of_mem hm]
    show s.nodes.length - 1 + 1 = s.nodes.length
    omega

/-- Task 2 of `sched1`, scheduled for 3 s, is rescheduled for 20 s: the call
succeeds, the task is in the tree once and the pending count is unchanged. -/
theorem rinoo_task_schedule_success_witness :
    sched1.nodes.Nodup ∧
    ((sched1.task (TaskPtr.heap 2)).scheduled = true ↔ TaskPtr.heap 2 ∈ sched1.nodes) ∧
    (rinoo_task_schedule sched1 (some (TaskPtr.heap 2)) (some ⟨20, 0⟩)).1 = 0 ∧
    (rinoo_task_schedule sched1 (some (TaskPtr.heap 2)) (some ⟨20, 0⟩)).2.nodes.count
      (TaskPtr.heap 2) = 1 ∧
    rinoo_task_driver_nbpending
        (rinoo_task_schedule sched1 (some (TaskPtr.heap 2)) (some ⟨20, 0⟩)).2
      = rinoo_task_driver_nbpending sched1 :=
  have h := rinoo_task_schedule_success sched1 (TaskPtr.heap 2) (some ⟨20, 0⟩)
    (by decide) (by decide) (by decide)
  ⟨by decide, by decide, by decide, h.1, h.2.2.2.2.2 (by decide)⟩

/-! ## Claim C6: the target time set by rinoo_task_wait -/

theorem rinoorbtree_descend_mem (compare : TaskPtr → TaskPtr → Int) (node : TaskPtr) :
    ∀ (l l' : List TaskPtr), rinoorbtree_descend compare node l = some l' → node ∈ l'
  | [], l', h => by
    simp [rinoorbtree_descend] at h
    simp [← h]
  | cur :: rest, l', h => by
    unfold rinoorbtree_descend at h
    split_ifs at h with h1 h2
    · simp at h
      simp [← h]
    · rw [Option.map_eq_some'] at h
      obtain ⟨l2, hl2, rfl⟩ := h
      exact List.mem_cons_of_mem _ (rinoorbtree_descend_mem compare node rest l2 hl2)

theorem rinoorbtree_put_mem (compare : TaskPtr → TaskPtr → Int) (tree : t_rinoorbtree)
    (node : TaskPtr) (h : (rinoorbtree_put compare tree node).1 = 0) :
    node ∈ (rinoorbtree_put compare tree node).2.nodes := by
  unfold rinoorbtree_put at h ⊢
  cases hd : rinoorbtree_descend compare node tree.nodes with
  | none => rw [hd] at h; simp at h
  | some l => simpa using rinoorbtree_descend_mem compare node _ l hd

/-- What a successful `rinoo_task_schedule` leaves for the task itself. -/
theorem rinoo_task_schedule_ok (s : t_rinoosched) (t : TaskPtr) (tv : Option Timeval)
    (hok : (rinoo_task_schedule s (some t) tv).1 = 0) :
    ((rinoo_task_schedule s (some t) tv).2.task t).tv = tv.getD Timeval.zero ∧
    ((rinoo_task_schedule s (some t) tv).2.task t).scheduled = true ∧
    t ∈ (rinoo_task_schedule s (some t) tv).2.nodes := by
  have key : ∀ (s2 : t_rinoosched), (s2.task t).tv = tv.getD Timeval.zero →
      ∀ r : Int × t_rinoosched,
      r = (if (rinoorbtree_put (rinoo_task_cmp s2) s2.driver.proc_tree t).1 ≠ 0 then
          ((-1 : Int), s2)
        else (0, (s2.set_tree (rinoorbtree_put (rinoo_task_cmp s2) s2.driver.proc_tree t).2).set_task
          t { s2.task t with scheduled := true })) →
      r.1 = 0 → (r.2.task t).tv = tv.getD Timeval.zero ∧ (r.2.task t).scheduled = true ∧
        t ∈ r.2.nodes := by
    intro s2 h2 r hr h0
    by_cases hp : (rinoorbtree_put (rinoo_task_cmp s2) s2.driver.proc_tree t).1 = 0
    · rw [if_neg (not_not.2 hp)] at hr
      subst hr
      refine ⟨by simpa using h2, by simp, ?_⟩
      simpa using rinoorbtree_put_mem _ _ _ hp
    · rw [if_pos hp] at hr
      subst hr
      simp at h0
  cases hs : (s.task t).sched
  · rw [rinoo_task_schedule_nosched s t tv hs] at hok
    simp at hok
  · have hunf : ∃ s2 : t_rinoosched, (s2.task t).tv = tv.getD Timeval.zero ∧
        rinoo_task_schedule s (some t) tv
          = (if (rinoorbtree_put (rinoo_task_cmp s2) s2.driver.proc_tree t).1 ≠ 0 then
              ((-1 : Int), s2)
            else (0, (s2.set_tree
              (rinoorbtree_put (rinoo_task_cmp s2) s2.driver.proc_tree t).2).set_task
              t { s2.task t with scheduled := true })) := by
      unfold rinoo_task_schedule
      simp only [hs, Bool.true_eq_false, if_false]
      refine ⟨_, ?_, rfl⟩
      cases tv <;> simp
    obtain ⟨s2, h2, hr⟩ := hunf
    exact key s2 h2 _ hr hok

theorem timeradd_ms (c : Timeval) (ms : Nat) (hc : c.normalized) :
    (timeradd c ⟨((ms / 1000 : Nat) : Int), (((ms % 1000) * 1000 : Nat) : Int)⟩).micros
        = c.micros + 1000 * (ms : Int) ∧
      (timeradd c ⟨((ms / 1000 : Nat) : Int), (((ms % 1000) * 1000 : Nat) : Int)⟩).normalized := by
  obtain ⟨h0, h1⟩ := hc
  unfold timeradd Timeval.micros Timeval.normalized
  simp only
  split_ifs with h <;> simp only <;> push_cast at h ⊢ <;> omega

theorem rinoo_task_wait_eq (s : t_rinoosched) (ms : Nat) :
    rinoo_task_wait s ms =
      (if (rinoo_task_schedule s (some s.driver.current)
            (if ms = 0 then none
              else some (timeradd s.clock
                ⟨((ms / 1000 : Nat) : Int), (((ms % 1000) * 1000 : Nat) : Int)⟩))).1 ≠ 0
        then -1 else 0,
       (rinoo_task_schedule s (some s.driver.current)
            (if ms = 0 then none
              else some (timeradd s.clock
                ⟨((ms / 1000 : Nat) : Int), (((ms % 1000) * 1000 : Nat) : Int)⟩))).2) := by
  unfold rinoo_task_wait rinoo_task_release rinoo_task_driver_getcurrent
  by_cases h0 : ms = 0
  · simp only [h0, if_true]
    split_ifs <;> rfl
  · simp only [h0, if_false]
    split_ifs <;> rfl

/-- Claim C6: `rinoo_task_wait(sched, ms)` succeeds on a well-formed timer tree
when the current task is attached to the scheduler, and a call that succeeds
schedules the current task (flag set, task in the tree): for `ms > 0` and a
normalized clock with target time exactly the clock plus `ms` milliseconds,
`target.sec * 1000000 + target.usec = clock.sec * 1000000 + clock.usec + 1000 * ms`
with `0 <= target.usec < 1000000`; for `ms = 0` with target time zero.
It holds for every natural `ms`, so for every unsigned 32-bit one. -/
theorem rinoo_task_wait_target (s : t_rinoosched) (ms : Nat) :
    (s.wf → (s.task s.driver.current).sched = true → (rinoo_task_wait s ms).1 = 0) ∧
    ((rinoo_task_wait s ms).1 = 0 →
      ((rinoo_task_wait s ms).2.task s.driver.current).scheduled = true ∧
      s.driver.current ∈ (rinoo_task_wait s ms).2.nodes ∧
      (0 < ms → s.clock.normalized →
        ((rinoo_task_wait s ms).2.task s.driver.current).tv.micros
            = s.clock.micros + 1000 * (ms : Int) ∧
          ((rinoo_task_wait s ms).2.task s.driver.current).tv.normalized) ∧
      (ms = 0 → ((rinoo_task_wait s ms).2.task s.driver.current).tv = Timeval.zero)) := by
  refine ⟨?_, ?_⟩
  · intro hwf hcur
    rw [rinoo_task_wait_eq, rinoo_task_schedule_eq s s.driver.current _ hcur hwf.1
      (fun h => (hwf.2.2 _ h).2)]
    rfl
  · intro hok
    rw [rinoo_task_wait_eq] at hok ⊢
    generalize htv : (if ms = 0 then none
        else some (timeradd s.clock
          ⟨((ms / 1000 : Nat) : Int), (((ms % 1000) * 1000 : Nat) : Int)⟩)) = tvo at hok ⊢
    have hok' : (rinoo_task_schedule s (some s.driver.current) tvo).1 = 0 := by
      by_contra hne
      have h1 : (if (rinoo_task_schedule s (some s.driver.current) tvo).1 ≠ 0
          then (-1 : Int) else 0) = 0 := hok
      rw [if_pos hne] at h1
      exact absurd h1 (by decide)
    have h := rinoo_task_schedule_ok s s.driver.current tvo hok'
    refine ⟨h.2.1, h.2.2, ?_, ?_⟩
    · intro hpos hc
      rw [if_neg (Nat.pos_iff_ne_zero.1 hpos)] at htv
      subst htv
      show ((rinoo_task_schedule s (some s.driver.current) _).2.task s.driver.current).tv.micros
          = _ ∧
        ((rinoo_task_schedule s (some s.driver.current) _).2.task s.driver.current).tv.normalized
      rw [h.1]
      exact timeradd_ms s.clock ms hc
    · intro h0
      rw [if_pos h0] at htv
      subst htv
      exact h.1

/-- Task 7 waits 2500 ms at clock 10 s on the well-formed tree of `sched1`: the
call succeeds and the target time of task 7 is 12.5 s, normalized. -/
theorem rinoo_task_wait_target_witness :
    (sched1.set_current (TaskPtr.heap 7)).wf ∧
    (rinoo_task_wait (sched1.set_current (TaskPtr.heap 7)) 2500).1 = 0 ∧
    ((rinoo_task_wait (sched1.set_current (TaskPtr.heap 7)) 2500).2.task
      (TaskPtr.heap 7)).tv.micros = 12500000 ∧
    ((rinoo_task_wait (sched1.set_current (TaskPtr.heap 7)) 2500).2.task
      (TaskPtr.heap 7)).tv.normalized :=
  have h := rinoo_task_wait_target (sched1.set_current (TaskPtr.heap 7)) 2500
  have hok := h.1 (by decide) (by decide)
  ⟨by decide, hok, ((h.2 hok).2.2.1 (by decide) (by decide)).1,
    ((h.2 hok).2.2.1 (by decide) (by decide)).2⟩

/-! ## Comparing times, and one iteration of the driver loop -/

theorem timercmp_lt_iff (a b : Timeval) : timercmp_lt a b = true ↔
    a.tv_sec < b.tv_sec ∨ (a.tv_sec = b.tv_sec ∧ a.tv_usec < b.tv_usec) := by
  unfold timercmp_lt
  split_ifs with h <;> simp [h]

theorem timercmp_lt_false_iff (a b : Timeval) : timercmp_lt a b = false ↔
    b.tv_sec < a.tv_sec ∨ (a.tv_sec = b.tv_sec ∧ b.tv_usec ≤ a.tv_usec) := by
  unfold timercmp_lt
  split_ifs with h <;> simp [h]
  omega

theorem timercmp_le_iff (a b : Timeval) : timercmp_le a b = true ↔
    a.tv_sec < b.tv_sec ∨ (a.tv_sec = b.tv_sec ∧ a.tv_usec ≤ b.tv_usec) := by
  unfold timercmp_le
  split_ifs with h <;> simp [h]
  omega

theorem timercmp_le_eq_not_lt (a b : Timeval) : timercmp_le a b = !timercmp_lt b a := by
  cases h : timercmp_lt b a
  · rw [timercmp_lt_false_iff] at h
    have h3 : timercmp_le a b = true := (timercmp_le_iff a b).2 (by omega)
    simpa using h3
  · rw [timercmp_lt_iff] at h
    cases h2 : timercmp_le a b
    · rfl
    · rw [timercmp_le_iff] at h2
      omega

theorem rinoo_task_driver_run_zero (swap : Swap) (s : t_rinoosched) :
    rinoo_task_driver_run swap 0 s = ⟨none, s, []⟩ := rfl

theorem rinoo_task_driver_run_nil (swap : Swap) (fuel : Nat) (s : t_rinoosched)
    (h : s.nodes = []) : rinoo_task_driver_run swap (fuel + 1) s = ⟨some 1000, s, []⟩ := by
  unfold rinoo_task_driver_run rinoorbtree_head
  rw [nodes_def, h]
  rfl

theorem rinoo_task_driver_run_due (swap : Swap) (fuel : Nat) (s : t_rinoosched)
    (t : TaskPtr) (rest : List TaskPtr) (h : s.nodes = t :: rest)
    (hdue : timercmp_le (s.task t).tv s.clock = true) :
    rinoo_task_driver_run swap (fuel + 1) s =
      ⟨(rinoo_task_driver_run swap fuel (driver_step swap s t)).ret,
       (rinoo_task_driver_run swap fuel (driver_step swap s t)).sched,
       ⟨t, (s.task t).tv, s.clock⟩ ::
         (rinoo_task_driver_run swap fuel (driver_step swap s t)).resumed⟩ := by
  conv_lhs => unfold rinoo_task_driver_run
  unfold rinoorbtree_head
  rw [nodes_def, h]
  simp only [List.head?_cons, hdue, if_true]
  rfl

theorem rinoo_task_driver_run_later (swap : Swap) (fuel : Nat) (s : t_rinoosched)
    (t : TaskPtr) (rest : List TaskPtr) (h : s.nodes = t :: rest)
    (hdue : timercmp_le (s.task t).tv s.clock = false) :
    rinoo_task_driver_run swap (fuel + 1) s = ⟨some (driver_delta s t), s, []⟩ := by
  conv_lhs => unfold rinoo_task_driver_run
  unfold rinoorbtree_head
  rw [nodes_def, h]
  simp only [List.head?_cons, hdue]
  rfl

/-! ## The operations of the driver keep the timer tree well formed -/

theorem sublist_placed (s : t_rinoosched) (w : Timeval) (t : TaskPtr) (l : List TaskPtr) :
    List.Sublist l (placed s w t l) := by
  unfold placed
  conv_lhs => rw [← List.takeWhile_append_dropWhile (fun x => !timercmp_lt w (s.task x).tv) l]
  exact List.Sublist.append (List.Sublist.refl _) (List.sublist_cons_self _ _)

/-- In a list in non-decreasing order of target time, the nodes left after the
leading ones not later than `w` are all strictly later than `w`. -/
theorem lt_of_mem_dropWhile (s : t_rinoosched) (w : Timeval) :
    ∀ (l : List TaskPtr),
      l.Pairwise (fun a b => timercmp_lt (s.task b).tv (s.task a).tv = false) →
      ∀ b ∈ l.dropWhile (fun x => !timercmp_lt w (s.task x).tv),
        timercmp_lt w (s.task b).tv = true
  | [], _, b, hb => by simp at hb
  | x :: l, hpw, b, hb => by
    rw [List.pairwise_cons] at hpw
    cases hx : timercmp_lt w (s.task x).tv
    · rw [List.dropWhile_cons_of_pos (by simp [hx])] at hb
      exact lt_of_mem_dropWhile s w l hpw.2 b hb
    · rw [List.dropWhile_cons_of_neg (by simp [hx])] at hb
      rcases List.mem_cons.1 hb with rfl | hb
      · exact hx
      · have h1 := hpw.1 b hb
        rw [timercmp_lt_false_iff] at h1
        rw [timercmp_lt_iff] at hx ⊢
        omega

theorem mem_takeWhile_of_not_lt (s : t_rinoosched) (w : Timeval) (l : List TaskPtr)
    (hpw : l.Pairwise (fun a b => timercmp_lt (s.task b).tv (s.task a).tv = false))
    (a : TaskPtr) (ha : a ∈ l) (hle : timercmp_lt w (s.task a).tv = false) :
    a ∈ l.takeWhile (fun x => !timercmp_lt w (s.task x).tv) := by
  rw [← List.takeWhile_append_dropWhile (fun x => !timercmp_lt w (s.task x).tv) l,
    List.mem_append] at ha
  rcases ha with ha | ha
  · exact ha
  · rw [lt_of_mem_dropWhile s w l hpw a ha] at hle
    exact Bool.noConfusion hle

/-- Placing a task that is attached to the scheduler into a well-formed
sequence that does not hold it, and writing its target time and flag, gives a
well-formed timer tree. -/
theorem placed_wf (s : t_rinoosched) (E : List TaskPtr) (t : TaskPtr) (w : Timeval)
    (hnd : E.Nodup)
    (hpw : E.Pairwise (fun a b => timercmp_lt (s.task b).tv (s.task a).tv = false))
    (hfl : ∀ u ∈ E, (s.task u).sched = true ∧ (s.task u).scheduled = true)
    (htn : t ∉ E) (hs : (s.task t).sched = true) :
    ((s.set_tree ⟨placed s w t E⟩).set_task t
      { s.task t with tv := w, scheduled := true }).wf := by
  have hne : ∀ u ∈ E, u ≠ t := fun u hu h => htn (h ▸ hu)
  have hdw := lt_of_mem_dropWhile s w E hpw
  have hsplit := List.takeWhile_append_dropWhile (fun x => !timercmp_lt w (s.task x).tv) E
  have hpw' := hpw
  rw [← hsplit, List.pairwise_append] at hpw'
  have htw_mem : ∀ a ∈ E.takeWhile (fun x => !timercmp_lt w (s.task x).tv), a ∈ E :=
    fun a ha => (List.takeWhile_sublist _).subset ha
  have hdw_mem : ∀ a ∈ E.dropWhile (fun x => !timercmp_lt w (s.task x).tv), a ∈ E :=
    fun a ha => (List.dropWhile_sublist _).subset ha
  refine ⟨?_, ?_, ?_⟩
  · simp only [set_task_nodes, set_tree_nodes]
    exact (placed_perm s w t E).nodup_iff.2 (List.nodup_cons.2 ⟨htn, hnd⟩)
  · simp only [set_task_nodes, set_tree_nodes, set_task_task, set_tree_task]
    unfold placed
    rw [List.pairwise_append]
    refine ⟨?_, ?_, ?_⟩
    · refine hpw'.1.imp_of_mem ?_
      intro a b ha hb hab
      rw [Function.update_noteq (hne a (htw_mem a ha)),
        Function.update_noteq (hne b (htw_mem b hb))]
      exact hab
    · rw [List.pairwise_cons]
      refine ⟨?_, ?_⟩
      · intro b hb
        rw [Function.update_same, Function.update_noteq (hne b (hdw_mem b hb))]
        have h1 := hdw b hb
        rw [timercmp_lt_iff] at h1
        rw [timercmp_lt_false_iff]
        simp only
        omega
      · refine hpw'.2.1.imp_of_mem ?_
        intro a b ha hb hab
        rw [Function.update_noteq (hne a (hdw_mem a ha)),
          Function.update_noteq (hne b (hdw_mem b hb))]
        exact hab
    · intro a ha b hb
      rw [Function.update_noteq (hne a (htw_mem a ha))]
      rcases List.mem_cons.1 hb with rfl | hb
      · rw [Function.update_same]
        simpa using List.mem_takeWhile_imp ha
      · rw [Function.update_noteq (hne b (hdw_mem b hb))]
        exact hpw'.2.2 a ha b hb
  · intro u hu
    simp only [set_task_nodes, set_tree_nodes, mem_placed] at hu
    simp only [set_task_task, set_tree_task]
    rcases hu with rfl | hu
    · rw [Function.update_same]
      exact ⟨hs, rfl⟩
    · rw [Function.update_noteq (hne u hu)]
      exact hfl u hu

/-- The function `rinoo_task_schedule` keeps the timer tree well formed. -/
theorem rinoo_task_schedule_wf (s : t_rinoosched) (t : TaskPtr) (tv : Option Timeval)
    (hwf : s.wf) : (rinoo_task_schedule s (some t) tv).2.wf := by
  cases hs : (s.task t).sched
  · rw [rinoo_task_schedule_nosched s t tv hs]
    exact hwf
  · obtain ⟨hnd, hpw, hfl⟩ := hwf
    rw [rinoo_task_schedule_eq s t tv hs hnd (fun h => (hfl t h).2)]
    exact placed_wf s (s.nodes.erase t) t _ (hnd.erase t)
      (hpw.sublist (List.erase_sublist t s.nodes))
      (fun u hu => hfl u (List.mem_of_mem_erase hu)) hnd.not_mem_erase hs

theorem t_rinoosched.wf_congr {s s' : t_rinoosched} (hn : s'.nodes = s.nodes)
    (ht : s'.task = s.task) (h : s.wf) : s'.wf := by
  unfold t_rinoosched.wf at h ⊢
  rw [hn, ht]
  exact h

theorem rinoo_task_unschedule_wf (s : t_rinoosched) (h : TaskPtr) (hwf : s.wf) :
    (rinoo_task_unschedule s (some h)).2.wf := by
  cases hs : (s.task h).sched
  · rw [rinoo_task_unschedule_nosched s h hs]
    exact hwf
  · cases hsch : (s.task h).scheduled
    · rw [rinoo_task_unschedule_unscheduled s h hs hsch]
      exact hwf
    · rw [rinoo_task_unschedule_scheduled s h hs hsch]
      obtain ⟨hnd, hpw, hfl⟩ := hwf
      have hne : ∀ u ∈ s.nodes.erase h, u ≠ h := fun u hu heq =>
        hnd.not_mem_erase (heq ▸ hu)
      refine ⟨?_, ?_, ?_⟩
      · simpa [rinoorbtree_remove, nodes_def] using hnd.erase h
      · simp only [set_task_nodes, set_tree_nodes, rinoorbtree_remove, nodes_def,
          set_task_task, set_tree_task]
        refine ((hpw.sublist (List.erase_sublist h s.nodes)).imp_of_mem ?_)
        intro a b ha hb hab
        rw [Function.update_noteq (hne a ha), Function.update_noteq (hne b hb)]
        exact hab
      · intro u hu
        simp only [set_task_nodes, set_tree_nodes, rinoorbtree_remove, nodes_def] at hu
        simp only [set_task_task, set_tree_task]
        rw [Function.update_noteq (hne u hu)]
        exact hfl u (List.mem_of_mem_erase hu)

/-- The function `rinoo_task_wait` keeps the timer tree well formed. -/
theorem rinoo_task_wait_wf (s : t_rinoosched) (ms : Nat) (hwf : s.wf) :
    (rinoo_task_wait s ms).2.wf := by
  rw [rinoo_task_wait_eq]
  exact rinoo_task_schedule_wf s s.driver.current _ hwf

theorem rinoo_task_destroy_wf (s : t_rinoosched) (h : TaskPtr) (hwf : s.wf) :
    (rinoo_task_destroy s h).wf :=
  t_rinoosched.wf_congr rfl rfl (rinoo_task_unschedule_wf s h hwf)

theorem rinoo_task_resume_wf (swap : Swap) (hswap : ∀ s a b, s.wf → (swap s a b).2.wf)
    (s : t_rinoosched) (h : TaskPtr) (hwf : s.wf) :
    (rinoo_task_resume swap s (some h)).2.wf := by
  have h1 : ((swap (s.set_current h) s.driver.current h).2.set_current
      s.driver.current).wf :=
    t_rinoosched.wf_congr rfl rfl
      (hswap (s.set_current h) s.driver.current h (t_rinoosched.wf_congr rfl rfl hwf))
  unfold rinoo_task_resume
  simp only
  split_ifs
  · exact rinoo_task_destroy_wf _ h h1
  · exact h1

theorem driver_step_wf (swap : Swap) (hswap : ∀ s a b, s.wf → (swap s a b).2.wf)
    (s : t_rinoosched) (h : TaskPtr) (hwf : s.wf) : (driver_step swap s h).wf :=
  rinoo_task_resume_wf swap hswap _ h (rinoo_task_unschedule_wf s h hwf)

theorem rinoo_task_driver_run_wf (swap : Swap) (hswap : ∀ s a b, s.wf → (swap s a b).2.wf) :
    ∀ (fuel : Nat) (s : t_rinoosched), s.wf → (rinoo_task_driver_run swap fuel s).sched.wf
  | 0, s, hwf => by simpa [rinoo_task_driver_run_zero] using hwf
  | fuel + 1, s, hwf => by
    cases hn : s.nodes with
    | nil => simpa [rinoo_task_driver_run_nil swap fuel s hn] using hwf
    | cons t rest =>
      cases hdue : timercmp_le (s.task t).tv s.clock
      · simpa [rinoo_task_driver_run_later swap fuel s t rest hn hdue] using hwf
      · rw [rinoo_task_driver_run_due swap fuel s t rest hn hdue]
        exact rinoo_task_driver_run_wf swap hswap fuel _ (driver_step_wf swap hswap s t hwf)

/-! ## Claim C3: the driver resumes no task early -/

theorem undisturbed_refl (x : TaskPtr) (s : t_rinoosched) : Undisturbed x s s :=
  ⟨rfl, rfl, fun h => h⟩

theorem undisturbed_trans {x : TaskPtr} {s1 s2 s3 : t_rinoosched}
    (h12 : Undisturbed x s1 s2) (h23 : Undisturbed x s2 s3) : Undisturbed x s1 s3 :=
  ⟨h23.1.trans h12.1, h23.2.1.trans h12.2.1, fun h => h23.2.2 (h12.2.2 h)⟩

theorem rinoo_task_unschedule_undisturbed (s : t_rinoosched) (h x : TaskPtr) (hx : x ≠ h) :
    Undisturbed x s (rinoo_task_unschedule s (some h)).2 := by
  cases hs : (s.task h).sched
  · rw [rinoo_task_unschedule_nosched s h hs]
    exact undisturbed_refl x s
  · cases hsch : (s.task h).scheduled
    · rw [rinoo_task_unschedule_unscheduled s h hs hsch]
      exact undisturbed_refl x s
    · rw [rinoo_task_unschedule_scheduled s h hs hsch]
      refine ⟨rfl, by simp [hx], ?_⟩
      intro hm
      simpa [rinoorbtree_remove, nodes_def] using (List.mem_erase_of_ne hx).2 hm

theorem rinoo_task_destroy_undisturbed (s : t_rinoosched) (h x : TaskPtr) (hx : x ≠ h) :
    Undisturbed x s (rinoo_task_destroy s h) :=
  rinoo_task_unschedule_undisturbed s h x hx

theorem rinoo_task_resume_undisturbed (swap : Swap) (x : TaskPtr)
    (hswap : ∀ s a b, Undisturbed x s (swap s a b).2) (s : t_rinoosched) (h : TaskPtr)
    (hx : x ≠ h) : Undisturbed x s (rinoo_task_resume swap s (some h)).2 := by
  have h1 : Undisturbed x s ((swap (s.set_current h) s.driver.current h).2.set_current
      s.driver.current) := hswap (s.set_current h) s.driver.current h
  unfold rinoo_task_resume
  simp only
  split_ifs
  · exact undisturbed_trans h1 (rinoo_task_destroy_undisturbed _ h x hx)
  · exact h1

theorem driver_step_undisturbed (swap : Swap) (x : TaskPtr)
    (hswap : ∀ s a b, Undisturbed x s (swap s a b).2) (s : t_rinoosched) (h : TaskPtr)
    (hx : x ≠ h) : Undisturbed x s (driver_step swap s h) :=
  undisturbed_trans (rinoo_task_unschedule_undisturbed s h x hx)
    (rinoo_task_resume_undisturbed swap x hswap _ h hx)

theorem rinoo_task_driver_run_resumed_due (swap : Swap) :
    ∀ (fuel : Nat) (s : t_rinoosched),
      ∀ e ∈ (rinoo_task_driver_run swap fuel s).resumed, timercmp_le e.tv e.clock = true
  | 0, s => by simp [rinoo_task_driver_run_zero]
  | fuel + 1, s => by
    cases hn : s.nodes with
    | nil => simp [rinoo_task_driver_run_nil swap fuel s hn]
    | cons t rest =>
      cases hdue : timercmp_le (s.task t).tv s.clock
      · simp [rinoo_task_driver_run_later swap fuel s t rest hn hdue]
      · rw [rinoo_task_driver_run_due swap fuel s t rest hn hdue]
        intro e he
        rcases List.mem_cons.1 he with rfl | he
        · exact hdue
        · exact rinoo_task_driver_run_resumed_due swap fuel _ e he

theorem rinoo_task_driver_run_keeps_later (swap : Swap) (x : TaskPtr)
    (hswap : ∀ s a b, Undisturbed x s (swap s a b).2) :
    ∀ (fuel : Nat) (s : t_rinoosched), x ∈ s.nodes →
      timercmp_lt s.clock (s.task x).tv = true →
      Undisturbed x s (rinoo_task_driver_run swap fuel s).sched ∧
      x ∉ (rinoo_task_driver_run swap fuel s).resumed.map Resumption.task
  | 0, s, _, _ => by simp [rinoo_task_driver_run_zero, undisturbed_refl]
  | fuel + 1, s, hm, hlt => by
    cases hn : s.nodes with
    | nil => simp [rinoo_task_driver_run_nil swap fuel s hn, undisturbed_refl]
    | cons t rest =>
      cases hdue : timercmp_le (s.task t).tv s.clock
      · simp [rinoo_task_driver_run_later swap fuel s t rest hn hdue, undisturbed_refl]
      · rw [rinoo_task_driver_run_due swap fuel s t rest hn hdue]
        have hx : x ≠ t := by
          rintro rfl
          rw [timercmp_le_eq_not_lt, hlt] at hdue
          exact Bool.noConfusion hdue
        have hstep := driver_step_undisturbed swap x hswap s t hx
        have ih := rinoo_task_driver_run_keeps_later swap x hswap fuel (driver_step swap s t)
          (hstep.2.2 hm) (by rw [hstep.1, hstep.2.1]; exact hlt)
        refine ⟨undisturbed_trans hstep ih.1, ?_⟩
        simp only [List.map_cons, List.mem_cons, not_or]
        exact ⟨hx, ih.2⟩

/-- Claim C3: `rinoo_task_driver_run` resumes no task early.  Whatever the
resumed tasks do and however long the loop has run, every resumption it made
took a task whose target time was, at that moment, not later than the clock
(`timercmp(&task->tv, &sched->clock, <=)`); and a task `x` of the tree whose
target time is strictly later than the clock is not resumed and stays in the
tree with its target time, as long as the tasks that run do not themselves
touch `x` or the clock. -/
theorem rinoo_task_driver_run_never_early (swap : Swap) (fuel : Nat) (s : t_rinoosched) :
    (∀ e ∈ (rinoo_task_driver_run swap fuel s).resumed,
      timercmp_le e.tv e.clock = true) ∧
    (∀ x, x ∈ s.nodes → timercmp_lt s.clock (s.task x).tv = true →
      (∀ s0 a b, Undisturbed x s0 (swap s0 a b).2) →
      x ∉ (rinoo_task_driver_run swap fuel s).resumed.map Resumption.task ∧
      x ∈ (rinoo_task_driver_run swap fuel s).sched.nodes ∧
      ((rinoo_task_driver_run swap fuel s).sched.task x).tv = (s.task x).tv) := by
  refine ⟨rinoo_task_driver_run_resumed_due swap fuel s, ?_⟩
  intro x hm hlt hswap
  have h := rinoo_task_driver_run_keeps_later swap x hswap fuel s hm hlt
  exact ⟨h.2, h.1.2.2 hm, h.1.2.1⟩

/-- The scheduler `sched1` at clock 10 s: the tasks due at 3 s and 5 s are
resumed, the task due at 15.0005 s is not and stays in the tree. -/
theorem rinoo_task_driver_run_never_early_witness :
    TaskPtr.heap 3 ∈ sched1.nodes ∧
    timercmp_lt sched1.clock (sched1.task (TaskPtr.heap 3)).tv = true ∧
    (rinoo_task_driver_run swap_finish 5 sched1).resumed.map Resumption.task
      = [TaskPtr.heap 2, TaskPtr.heap 1] ∧
    TaskPtr.heap 3 ∉ (rinoo_task_driver_run swap_finish 5 sched1).resumed.map Resumption.task ∧
    TaskPtr.heap 3 ∈ (rinoo_task_driver_run swap_finish 5 sched1).sched.nodes :=
  have h := (rinoo_task_driver_run_never_early swap_finish 5 sched1).2 (TaskPtr.heap 3)
    (by decide) (by decide) (fun s0 _ _ => undisturbed_refl _ s0)
  ⟨by decide, by decide, by decide, h.1, h.2.1⟩

/-! ## Claim C4: the state and the result when the driver returns -/

theorem rinoo_task_driver_run_returned (swap : Swap) :
    ∀ (fuel : Nat) (s : t_rinoosched) (r : Nat),
      (rinoo_task_driver_run swap fuel s).ret = some r →
      ((rinoo_task_driver_run swap fuel s).sched.nodes = [] ∧ r = 1000) ∨
      ∃ h rest, (rinoo_task_driver_run swap fuel s).sched.nodes = h :: rest ∧
        timercmp_le ((rinoo_task_driver_run swap fuel s).sched.task h).tv
          (rinoo_task_driver_run swap fuel s).sched.clock = false ∧
        r = driver_delta (rinoo_task_driver_run swap fuel s).sched h
  | 0, s, r, hr => by simp [rinoo_task_driver_run_zero] at hr
  | fuel + 1, s, r, hr => by
    cases hn : s.nodes with
    | nil =>
      rw [rinoo_task_driver_run_nil swap fuel s hn] at hr ⊢
      left
      exact ⟨hn, by simpa using hr.symm⟩
    | cons t rest =>
      cases hdue : timercmp_le (s.task t).tv s.clock
      · rw [rinoo_task_driver_run_later swap fuel s t rest hn hdue] at hr ⊢
        right
        exact ⟨t, rest, hn, hdue, by simpa using hr.symm⟩
      · rw [rinoo_task_driver_run_due swap fuel s t rest hn hdue] at hr ⊢
        exact rinoo_task_driver_run_returned swap fuel _ r hr

theorem driver_delta_normalized (s : t_rinoosched) (h : TaskPtr)
    (hlater : timercmp_le (s.task h).tv s.clock = false)
    (htv : (s.task h).tv.normalized) (hclock : s.clock.normalized) :
    (driver_delta s h : Int) =
      (((s.task h).tv.tv_sec - s.clock.tv_sec) * 1000000
        + (s.task h).tv.tv_usec - s.clock.tv_usec) / 1000 % 4294967296 := by
  obtain ⟨h1, h2⟩ := htv
  obtain ⟨h3, h4⟩ := hclock
  have hle : ¬ ((s.task h).tv.tv_sec < s.clock.tv_sec ∨
      ((s.task h).tv.tv_sec = s.clock.tv_sec ∧ (s.task h).tv.tv_usec ≤ s.clock.tv_usec)) := by
    rw [← timercmp_le_iff, hlater]
    exact Bool.noConfusion
  unfold driver_delta
  rw [Int.toNat_of_nonneg (Int.emod_nonneg _ (by decide))]
  unfold timersub
  simp only
  split_ifs with hneg
  · simp only
    rw [Int.tdiv_eq_ediv (by omega) (by decide)]
    omega
  · simp only
    rw [Int.tdiv_eq_ediv (by omega) (by decide)]
    omega

theorem t_rinoosched.wf_head_min (s : t_rinoosched) (hwf : s.wf) (h : TaskPtr)
    (rest : List TaskPtr) (hn : s.nodes = h :: rest) :
    ∀ u ∈ s.nodes, timercmp_lt (s.task u).tv (s.task h).tv = false := by
  intro u hu
  rw [hn] at hu
  rcases List.mem_cons.1 hu with rfl | hu
  · rw [timercmp_lt_false_iff]
    omega
  · have hpw := hwf.2.1
    rw [hn, List.pairwise_cons] at hpw
    exact hpw.1 u hu

theorem timercmp_le_false_of_head (a b c : Timeval) (hab : timercmp_lt b a = false)
    (hac : timercmp_le a c = false) : timercmp_le b c = false := by
  rw [timercmp_lt_false_iff] at hab
  have h1 : ¬ (a.tv_sec < c.tv_sec ∨ (a.tv_sec = c.tv_sec ∧ a.tv_usec ≤ c.tv_usec)) := by
    rw [← timercmp_le_iff, hac]
    exact Bool.noConfusion
  cases h : timercmp_le b c
  · rfl
  · rw [timercmp_le_iff] at h
    omega

/-- Claim C4: whenever `rinoo_task_driver_run` returns, on a well-formed timer
tree and whatever the resumed tasks did (they keep the tree well formed),
either the tree is empty and the result is 1000, or the head of the tree is its
minimum, has a target time strictly later than the clock, and the result is the
value of `(tv.tv_sec * 1000) + (tv.tv_usec / 1000)` as a `u32`, which for
normalized timevals is
`floor(((target.sec - clock.sec) * 1000000 + target.usec - clock.usec) / 1000)`
modulo `2 ^ 32`.  No task with a target time not later than the clock is left
in the tree. -/
theorem rinoo_task_driver_run_on_return (swap : Swap)
    (hswap : ∀ s a b, s.wf → (swap s a b).2.wf) (fuel : Nat) (s : t_rinoosched)
    (hwf : s.wf) (r : Nat) (hr : (rinoo_task_driver_run swap fuel s).ret = some r) :
    (((rinoo_task_driver_run swap fuel s).sched.nodes = [] ∧ r = 1000) ∨
      ∃ h rest, (rinoo_task_driver_run swap fuel s).sched.nodes = h :: rest ∧
        (∀ u ∈ (rinoo_task_driver_run swap fuel s).sched.nodes,
          timercmp_lt ((rinoo_task_driver_run swap fuel s).sched.task u).tv
            ((rinoo_task_driver_run swap fuel s).sched.task h).tv = false) ∧
        timercmp_lt (rinoo_task_driver_run swap fuel s).sched.clock
          ((rinoo_task_driver_run swap fuel s).sched.task h).tv = true ∧
        r = driver_delta (rinoo_task_driver_run swap fuel s).sched h ∧
        (((rinoo_task_driver_run swap fuel s).sched.task h).tv.normalized →
          (rinoo_task_driver_run swap fuel s).sched.clock.normalized →
          (r : Int) =
            ((((rinoo_task_driver_run swap fuel s).sched.task h).tv.tv_sec
                - (rinoo_task_driver_run swap fuel s).sched.clock.tv_sec) * 1000000
              + ((rinoo_task_driver_run swap fuel s).sched.task h).tv.tv_usec
              - (rinoo_task_driver_run swap fuel s).sched.clock.tv_usec) / 1000
              % 4294967296)) ∧
    ∀ u ∈ (rinoo_task_driver_run swap fuel s).sched.nodes,
      timercmp_le ((rinoo_task_driver_run swap fuel s).sched.task u).tv
        (rinoo_task_driver_run swap fuel s).sched.clock = false := by
  have hwf' := rinoo_task_driver_run_wf swap hswap fuel s hwf
  rcases rinoo_task_driver_run_returned swap fuel s r hr with ⟨hn, h1000⟩ | ⟨h, rest, hn, hlater, hd⟩
  · refine ⟨Or.inl ⟨hn, h1000⟩, ?_⟩
    intro u hu
    rw [hn] at hu
    exact absurd hu (List.not_mem_nil u)
  · have hmin := t_rinoosched.wf_head_min _ hwf' h rest hn
    refine ⟨Or.inr ⟨h, rest, hn, hmin, ?_, hd, ?_⟩, ?_⟩
    · rw [timercmp_le_eq_not_lt] at hlater
      simpa using hlater
    · intro htv hclock
      rw [hd]
      exact driver_delta_normalized _ h hlater htv hclock
    · intro u hu
      exact timercmp_le_false_of_head _ _ _ (hmin u hu) hlater

/-- The scheduler `sched1` at clock 10 s, each resumed task calling
`rinoo_task_wait(sched, 2500)`: the two due tasks are rescheduled for 12.5 s,
the driver returns 2500 and leaves no due task. -/
theorem rinoo_task_driver_run_on_return_witness :
    sched1.wf ∧ (rinoo_task_driver_run swap_sleep 5 sched1).ret = some 2500 ∧
    ∀ u ∈ (rinoo_task_driver_run swap_sleep 5 sched1).sched.nodes,
      timercmp_le ((rinoo_task_driver_run swap_sleep 5 sched1).sched.task u).tv
        (rinoo_task_driver_run swap_sleep 5 sched1).sched.clock = false :=
  ⟨by decide, by decide,
    (rinoo_task_driver_run_on_return swap_sleep
      (fun s _ _ h => rinoo_task_wait_wf s 2500 h) 5 sched1 (by decide)
      2500 (by decide)).2⟩

/-! ## Claim C5: the timeout is not bounded by the default -/

theorem same_timers_refl (s : t_rinoosched) : SameTimers s s :=
  ⟨rfl, rfl, fun _ => ⟨rfl, rfl, rfl⟩⟩

theorem same_timers_trans {s1 s2 s3 : t_rinoosched} (h12 : SameTimers s1 s2)
    (h23 : SameTimers s2 s3) : SameTimers s1 s3 :=
  ⟨h23.1.trans h12.1, h23.2.1.trans h12.2.1, fun p =>
    ⟨(h23.2.2 p).1.trans (h12.2.2 p).1, (h23.2.2 p).2.1.trans (h12.2.2 p).2.1,
      (h23.2.2 p).2.2.trans (h12.2.2 p).2.2⟩⟩

theorem same_timers_wf {s s' : t_rinoosched} (h : SameTimers s s') (hwf : s.wf) : s'.wf := by
  obtain ⟨_, hn, ht⟩ := h
  obtain ⟨hnd, hpw, hfl⟩ := hwf
  refine ⟨hn ▸ hnd, ?_, ?_⟩
  · rw [hn]
    refine hpw.imp ?_
    intro a b hab
    rw [(ht a).1, (ht b).1]
    exact hab
  · intro t hm
    rw [hn] at hm
    rw [(ht t).2.1, (ht t).2.2]
    exact hfl t hm

theorem quiet_swap_wf {swap : Swap} (hq : swap.quiet) :
    ∀ s a b, s.wf → (swap s a b).2.wf :=
  fun s a b hwf => same_timers_wf (hq s a b) hwf

theorem rinoo_task_resume_quiet (swap : Swap) (hq : swap.quiet) (s : t_rinoosched)
    (t : TaskPtr) (hsch : (s.task t).scheduled = false) :
    SameTimers s (rinoo_task_resume swap s (some t)).2 := by
  have h1 : SameTimers s ((swap (s.set_current t) s.driver.current t).2.set_current
      s.driver.current) := hq (s.set_current t) s.driver.current t
  unfold rinoo_task_resume
  simp only
  split_ifs
  · refine same_timers_trans h1 ?_
    unfold rinoo_task_destroy
    have h2 : (((swap (s.set_current t) s.driver.current t).2.set_current
        s.driver.current).task t).scheduled = false := by
      rw [(h1.2.2 t).2.1, hsch]
    cases hs : (((swap (s.set_current t) s.driver.current t).2.set_current
        s.driver.current).task t).sched
    · rw [rinoo_task_unschedule_nosched _ t hs]
      exact same_timers_refl _
    · rw [rinoo_task_unschedule_unscheduled _ t hs h2]
      exact same_timers_refl _
  · exact h1

theorem driver_step_quiet (swap : Swap) (hq : swap.quiet) (s : t_rinoosched) (hwf : s.wf)
    (t : TaskPtr) (rest : List TaskPtr) (hn : s.nodes = t :: rest) :
    (driver_step swap s t).clock = s.clock ∧ (driver_step swap s t).nodes = rest ∧
    ∀ u ∈ rest, ((driver_step swap s t).task u).tv = (s.task u).tv := by
  obtain ⟨hnd, _, hfl⟩ := hwf
  have ht := hfl t (by rw [hn]; exact List.mem_cons_self _ _)
  have hu : rinoo_task_unschedule s (some t) = _ :=
    rinoo_task_unschedule_scheduled s t ht.1 ht.2
  have hq' := rinoo_task_resume_quiet swap hq (rinoo_task_unschedule s (some t)).2 t
    (by rw [hu]; simp)
  unfold driver_step
  refine ⟨hq'.1.trans (by rw [hu]; rfl), hq'.2.1.trans ?_, ?_⟩
  · rw [hu]
    simp [rinoorbtree_remove, nodes_def, hn]
  · intro u hmem
    have hne : u ≠ t := by
      rintro rfl
      rw [hn] at hnd
      exact (List.nodup_cons.1 hnd).1 hmem
    rw [(hq'.2.2 u).1, hu]
    simp [hne]

theorem takeWhile_congr_mem {α : Type} (p q : α → Bool) :
    ∀ (l : List α), (∀ x ∈ l, p x = q x) → l.takeWhile p = l.takeWhile q
  | [], _ => rfl
  | a :: l, h => by
    have ha := h a (List.mem_cons_self _ _)
    have ih := takeWhile_congr_mem p q l (fun x hx => h x (List.mem_cons_of_mem _ hx))
    simp only [List.takeWhile_cons, ha, ih]

theorem dropWhile_congr_mem {α : Type} (p q : α → Bool) :
    ∀ (l : List α), (∀ x ∈ l, p x = q x) → l.dropWhile p = l.dropWhile q
  | [], _ => rfl
  | a :: l, h => by
    have ha := h a (List.mem_cons_self _ _)
    have ih := dropWhile_congr_mem p q l (fun x hx => h x (List.mem_cons_of_mem _ hx))
    simp only [List.dropWhile_cons, ha, ih]

/-- With tasks that schedule nothing, `rinoo_task_driver_run` on a well-formed
tree resumes the leading due nodes of the tree, in tree order, leaves the
others, and returns once it has run one iteration more than there are nodes. -/
theorem rinoo_task_driver_run_quiet (swap : Swap) (hq : swap.quiet) :
    ∀ (fuel : Nat) (s : t_rinoosched), s.wf → s.nodes.length < fuel →
      (rinoo_task_driver_run swap fuel s).resumed =
        (s.nodes.takeWhile (fun t => timercmp_le (s.task t).tv s.clock)).map
          (fun t => ⟨t, (s.task t).tv, s.clock⟩) ∧
      (rinoo_task_driver_run swap fuel s).sched.nodes =
        s.nodes.dropWhile (fun t => timercmp_le (s.task t).tv s.clock) ∧
      (rinoo_task_driver_run swap fuel s).ret.isSome = true
  | 0, s, _, hlen => absurd hlen (Nat.not_lt_zero _)
  | fuel + 1, s, hwf, hlen => by
    cases hn : s.nodes with
    | nil => simp [rinoo_task_driver_run_nil swap fuel s hn, hn]
    | cons t rest =>
      cases hdue : timercmp_le (s.task t).tv s.clock
      · simp [rinoo_task_driver_run_later swap fuel s t rest hn hdue, hn, hdue]
      · rw [rinoo_task_driver_run_due swap fuel s t rest hn hdue]
        obtain ⟨hc, hr, htv⟩ := driver_step_quiet swap hq s hwf t rest hn
        have hlen' : (driver_step swap s t).nodes.length < fuel := by
          rw [hr]
          rw [hn] at hlen
          simpa using hlen
        obtain ⟨ih1, ih2, ih3⟩ := rinoo_task_driver_run_quiet swap hq fuel
          (driver_step swap s t) (driver_step_wf swap (quiet_swap_wf hq) s t hwf) hlen'
        have hp : ∀ x ∈ rest,
            (fun t' => timercmp_le ((driver_step swap s t).task t').tv
              (driver_step swap s t).clock) x
            = (fun t' => timercmp_le (s.task t').tv s.clock) x := by
          intro x hx
          simp only [htv x hx, hc]
        refine ⟨?_, ?_, ih3⟩
        · simp only [List.takeWhile_cons, hdue, if_true, List.map_cons]
          congr 1
          rw [ih1, hr, takeWhile_congr_mem _ _ rest hp, hc]
          apply List.map_congr_left
          intro x hx
          rw [htv x ((List.takeWhile_sublist _).subset hx)]
        · simp only [List.dropWhile_cons, hdue, if_true]
          rw [ih2, hr, dropWhile_congr_mem _ _ rest hp]

/-! ## Claim C2: the order of resumption -/

theorem pair_sublist_concat {α : Type} (x y z : α) (L : List α)
    (h : List.Sublist [x, y] (L ++ [z])) : List.Sublist [x, y] L ∨ (x ∈ L ∧ y = z) := by
  have h2 := h.reverse
  simp only [List.reverse_append, List.reverse_cons, List.reverse_nil, List.nil_append,
    List.singleton_append, List.cons_append] at h2
  rw [List.sublist_cons_iff] at h2
  rcases h2 with h2 | ⟨r, hr, h2⟩
  · left
    simpa using h2.reverse
  · right
    simp only [List.cons.injEq] at hr
    obtain ⟨rfl, rfl⟩ := hr
    simpa using h2

/-- One call of `rinoo_task_schedule`, on a task not yet in the tree, keeps the
timer order. -/
theorem rinoo_task_schedule_in_order (s : t_rinoosched) (done : List (TaskPtr × Timeval))
    (hinv : InTimerOrder s done) (t : TaskPtr) (w : Timeval)
    (hnew : t ∉ done.map Prod.fst) (hs : (s.task t).sched = true) :
    InTimerOrder (rinoo_task_schedule s (some t) (some w)).2 (done ++ [(t, w)]) ∧
    (rinoo_task_schedule s (some t) (some w)).2.clock = s.clock ∧
    ∀ u, u ≠ t → (rinoo_task_schedule s (some t) (some w)).2.task u = s.task u := by
  have hwf' := rinoo_task_schedule_wf s t (some w) hinv.1
  obtain ⟨⟨hnd, hpw, hfl⟩, hperm, htv, hst⟩ := hinv
  have htn : t ∉ s.nodes := fun h => hnew (hperm.mem_iff.1 h)
  rw [rinoo_task_schedule_eq s t (some w) hs hnd (fun h => absurd h htn),
    List.erase_of_not_mem htn] at hwf' ⊢
  simp only [Option.getD_some] at hwf' ⊢
  refine ⟨⟨hwf', ?_, ?_, ?_⟩, rfl, ?_⟩
  · -- the same tasks
    simp only [set_task_nodes, set_tree_nodes, List.map_append, List.map_cons, List.map_nil]
    exact (placed_perm s w t s.nodes).trans
      (((List.Perm.cons t hperm)).trans (List.perm_append_singleton t _).symm)
  · -- target times
    intro p hp
    simp only [set_task_task, set_tree_task]
    rcases List.mem_append.1 hp with hp | hp
    · have : p.1 ≠ t := fun h => hnew (h ▸ List.mem_map_of_mem Prod.fst hp)
      rw [Function.update_noteq this]
      exact htv p hp
    · obtain rfl : p = (t, w) := by simpa using hp
      rw [Function.update_same]
  · -- first scheduled, first in the tree
    intro a b wa wb hsub hle
    simp only [set_task_nodes, set_tree_nodes]
    rcases pair_sublist_concat _ _ _ _ hsub with h | ⟨ha, hb⟩
    · exact (hst a b wa wb h hle).trans (sublist_placed s w t s.nodes)
    · obtain ⟨rfl, rfl⟩ : b = t ∧ wb = w := by simpa using hb
      have ham : a ∈ s.nodes := hperm.mem_iff.2 (List.mem_map_of_mem Prod.fst ha)
      have hta : (s.task a).tv = wa := htv (a, wa) ha
      have := mem_takeWhile_of_not_lt s wb s.nodes hpw a ham (by rw [hta]; exact hle)
      unfold placed
      exact List.Sublist.append (List.singleton_sublist.2 this)
        (List.Sublist.cons₂ b (List.nil_sublist _))
  · intro u hu
    simp [hu]

theorem schedule_all_in_order :
    ∀ (l : List (TaskPtr × Timeval)) (s : t_rinoosched) (done : List (TaskPtr × Timeval)),
      InTimerOrder s done → ((done ++ l).map Prod.fst).Nodup →
      (∀ p ∈ l, (s.task p.1).sched = true) →
      InTimerOrder (schedule_all s l) (done ++ l) ∧ (schedule_all s l).clock = s.clock
  | [], s, done, hinv, _, _ => by
    simpa [schedule_all] using hinv
  | p :: l, s, done, hinv, hnd, hs => by
    have hnew : p.1 ∉ done.map Prod.fst := by
      intro h
      rw [List.map_append, List.nodup_append] at hnd
      exact hnd.2.2 h (by simp)
    obtain ⟨h1, h2, h3⟩ := rinoo_task_schedule_in_order s done hinv p.1 p.2 hnew
      (hs p (List.mem_cons_self _ _))
    have hnd' : (((done ++ [(p.1, p.2)]) ++ l).map Prod.fst).Nodup := by
      simpa using hnd
    have hs' : ∀ q ∈ l, ((rinoo_task_schedule s (some p.1) (some p.2)).2.task q.1).sched
        = true := by
      intro q hq
      have hne : q.1 ≠ p.1 := by
        intro h
        rw [List.map_append, List.nodup_append] at hnd
        have := hnd.2.1
        rw [List.map_cons, List.nodup_cons] at this
        exact this.1 (h ▸ List.mem_map_of_mem Prod.fst hq)
      rw [h3 q.1 hne]
      exact hs q (List.mem_cons_of_mem _ hq)
    obtain ⟨ih1, ih2⟩ := schedule_all_in_order l _ (done ++ [(p.1, p.2)]) h1 hnd' hs'
    have happ : done ++ [(p.1, p.2)] ++ l = done ++ p :: l := by simp
    rw [happ] at ih1
    exact ⟨ih1, ih2.trans h2⟩

/-- Claim C2: tasks scheduled into an empty timer tree by successive calls of
`rinoo_task_schedule` (distinct tasks attached to the scheduler, `l` listing
them with their target times in the order of the calls), all due at the clock,
and resumed tasks that schedule nothing: one call of `rinoo_task_driver_run`
returns (after one loop iteration more than there are tasks) having resumed
each task once, with the target time it was scheduled for, in non-decreasing
order of target time, and of two tasks with identical target times the one
scheduled first is resumed first. -/
theorem rinoo_task_driver_run_timer_order (swap : Swap) (hq : swap.quiet)
    (s0 : t_rinoosched) (l : List (TaskPtr × Timeval)) (hnd : (l.map Prod.fst).Nodup)
    (hatt : ∀ p ∈ l, (s0.task p.1).sched = true)
    (hdue : ∀ p ∈ l, timercmp_le p.2 s0.clock = true)
    (fuel : Nat) (hfuel : l.length < fuel) :
    (rinoo_task_driver_run swap fuel
        (schedule_all (rinoo_task_driver_init s0).2 l)).ret = some 1000 ∧
    (rinoo_task_driver_run swap fuel
        (schedule_all (rinoo_task_driver_init s0).2 l)).sched.nodes = [] ∧
    ((rinoo_task_driver_run swap fuel
        (schedule_all (rinoo_task_driver_init s0).2 l)).resumed.map Resumption.task).Perm
      (l.map Prod.fst) ∧
    (∀ p ∈ l, (⟨p.1, p.2, s0.clock⟩ : Resumption) ∈
      (rinoo_task_driver_run swap fuel
        (schedule_all (rinoo_task_driver_init s0).2 l)).resumed) ∧
    (rinoo_task_driver_run swap fuel
        (schedule_all (rinoo_task_driver_init s0).2 l)).resumed.Pairwise
      (fun e1 e2 => timercmp_lt e2.tv e1.tv = false) ∧
    ∀ a b w, List.Sublist [(a, w), (b, w)] l →
      List.Sublist [a, b]
        ((rinoo_task_driver_run swap fuel
          (schedule_all (rinoo_task_driver_init s0).2 l)).resumed.map Resumption.task) := by
  have hinit : InTimerOrder (rinoo_task_driver_init s0).2 [] := by
    refine ⟨⟨?_, ?_, ?_⟩, ?_, ?_, ?_⟩
    · exact List.nodup_nil
    · exact List.Pairwise.nil
    · intro t ht
      exact absurd ht (List.not_mem_nil t)
    · exact List.Perm.refl _
    · intro p hp
      exact absurd hp (List.not_mem_nil p)
    · intro a b wa wb h
      simp at h
  obtain ⟨hinv, hclock⟩ := schedule_all_in_order l (rinoo_task_driver_init s0).2 [] hinit
    (by simpa using hnd) hatt
  rw [List.nil_append] at hinv
  obtain ⟨hwf, hperm, htv, hst⟩ := hinv
  have hclock' : (schedule_all (rinoo_task_driver_init s0).2 l).clock = s0.clock := hclock
  have hlen : (schedule_all (rinoo_task_driver_init s0).2 l).nodes.length < fuel := by
    rw [hperm.length_eq, List.length_map]
    exact hfuel
  have hall : ∀ t ∈ (schedule_all (rinoo_task_driver_init s0).2 l).nodes,
      timercmp_le ((schedule_all (rinoo_task_driver_init s0).2 l).task t).tv
        (schedule_all (rinoo_task_driver_init s0).2 l).clock = true := by
    intro t ht
    obtain ⟨p, hp, rfl⟩ := List.mem_map.1 (hperm.mem_iff.1 ht)
    rw [htv p hp, hclock']
    exact hdue p hp
  obtain ⟨hres, hnodes, hret⟩ := rinoo_task_driver_run_quiet swap hq fuel _ hwf hlen
  rw [List.takeWhile_eq_self_iff.2 hall] at hres
  rw [List.dropWhile_eq_nil_iff.2 hall] at hnodes
  have htask : (rinoo_task_driver_run swap fuel
      (schedule_all (rinoo_task_driver_init s0).2 l)).resumed.map Resumption.task
      = (schedule_all (rinoo_task_driver_init s0).2 l).nodes := by
    rw [hres, List.map_map]
    exact List.map_id _
  refine ⟨?_, hnodes, ?_, ?_, ?_, ?_⟩
  · obtain ⟨r, hr⟩ := Option.isSome_iff_exists.1 hret
    rcases rinoo_task_driver_run_returned swap fuel _ r hr with ⟨_, h1000⟩ | ⟨h, rest, hn, _⟩
    · rw [hr, h1000]
    · rw [hnodes] at hn
      exact List.noConfusion hn
  · rw [htask]
    exact hperm
  · intro p hp
    rw [hres, List.mem_map]
    refine ⟨p.1, hperm.mem_iff.2 (List.mem_map_of_mem Prod.fst hp), ?_⟩
    rw [htv p hp, hclock']
  · rw [hres, List.pairwise_map]
    exact hwf.2.1
  · intro a b w hsub
    rw [htask]
    refine hst a b w w hsub ?_
    rw [timercmp_lt_false_iff]
    omega

/-- Four tasks scheduled for 5 s, 3 s, 5 s and 3 s, in this order, at clock
10 s: the driver resumes them in the order 3 s, 3 s, 5 s, 5 s, each pair in
the order of scheduling. -/
theorem rinoo_task_driver_run_timer_order_witness :
    (rinoo_task_driver_run swap_finish 5
        (schedule_all (rinoo_task_driver_init sched0).2
          [(TaskPtr.heap 1, ⟨5, 0⟩), (TaskPtr.heap 2, ⟨3, 0⟩), (TaskPtr.heap 3, ⟨5, 0⟩),
            (TaskPtr.heap 4, ⟨3, 0⟩)])).resumed.map Resumption.task
      = [TaskPtr.heap 2, TaskPtr.heap 4, TaskPtr.heap 1, TaskPtr.heap 3] ∧
    List.Sublist [TaskPtr.heap 1, TaskPtr.heap 3]
      ((rinoo_task_driver_run swap_finish 5
        (schedule_all (rinoo_task_driver_init sched0).2
          [(TaskPtr.heap 1, ⟨5, 0⟩), (TaskPtr.heap 2, ⟨3, 0⟩), (TaskPtr.heap 3, ⟨5, 0⟩),
            (TaskPtr.heap 4, ⟨3, 0⟩)])).resumed.map Resumption.task) :=
  ⟨by decide,
    (rinoo_task_driver_run_timer_order swap_finish (fun s _ _ => same_timers_refl s) sched0
      [(TaskPtr.heap 1, ⟨5, 0⟩), (TaskPtr.heap 2, ⟨3, 0⟩), (TaskPtr.heap 3, ⟨5, 0⟩),
        (TaskPtr.heap 4, ⟨3, 0⟩)] (by decide) (by decide) (by decide) 5 (by decide)).2.2.2.2.2
      (TaskPtr.heap 1) (TaskPtr.heap 3) ⟨5, 0⟩ (by decide)⟩

/-! ## Claim C7: where a task that yields with `rinoo_task_wait(sched, 0)` resumes -/

theorem pair_sublist_append_right {α : Type} (y x : α) :
    ∀ (R T : List α), y ∉ R → List.Sublist [y, x] (R ++ T) → List.Sublist [y, x] T
  | [], _, _, h => by simpa using h
  | r :: R, T, hy, h => by
    rw [List.cons_append, List.sublist_cons_iff] at h
    rcases h with h | ⟨l, hl, _⟩
    · exact pair_sublist_append_right y x R T (fun hm => hy (List.mem_cons_of_mem _ hm)) h
    · simp only [List.cons.injEq] at hl
      exact absurd (List.mem_cons.2 (Or.inl hl.1)) hy

theorem pair_sublist_append_left {α : Type} (x y : α) (T D : List α) (hy : y ∉ D)
    (h : List.Sublist [x, y] (T ++ D)) : List.Sublist [x, y] T := by
  have h2 := h.reverse
  simp only [List.reverse_append, List.reverse_cons, List.reverse_nil, List.nil_append,
    List.singleton_append] at h2
  have h3 := pair_sublist_append_right y x D.reverse T.reverse (by simpa using hy) h2
  simpa using h3.reverse

/-- In a well-formed tree, two nodes of which the second is due are resumed by
the driver (over tasks that schedule nothing) in their order in the tree. -/
theorem rinoo_task_driver_run_quiet_pair (swap : Swap) (hq : swap.quiet) (fuel : Nat)
    (s : t_rinoosched) (hwf : s.wf) (hlen : s.nodes.length < fuel) (x y : TaskPtr)
    (hsub : List.Sublist [x, y] s.nodes)
    (hy : timercmp_le (s.task y).tv s.clock = true) :
    List.Sublist [x, y] ((rinoo_task_driver_run swap fuel s).resumed.map Resumption.task) := by
  obtain ⟨hres, _, _⟩ := rinoo_task_driver_run_quiet swap hq fuel s hwf hlen
  have htask : (rinoo_task_driver_run swap fuel s).resumed.map Resumption.task
      = s.nodes.takeWhile (fun t => !timercmp_lt s.clock (s.task t).tv) := by
    rw [hres, List.map_map]
    have hfun : (fun t => timercmp_le (s.task t).tv s.clock)
        = (fun t => !timercmp_lt s.clock (s.task t).tv) :=
      funext (fun t => timercmp_le_eq_not_lt _ _)
    rw [hfun]
    exact List.map_id _
  rw [htask]
  have hym : y ∈ s.nodes := hsub.subset (by simp)
  have hyT := mem_takeWhile_of_not_lt s s.clock s.nodes hwf.2.1 y hym
    (by rw [timercmp_le_eq_not_lt] at hy; simpa using hy)
  have hnd := hwf.1
  rw [← List.takeWhile_append_dropWhile (fun t => !timercmp_lt s.clock (s.task t).tv) s.nodes,
    List.nodup_append] at hnd
  have hyD : y ∉ s.nodes.dropWhile (fun t => !timercmp_lt s.clock (s.task t).tv) :=
    fun h => hnd.2.2 hyT h
  refine pair_sublist_append_left x y _ _ hyD ?_
  rw [List.takeWhile_append_dropWhile]
  exact hsub

/-- Claim C7, counterexample: in the scheduler `sched1` (clock 10 s) task 2 is
in the timer tree with target time 3 s, which is not later than the clock.
Task 7, running, calls `rinoo_task_wait(sched, 0)`: it is placed at the head
of the tree, before task 2, and the driver resumes it before task 2. -/
theorem rinoo_task_wait_zero_overtakes_due :
    TaskPtr.heap 2 ∈ sched1.nodes ∧
    timercmp_le (sched1.task (TaskPtr.heap 2)).tv sched1.clock = true ∧
    (rinoo_task_wait (sched1.set_current (TaskPtr.heap 7)) 0).1 = 0 ∧
    (rinoo_task_wait (sched1.set_current (TaskPtr.heap 7)) 0).2.nodes
      = [TaskPtr.heap 7, TaskPtr.heap 2, TaskPtr.heap 1, TaskPtr.heap 3] ∧
    (rinoo_task_driver_run swap_finish 5
        ((rinoo_task_wait (sched1.set_current (TaskPtr.heap 7)) 0).2.set_current
          TaskPtr.main)).resumed.map Resumption.task
      = [TaskPtr.heap 7, TaskPtr.heap 2, TaskPtr.heap 1] := by
  decide

/-- Claim C7, amended: on a well-formed timer tree and with a clock at or after
the epoch, a task that calls `rinoo_task_wait(sched, 0)` is scheduled with
target time zero.  In the rest of the driver pass (`current` restored to the
task `c` that resumed it, the tasks that run scheduling nothing) it is resumed
after every due task already in the tree whose target time is not later than
zero, and before every due task already in the tree whose target time is later
than zero. -/
theorem rinoo_task_wait_zero_order (swap : Swap) (hq : swap.quiet) (s : t_rinoosched)
    (hwf : s.wf) (hcur : (s.task s.driver.current).sched = true)
    (hclock : timercmp_le Timeval.zero s.clock = true) (c : TaskPtr) (fuel : Nat)
    (hfuel : s.nodes.length + 1 < fuel) :
    (rinoo_task_wait s 0).1 = 0 ∧
    ((rinoo_task_wait s 0).2.task s.driver.current).tv = Timeval.zero ∧
    ∀ a ∈ s.nodes, a ≠ s.driver.current → timercmp_le (s.task a).tv s.clock = true →
      (timercmp_lt Timeval.zero (s.task a).tv = false →
        List.Sublist [a, s.driver.current]
          ((rinoo_task_driver_run swap fuel
            ((rinoo_task_wait s 0).2.set_current c)).resumed.map Resumption.task)) ∧
      (timercmp_lt Timeval.zero (s.task a).tv = true →
        List.Sublist [s.driver.current, a]
          ((rinoo_task_driver_run swap fuel
            ((rinoo_task_wait s 0).2.set_current c)).resumed.map Resumption.task)) := by
  obtain ⟨hnd, hpw, hfl⟩ := hwf
  have hwf' := rinoo_task_schedule_wf s s.driver.current none ⟨hnd, hpw, hfl⟩
  have hsched := rinoo_task_schedule_eq s s.driver.current none hcur hnd
    (fun h => (hfl _ h).2)
  have hwait : rinoo_task_wait s 0 = (0, (rinoo_task_schedule s (some s.driver.current) none).2) := by
    rw [rinoo_task_wait_eq]
    simp only [if_true, hsched]
    rfl
  rw [hwait]
  simp only
  rw [hsched] at hwf' ⊢
  simp only [Option.getD_none] at hwf' ⊢
  refine ⟨trivial, by simp, ?_⟩
  intro a ha hne hdue
  have hE : a ∈ s.nodes.erase s.driver.current := (List.mem_erase_of_ne hne).2 ha
  have hpwE := hpw.sublist (List.erase_sublist s.driver.current s.nodes)
  have hwfc : (((s.set_tree ⟨placed s Timeval.zero s.driver.current
        (s.nodes.erase s.driver.current)⟩).set_task s.driver.current
        { s.task s.driver.current with tv := Timeval.zero, scheduled := true }).set_current
        c).wf := t_rinoosched.wf_congr rfl rfl hwf'
  have hlen : (((s.set_tree ⟨placed s Timeval.zero s.driver.current
        (s.nodes.erase s.driver.current)⟩).set_task s.driver.current
        { s.task s.driver.current with tv := Timeval.zero, scheduled := true }).set_current
        c).nodes.length < fuel := by
    simp only [set_current_nodes, set_task_nodes, set_tree_nodes, length_placed]
    have := (List.erase_sublist s.driver.current s.nodes).length_le
    omega
  have hda : timercmp_le ((((s.set_tree ⟨placed s Timeval.zero s.driver.current
        (s.nodes.erase s.driver.current)⟩).set_task s.driver.current
        { s.task s.driver.current with tv := Timeval.zero, scheduled := true }).set_current
        c).task a).tv
      (((s.set_tree ⟨placed s Timeval.zero s.driver.current
        (s.nodes.erase s.driver.current)⟩).set_task s.driver.current
        { s.task s.driver.current with tv := Timeval.zero, scheduled := true }).set_current
        c).clock = true := by
    simpa [hne] using hdue
  have hdc : timercmp_le ((((s.set_tree ⟨placed s Timeval.zero s.driver.current
        (s.nodes.erase s.driver.current)⟩).set_task s.driver.current
        { s.task s.driver.current with tv := Timeval.zero, scheduled := true }).set_current
        c).task s.driver.current).tv
      (((s.set_tree ⟨placed s Timeval.zero s.driver.current
        (s.nodes.erase s.driver.current)⟩).set_task s.driver.current
        { s.task s.driver.current with tv := Timeval.zero, scheduled := true }).set_current
        c).clock = true := by
    simpa using hclock
  refine ⟨?_, ?_⟩
  · intro hle
    refine rinoo_task_driver_run_quiet_pair swap hq fuel _ hwfc hlen a s.driver.current ?_
      hdc
    simp only [set_current_nodes, set_task_nodes, set_tree_nodes]
    unfold placed
    exact List.Sublist.append
      (List.singleton_sublist.2 (mem_takeWhile_of_not_lt s Timeval.zero _ hpwE a hE hle))
      (List.Sublist.cons₂ _ (List.nil_sublist _))
  · intro hlt
    refine rinoo_task_driver_run_quiet_pair swap hq fuel _ hwfc hlen s.driver.current a ?_
      hda
    simp only [set_current_nodes, set_task_nodes, set_tree_nodes]
    unfold placed
    have hsplit := List.takeWhile_append_dropWhile
      (fun x => !timercmp_lt Timeval.zero (s.task x).tv) (s.nodes.erase s.driver.current)
    rw [← hsplit, List.mem_append] at hE
    rcases hE with hE | hE
    · have := List.mem_takeWhile_imp hE
      simp only [hlt, Bool.not_true] at this
      exact Bool.noConfusion this
    · exact List.sublist_append_of_sublist_right
        (List.Sublist.cons₂ _ (List.singleton_sublist.2 hE))

/-- The scheduler `sched1` with the task due at 0 s, task 5, in its tree and
task 7 calling `rinoo_task_wait(sched, 0)`: task 7 is resumed after task 5 and
before task 2 (due at 3 s). -/
theorem rinoo_task_wait_zero_order_witness :
    List.Sublist [TaskPtr.heap 5, TaskPtr.heap 7]
      ((rinoo_task_driver_run swap_finish 6
        ((rinoo_task_wait sched2 0).2.set_current TaskPtr.main)).resumed.map
          Resumption.task) ∧
    List.Sublist [TaskPtr.heap 7, TaskPtr.heap 2]
      ((rinoo_task_driver_run swap_finish 6
        ((rinoo_task_wait sched2 0).2.set_current TaskPtr.main)).resumed.map
          Resumption.task) :=
  have h := (rinoo_task_wait_zero_order swap_finish (fun s _ _ => same_timers_refl s) sched2
    (by decide) (by decide) (by decide) TaskPtr.main 6 (by decide)).2.2
  ⟨(h (TaskPtr.heap 5) (by decide) (by decide) (by decide)).1 (by decide),
   (h (TaskPtr.heap 2) (by decide) (by decide) (by decide)).2 (by decide)⟩

/-! ## Claim C11: a new task is neither scheduled nor running -/

/-- Claim C11: a task created by a successful `rinoo_task` has its `scheduled`
flag false and its target time zero; the creation leaves the timer tree, the
pending count, the current task, the clock and every other task as they were.
When the memory returned by `malloc` was not allocated before, the new task is
not a node of a tree whose nodes are allocated tasks (it is not scheduled) and
is not the current task when that one is allocated (it is not running). -/
theorem rinoo_task_neither_scheduled_nor_running (s : t_rinoosched) (malloc : Option Nat)
    (parent : Option TaskPtr) (function : Option Nat) (arg : Nat) (task : TaskPtr)
    (hok : (rinoo_task s malloc parent function arg).1 = some task) :
    ((rinoo_task s malloc parent function arg).2.task task).scheduled = false ∧
    ((rinoo_task s malloc parent function arg).2.task task).tv = Timeval.zero ∧
    (rinoo_task s malloc parent function arg).2.driver.proc_tree = s.driver.proc_tree ∧
    rinoo_task_driver_nbpending (rinoo_task s malloc parent function arg).2
      = rinoo_task_driver_nbpending s ∧
    rinoo_task_driver_getcurrent (rinoo_task s malloc parent function arg).2
      = rinoo_task_driver_getcurrent s ∧
    (rinoo_task s malloc parent function arg).2.clock = s.clock ∧
    (∀ u, u ≠ task → (rinoo_task s malloc parent function arg).2.task u = s.task u) ∧
    (s.live task = false →
      ((∀ u ∈ s.nodes, s.live u = true) →
        task ∉ (rinoo_task s malloc parent function arg).2.nodes) ∧
      (s.live s.driver.current = true →
        rinoo_task_driver_getcurrent (rinoo_task s malloc parent function arg).2 ≠ task)) := by
  obtain ⟨hf, a, ha, rfl⟩ := (rinoo_task_ok_iff s malloc parent function arg task).1 hok
  obtain ⟨f, rfl⟩ := Option.isSome_iff_exists.1 hf
  subst ha
  refine ⟨by simp [rinoo_task], by simp [rinoo_task], rfl, rfl, rfl, rfl, ?_, ?_⟩
  · intro u hu
    simp [rinoo_task, hu]
  · intro hfree
    refine ⟨?_, ?_⟩
    · intro hlive hmem
      have h1 : TaskPtr.heap a ∈ s.nodes := hmem
      rw [hlive _ h1] at hfree
      exact Bool.noConfusion hfree
    · intro hcur heq
      have h1 : s.driver.current = TaskPtr.heap a := heq
      rw [h1, hfree] at hcur
      exact Bool.noConfusion hcur

/-- A task created at the free address 9 in the scheduler `sched1` (with the
task at 9 marked free): it is not scheduled, the pending count stays 3, and it
is neither in the tree nor the current task. -/
theorem rinoo_task_neither_scheduled_nor_running_witness :
    (rinoo_task sched_free9 (some 9) (some TaskPtr.main) (some 7) 0).1
      = some (TaskPtr.heap 9) ∧
    ((rinoo_task sched_free9 (some 9) (some TaskPtr.main) (some 7) 0).2.task
      (TaskPtr.heap 9)).scheduled = false ∧
    rinoo_task_driver_nbpending
      (rinoo_task sched_free9 (some 9) (some TaskPtr.main) (some 7) 0).2 = 3 ∧
    TaskPtr.heap 9 ∉ (rinoo_task sched_free9 (some 9) (some TaskPtr.main) (some 7) 0).2.nodes ∧
    rinoo_task_driver_getcurrent
      (rinoo_task sched_free9 (some 9) (some TaskPtr.main) (some 7) 0).2 ≠ TaskPtr.heap 9 :=
  have h := rinoo_task_neither_scheduled_nor_running sched_free9 (some 9)
    (some TaskPtr.main) (some 7) 0 (TaskPtr.heap 9) rfl
  ⟨rfl, h.1, h.2.2.2.1, (h.2.2.2.2.2.2.2 (by decide)).1 (by decide),
    (h.2.2.2.2.2.2.2 (by decide)).2 (by decide)⟩

/-! ## Claim C12: the result of rinoo_task_start -/

theorem rinoo_task_unschedule_current (s : t_rinoosched) (t : TaskPtr) :
    (rinoo_task_unschedule s (some t)).2.driver.current = s.driver.current := by
  cases hs : (s.task t).sched
  · rw [rinoo_task_unschedule_nosched s t hs]
  · cases hsch : (s.task t).scheduled
    · rw [rinoo_task_unschedule_unscheduled s t hs hsch]
    · rw [rinoo_task_unschedule_scheduled s t hs hsch]
      rfl

theorem rinoo_task_destroy_current (s : t_rinoosched) (t : TaskPtr) :
    rinoo_task_driver_getcurrent (rinoo_task_destroy s t) = s.driver.current :=
  rinoo_task_unschedule_current s t

/-- Claim C13: whatever the swap does (whatever the resumed task and the tasks
it creates and runs do), `rinoo_task_resume` runs the task in a scheduler whose
current task is that task (its outcome depends only on what the swap does in
such schedulers), and it returns with `driver.current` restored to its value
before the call.  So `rinoo_task_run` leaves the current task unchanged, also
when it is called by a running task (a nested run returns to that task as the
current one). -/
theorem rinoo_task_resume_restores_current (swap : Swap) (s : t_rinoosched)
    (t : TaskPtr) (malloc : Option Nat) (function : Option Nat) (arg : Nat) :
    rinoo_task_driver_getcurrent (s.set_current t) = t ∧
    (rinoo_task_resume swap s (some t)).1
      = (swap (s.set_current t) (rinoo_task_driver_getcurrent s) t).1 ∧
    (∀ swap' : Swap,
      (∀ s1 a b, rinoo_task_driver_getcurrent s1 = t → swap' s1 a b = swap s1 a b) →
      rinoo_task_resume swap' s (some t) = rinoo_task_resume swap s (some t)) ∧
    rinoo_task_driver_getcurrent (rinoo_task_resume swap s (some t)).2
      = rinoo_task_driver_getcurrent s ∧
    rinoo_task_driver_getcurrent (rinoo_task_run swap s malloc function arg).2
      = rinoo_task_driver_getcurrent s := by
  have hres : ∀ (s0 : t_rinoosched) (u : TaskPtr),
      rinoo_task_driver_getcurrent (rinoo_task_resume swap s0 (some u)).2
        = rinoo_task_driver_getcurrent s0 := by
    intro s0 u
    unfold rinoo_task_resume
    simp only
    split_ifs
    · exact rinoo_task_destroy_current _ u
    · rfl
  refine ⟨rfl, ?_, ?_, hres s t, ?_⟩
  · unfold rinoo_task_resume rinoo_task_driver_getcurrent
    simp only
    split_ifs <;> rfl
  · intro swap' h
    unfold rinoo_task_resume
    simp only
    rw [h (s.set_current t) s.driver.current t rfl]
  · have hstate : rinoo_task_driver_getcurrent
        (rinoo_task s malloc (some s.driver.current) function arg).2
        = rinoo_task_driver_getcurrent s := by
      unfold rinoo_task
      cases function <;> cases malloc <;> rfl
    unfold rinoo_task_run
    simp only
    split
    · exact hstate
    · rw [hres]
      exact hstate

/-- The nested-run test: the driver resumes T1, which creates and runs T2,
which creates and runs T3.  T2 was created with T1 as the current task (its
link is the context of T1), T3 with T2 as the current task; on return the
current task is main again and the three tasks are destroyed. -/
theorem rinoo_task_resume_restores_current_witness :
    rinoo_task_driver_getcurrent
      (rinoo_task_resume swap_task1 (rinoo_task_unschedule sched_nested
        (some (TaskPtr.heap 1))).2 (some (TaskPtr.heap 1))).2 = TaskPtr.main ∧
    ((rinoo_task_resume swap_task1 (rinoo_task_unschedule sched_nested
        (some (TaskPtr.heap 1))).2 (some (TaskPtr.heap 1))).2.task
      (TaskPtr.heap 2)).context.link = some (TaskPtr.heap 1) ∧
    ((rinoo_task_resume swap_task1 (rinoo_task_unschedule sched_nested
        (some (TaskPtr.heap 1))).2 (some (TaskPtr.heap 1))).2.task
      (TaskPtr.heap 3)).context.link = some (TaskPtr.heap 2) ∧
    (rinoo_task_resume swap_task1 (rinoo_task_unschedule sched_nested
        (some (TaskPtr.heap 1))).2 (some (TaskPtr.heap 1))).2.live (TaskPtr.heap 1) = false ∧
    (rinoo_task_resume swap_task1 (rinoo_task_unschedule sched_nested
        (some (TaskPtr.heap 1))).2 (some (TaskPtr.heap 1))).2.live (TaskPtr.heap 2) = false ∧
    (rinoo_task_resume swap_task1 (rinoo_task_unschedule sched_nested
        (some (TaskPtr.heap 1))).2 (some (TaskPtr.heap 1))).2.live (TaskPtr.heap 3) = false :=
  ⟨(rinoo_task_resume_restores_current swap_task1
      (rinoo_task_unschedule sched_nested (some (TaskPtr.heap 1))).2 (TaskPtr.heap 1)
      none none 0).2.2.2.1,
    by decide, by decide, by decide, by decide, by decide⟩

/-! ## Claim C14: rinoo_epoll_poll returns 0 -/

/-- Claim C14: `rinoo_epoll_poll` returns 0 whatever `epoll_pwait` returned and
whatever the resumed tasks do; when the wait returned 0 (timeout) or -1
(interruption or error) it looks up no descriptor and resumes no socket, and
leaves the state as it was. -/
theorem rinoo_epoll_poll_returns_zero (resume : SocketResume) (s : t_rinoopoll)
    (nbevents : Int) (events : List epoll_event) :
    (rinoo_epoll_poll resume s nbevents events).1 = 0 ∧
    ((nbevents = 0 ∨ nbevents = -1) →
      (rinoo_epoll_poll resume s nbevents events).2.2 = [] ∧
      (rinoo_epoll_poll resume s nbevents events).2.1.table = s.table ∧
      (rinoo_epoll_poll resume s nbevents events).2.1.errno = s.errno) := by
  refine ⟨?_, ?_⟩
  · unfold rinoo_epoll_poll
    split_ifs <;> rfl
  · rintro (h | h)
    · subst h
      simp [rinoo_epoll_poll, rinoo_epoll_poll_loop]
    · subst h
      simp [rinoo_epoll_poll]

/-- A wait that timed out, and a wait that was interrupted, with a stale
event left in the buffer: the poll returns 0 and does nothing. -/
theorem rinoo_epoll_poll_returns_zero_witness :
    (rinoo_epoll_poll resume_close poll0 0 [⟨EPOLLIN, 3⟩]).1 = 0 ∧
    (rinoo_epoll_poll resume_close poll0 0 [⟨EPOLLIN, 3⟩]).2.2 = [] ∧
    (rinoo_epoll_poll resume_close poll0 (-1) [⟨EPOLLIN, 3⟩]).1 = 0 ∧
    (rinoo_epoll_poll resume_close poll0 (-1) [⟨EPOLLIN, 3⟩]).2.2 = [] :=
  ⟨(rinoo_epoll_poll_returns_zero resume_close poll0 0 [⟨EPOLLIN, 3⟩]).1,
    ((rinoo_epoll_poll_returns_zero resume_close poll0 0 [⟨EPOLLIN, 3⟩]).2 (Or.inl rfl)).1,
    (rinoo_epoll_poll_returns_zero resume_close poll0 (-1) [⟨EPOLLIN, 3⟩]).1,
    ((rinoo_epoll_poll_returns_zero resume_close poll0 (-1) [⟨EPOLLIN, 3⟩]).2
      (Or.inr rfl)).1⟩

/-! ## Claim C15: the resumptions for an event whose socket stays in the table -/

/-- The loop body on an event whose socket stays in the descriptor table. -/
theorem rinoo_epoll_poll_event_stays (resume : SocketResume) (s : t_rinoopoll)
    (ev : epoll_event) (sock : Nat) (h0 : s.table ev.fd = some sock)
    (hkeep : ∀ s' so, s'.table ev.fd = some sock → (resume s' so).table ev.fd = some sock) :
    (rinoo_epoll_poll_event resume s ev).2.filter PollAction.is_resume
      = dispatch_rule (some sock) ev.events ∧
    (rinoo_epoll_poll_event resume s ev).1.table ev.fd = some sock := by
  unfold rinoo_epoll_poll_event dispatch_rule rinoo_sched_get
  by_cases hin : ev.events &&& EPOLLIN = EPOLLIN
  · have h1 : (resume { s with errno := 0 } (s.table ev.fd)).table ev.fd = some sock :=
      hkeep _ _ h0
    simp only [hin, if_true, h1]
    by_cases hout : ev.events &&& EPOLLOUT = EPOLLOUT
    · have h2 : (resume { resume { s with errno := 0 } (s.table ev.fd) with errno := 0 }
          (some sock)).table ev.fd = some sock := hkeep _ _ h1
      simp only [hout, if_true, h2]
      by_cases herr : ev.events &&& EPOLLERR = EPOLLERR ∨ ev.events &&& EPOLLHUP = EPOLLHUP
      · simp only [herr, if_true]
        exact ⟨by simp [PollAction.is_resume, h0], hkeep _ _ h2⟩
      · simp only [herr, if_false]
        exact ⟨by simp [PollAction.is_resume, h0], h2⟩
    · simp only [hout, if_false, h1]
      by_cases herr : ev.events &&& EPOLLERR = EPOLLERR ∨ ev.events &&& EPOLLHUP = EPOLLHUP
      · simp only [herr, if_true]
        exact ⟨by simp [PollAction.is_resume, h0], hkeep _ _ h1⟩
      · simp only [herr, if_false]
        exact ⟨by simp [PollAction.is_resume, h0], h1⟩
  · simp only [hin, if_false, h0]
    by_cases hout : ev.events &&& EPOLLOUT = EPOLLOUT
    · have h2 : (resume { s with errno := 0 } (some sock)).table ev.fd = some sock :=
        hkeep _ _ h0
      simp only [hout, if_true, h2]
      by_cases herr : ev.events &&& EPOLLERR = EPOLLERR ∨ ev.events &&& EPOLLHUP = EPOLLHUP
      · simp only [herr, if_true]
        exact ⟨by simp [PollAction.is_resume], hkeep _ _ h2⟩
      · simp only [herr, if_false]
        exact ⟨by simp [PollAction.is_resume], h2⟩
    · simp only [hout, if_false, h0]
      by_cases herr : ev.events &&& EPOLLERR = EPOLLERR ∨ ev.events &&& EPOLLHUP = EPOLLHUP
      · simp only [herr, if_true]
        exact ⟨by simp [PollAction.is_resume], hkeep _ _ h0⟩
      · simp only [herr, if_false]
        exact ⟨by simp [PollAction.is_resume], h0⟩

/-- The loop body leaves in the descriptor table every entry that the resumed
tasks leave there. -/
theorem rinoo_epoll_poll_event_table (resume : SocketResume) (fd : Int)
    (hkeep : ∀ s' so, (resume s' so).table fd = s'.table fd) (s : t_rinoopoll)
    (ev : epoll_event) : (rinoo_epoll_poll_event resume s ev).1.table fd = s.table fd := by
  unfold rinoo_epoll_poll_event rinoo_sched_get
  simp only
  split
  · split_ifs <;> simp [hkeep]
  · split
    · split_ifs <;> simp [hkeep]
    · split_ifs <;> simp [hkeep]

theorem rinoo_epoll_poll_loop_stays (resume : SocketResume) :
    ∀ (evs : List epoll_event) (s : t_rinoopoll),
      (∀ e ∈ evs, ∃ sock, s.table e.fd = some sock) →
      (∀ s' so, ∀ e ∈ evs, (resume s' so).table e.fd = s'.table e.fd) →
      (rinoo_epoll_poll_loop resume s evs).2.filter PollAction.is_resume
        = evs.flatMap (fun e => dispatch_rule (s.table e.fd) e.events)
  | [], s, _, _ => rfl
  | ev :: rest, s, hpresent, hkeep => by
    obtain ⟨sock, h0⟩ := hpresent ev (List.mem_cons_self _ _)
    have hev := rinoo_epoll_poll_event_stays resume s ev sock h0
      (fun s' so h => by rw [hkeep s' so ev (List.mem_cons_self _ _)]; exact h)
    have htab : ∀ e ∈ rest, (rinoo_epoll_poll_event resume s ev).1.table e.fd = s.table e.fd :=
      fun e he => rinoo_epoll_poll_event_table resume e.fd
        (fun s' so => hkeep s' so e (List.mem_cons_of_mem _ he)) s ev
    have ih := rinoo_epoll_poll_loop_stays resume rest (rinoo_epoll_poll_event resume s ev).1
      (fun e he => by
        obtain ⟨sk, hsk⟩ := hpresent e (List.mem_cons_of_mem _ he)
        exact ⟨sk, by rw [htab e he]; exact hsk⟩)
      (fun s' so e he => hkeep s' so e (List.mem_cons_of_mem _ he))
    unfold rinoo_epoll_poll_loop
    simp only [List.filter_append, List.flatMap_cons]
    rw [hev.1, ih, h0]
    congr 1
    apply List.flatMap_congr
    intro e he
    rw [htab e he]

/-- Claim C15: when the sockets of the reported descriptors stay in the
descriptor table throughout, the calls of `rinoo_socket_resume` made by
`rinoo_epoll_poll` are, event after event in the order the wait reported them,
those of the rules of dispatch and no others: for an event with flags F, one
call on its socket with `errno` 0 if F contains IN, then one with `errno` 0 if
F contains OUT, then one with `errno` set to `ECONNRESET` if F contains ERR or
HUP; an event carrying both ERR and HUP gets one such call, not two. -/
theorem rinoo_epoll_poll_dispatch (resume : SocketResume) (s : t_rinoopoll)
    (nbevents : Int) (events : List epoll_event)
    (hpresent : ∀ e ∈ events.take nbevents.toNat, rinoo_sched_get s e.fd ≠ none)
    (hkeep : ∀ s' so, ∀ e ∈ events.take nbevents.toNat,
      (resume s' so).table e.fd = s'.table e.fd) :
    (rinoo_epoll_poll resume s nbevents events).2.2.filter PollAction.is_resume
      = (events.take nbevents.toNat).flatMap
          (fun e => dispatch_rule (s.table e.fd) e.events) ∧
    ∀ (so : Option Nat) (F : Nat),
      F &&& EPOLLERR = EPOLLERR → F &&& EPOLLHUP = EPOLLHUP →
      (dispatch_rule so F).count (PollAction.resume so ECONNRESET) = 1 := by
  refine ⟨?_, ?_⟩
  · unfold rinoo_epoll_poll
    split_ifs with h
    · subst h
      rfl
    · exact rinoo_epoll_poll_loop_stays resume _ s
        (fun e he => Option.ne_none_iff_exists'.1 (hpresent e he)) hkeep
  · intro so F herr hhup
    unfold dispatch_rule
    have hne : (PollAction.resume so 0 == PollAction.resume so ECONNRESET) = false := by
      simp [ECONNRESET]
    simp only [herr, hhup, or_self, if_true, List.count_append]
    split_ifs <;> simp [List.count_cons, hne]

/-- Two events reported, IN and OUT on descriptor 3, then ERR and HUP on
descriptor 4: socket 100 is resumed twice with `errno` 0, then socket 101 once
with `errno` set to `ECONNRESET`. -/
theorem rinoo_epoll_poll_dispatch_witness :
    (rinoo_epoll_poll resume_keep poll0 2
        [⟨EPOLLIN ||| EPOLLOUT, 3⟩, ⟨EPOLLERR ||| EPOLLHUP, 4⟩, ⟨EPOLLIN, 5⟩]).2.2.filter
        PollAction.is_resume
      = [PollAction.resume (some 100) 0, PollAction.resume (some 100) 0,
          PollAction.resume (some 101) ECONNRESET] :=
  (rinoo_epoll_poll_dispatch resume_keep poll0 2
    [⟨EPOLLIN ||| EPOLLOUT, 3⟩, ⟨EPOLLERR ||| EPOLLHUP, 4⟩, ⟨EPOLLIN, 5⟩]
    (by decide) (fun _ _ _ _ => rfl)).1

/-! ## Claim C16: no resumption of a socket that left the table -/

/-- Claim C16: whatever the resumed tasks do, in the loop body of
`rinoo_epoll_poll` for one event: if the lookup after the IN step does not find
the socket, the body ends there, with no resumption after that of the IN step;
if the lookup after the OUT step does not find it, the body ends there, with no
resumption after that of the OUT step; and after the IN step every call of
`rinoo_socket_resume` comes right after a lookup that found that very socket
in the descriptor table. -/
theorem rinoo_epoll_poll_event_recheck (resume : SocketResume) (s : t_rinoopoll)
    (ev : epoll_event) :
    (rinoo_sched_get (after_in_step resume s ev) ev.fd = none →
      (rinoo_epoll_poll_event resume s ev).1 = after_in_step resume s ev ∧
      (rinoo_epoll_poll_event resume s ev).2.filter PollAction.is_resume
        = if ev.events &&& EPOLLIN = EPOLLIN then
            [PollAction.resume (rinoo_sched_get s ev.fd) 0]
          else []) ∧
    (∀ c1, rinoo_sched_get (after_in_step resume s ev) ev.fd = some c1 →
      rinoo_sched_get (after_out_step resume (after_in_step resume s ev) ev c1) ev.fd
        = none →
      (rinoo_epoll_poll_event resume s ev).1
        = after_out_step resume (after_in_step resume s ev) ev c1 ∧
      (rinoo_epoll_poll_event resume s ev).2.filter PollAction.is_resume
        = (if ev.events &&& EPOLLIN = EPOLLIN then
            [PollAction.resume (rinoo_sched_get s ev.fd) 0]
          else []) ++
          (if ev.events &&& EPOLLOUT = EPOLLOUT then [PollAction.resume (some c1) 0]
          else [])) ∧
    guarded ((rinoo_epoll_poll_event resume s ev).2.drop
      (if ev.events &&& EPOLLIN = EPOLLIN then 2 else 1)) = true := by
  unfold rinoo_epoll_poll_event after_out_step after_in_step
  refine ⟨?_, ?_, ?_⟩
  · intro h
    by_cases hin : ev.events &&& EPOLLIN = EPOLLIN
    · simp only [hin, if_true] at h ⊢
      simp [h, PollAction.is_resume]
    · simp only [hin, if_false] at h ⊢
      simp [h, PollAction.is_resume]
  · intro c1 h1 h2
    by_cases hin : ev.events &&& EPOLLIN = EPOLLIN
    · simp only [hin, if_true] at h1 h2 ⊢
      by_cases hout : ev.events &&& EPOLLOUT = EPOLLOUT
      · simp only [hout, if_true] at h2 ⊢
        simp [h1, h2, PollAction.is_resume]
      · simp only [hout, if_false] at h2
        rw [h1] at h2
        exact Option.noConfusion h2
    · simp only [hin, if_false] at h1 h2 ⊢
      by_cases hout : ev.events &&& EPOLLOUT = EPOLLOUT
      · simp only [hout, if_true] at h2 ⊢
        simp [h1, h2, PollAction.is_resume]
      · simp only [hout, if_false] at h2
        rw [h1] at h2
        exact Option.noConfusion h2
  · by_cases hin : ev.events &&& EPOLLIN = EPOLLIN
    · simp only [hin, if_true]
      split
      · simp [guarded]
      · split_ifs <;> split <;> simp [guarded]
    · simp only [hin, if_false]
      split
      · simp [guarded]
      · split_ifs <;> split <;> simp [guarded]

/-- An event with IN, OUT and ERR on descriptor 3 whose task, resumed for IN,
closes the socket: the socket is resumed once, for IN, and not again. -/
theorem rinoo_epoll_poll_event_recheck_witness :
    rinoo_sched_get (after_in_step resume_close poll0
      ⟨EPOLLIN ||| EPOLLOUT ||| EPOLLERR, 3⟩) 3 = none ∧
    (rinoo_epoll_poll_event resume_close poll0
        ⟨EPOLLIN ||| EPOLLOUT ||| EPOLLERR, 3⟩).2.filter PollAction.is_resume
      = [PollAction.resume (some 100) 0] :=
  ⟨by decide,
    ((rinoo_epoll_poll_event_recheck resume_close poll0
      ⟨EPOLLIN ||| EPOLLOUT ||| EPOLLERR, 3⟩).1 (by decide)).2⟩

/-! ## Claim C17: the event mask of rinoo_epoll_insert and rinoo_epoll_addmode -/

/-- Claim C17: for every mode and socket there is one event mask `m` that both
`rinoo_epoll_insert` (with `EPOLL_CTL_ADD`) and `rinoo_epoll_addmode` (with
`EPOLL_CTL_MOD`) hand to `epoll_ctl`, with the descriptor of the socket, each
returning 0 if the kernel call returns 0 and -1 otherwise.  The mask contains
`EPOLLONESHOT`, contains `EPOLLIN` iff the mode includes `RINOO_MODE_IN`,
contains `EPOLLOUT` iff the mode includes `RINOO_MODE_OUT`, and contains
nothing else; it is built from the mode alone. -/
theorem rinoo_epoll_event_mask (RINOO_MODE_IN RINOO_MODE_OUT : Nat) (sk : t_rinoosocket)
    (mode : Nat) :
    ∃ m : Nat,
      (∀ ctl : EpollCtl,
        rinoo_epoll_insert ctl RINOO_MODE_IN RINOO_MODE_OUT (some sk) mode
          = if ctl sk.epfd EPOLL_CTL_ADD sk.fd (some ⟨m, sk.fd⟩) = 0 then 0 else -1) ∧
      (∀ ctl : EpollCtl,
        rinoo_epoll_addmode ctl RINOO_MODE_IN RINOO_MODE_OUT (some sk) mode
          = if ctl sk.epfd EPOLL_CTL_MOD sk.fd (some ⟨m, sk.fd⟩) = 0 then 0 else -1) ∧
      m &&& EPOLLONESHOT = EPOLLONESHOT ∧
      (m &&& EPOLLIN = EPOLLIN ↔ mode &&& RINOO_MODE_IN = RINOO_MODE_IN) ∧
      (m &&& EPOLLOUT = EPOLLOUT ↔ mode &&& RINOO_MODE_OUT = RINOO_MODE_OUT) ∧
      m &&& (EPOLLIN ||| EPOLLOUT ||| EPOLLONESHOT) = m := by
  by_cases hin : mode &&& RINOO_MODE_IN = RINOO_MODE_IN
  · by_cases hout : mode &&& RINOO_MODE_OUT = RINOO_MODE_OUT
    · refine ⟨((0 ||| EPOLLIN) ||| EPOLLOUT) ||| EPOLLONESHOT, ?_, ?_, by decide, ?_, ?_,
        by decide⟩
      · intro ctl
        simp only [rinoo_epoll_insert, hin, hout, if_true]
        split_ifs <;> simp_all
      · intro ctl
        simp only [rinoo_epoll_addmode, hin, hout, if_true]
        split_ifs <;> simp_all
      · exact ⟨fun _ => hin, fun _ => by decide⟩
      · exact ⟨fun _ => hout, fun _ => by decide⟩
    · refine ⟨(0 ||| EPOLLIN) ||| EPOLLONESHOT, ?_, ?_, by decide, ?_, ?_, by decide⟩
      · intro ctl
        simp only [rinoo_epoll_insert, hin, hout, if_true, if_false]
        split_ifs <;> simp_all
      · intro ctl
        simp only [rinoo_epoll_addmode, hin, hout, if_true, if_false]
        split_ifs <;> simp_all
      · exact ⟨fun _ => hin, fun _ => by decide⟩
      · exact ⟨fun h => absurd h (by decide), fun h => absurd h hout⟩
  · by_cases hout : mode &&& RINOO_MODE_OUT = RINOO_MODE_OUT
    · refine ⟨(0 ||| EPOLLOUT) ||| EPOLLONESHOT, ?_, ?_, by decide, ?_, ?_, by decide⟩
      · intro ctl
        simp only [rinoo_epoll_insert, hin, hout, if_true, if_false]
        split_ifs <;> simp_all
      · intro ctl
        simp only [rinoo_epoll_addmode, hin, hout, if_true, if_false]
        split_ifs <;> simp_all
      · exact ⟨fun h => absurd h (by decide), fun h => absurd h hin⟩
      · exact ⟨fun _ => hout, fun _ => by decide⟩
    · refine ⟨0 ||| EPOLLONESHOT, ?_, ?_, by decide, ?_, ?_, by decide⟩
      · intro ctl
        simp only [rinoo_epoll_insert, hin, hout, if_false]
        split_ifs <;> simp_all
      · intro ctl
        simp only [rinoo_epoll_addmode, hin, hout, if_false]
        split_ifs <;> simp_all
      · exact ⟨fun h => absurd h (by decide), fun h => absurd h hin⟩
      · exact ⟨fun h => absurd h (by decide), fun h => absurd h hout⟩

/-! ## Linked nodes: splitting, joining and changing links -/

theorem sseg_append (nx : Nat → Option Nat) :
    ∀ (l1 l2 : List Nat) (p q : Option Nat),
      sseg nx p (l1 ++ l2) q ↔ ∃ m, sseg nx p l1 m ∧ sseg nx m l2 q
  | [], l2, p, q => by
    simp only [List.nil_append, sseg]
    constructor
    · intro h
      exact ⟨p, rfl, h⟩
    · rintro ⟨m, rfl, h⟩
      exact h
  | a :: l1, l2, p, q => by
    show (p = some a ∧ sseg nx (nx a) (l1 ++ l2) q) ↔
      ∃ m, (p = some a ∧ sseg nx (nx a) l1 m) ∧ sseg nx m l2 q
    rw [sseg_append nx l1 l2 (nx a) q]
    constructor
    · rintro ⟨hp, m, h1, h2⟩
      exact ⟨m, ⟨hp, h1⟩, h2⟩
    · rintro ⟨m, ⟨hp, h1⟩, h2⟩
      exact ⟨hp, m, h1, h2⟩

theorem sseg_concat (nx : Nat → Option Nat) (l : List Nat) (t : Nat) (p q : Option Nat) :
    sseg nx p (l ++ [t]) q ↔ sseg nx p l (some t) ∧ nx t = q := by
  rw [sseg_append]
  simp only [sseg]
  constructor
  · rintro ⟨m, h1, rfl, h2⟩
    exact ⟨h1, h2⟩
  · rintro ⟨h1, h2⟩
    exact ⟨some t, h1, rfl, h2⟩

theorem sseg_congr (nx nx' : Nat → Option Nat) :
    ∀ (l : List Nat) (p q : Option Nat), (∀ a ∈ l, nx a = nx' a) →
      (sseg nx p l q ↔ sseg nx' p l q)
  | [], _, _, _ => Iff.rfl
  | a :: l, p, q, h => by
    simp only [sseg]
    rw [h a (List.mem_cons_self _ _),
      sseg_congr nx nx' l (nx' a) q (fun b hb => h b (List.mem_cons_of_mem _ hb))]

theorem sseg_head (nx : Nat → Option Nat) (a : Nat) (l : List Nat) (p q : Option Nat)
    (h : sseg nx p (a :: l) q) : p = some a := h.1

/-! ## Claim C18: the fifo is first-in first-out -/

theorem fifo_push_queues_concat (bits : Nat) (s : FifoState) (L' : List Nat) (t new x : Nat)
    (f : Option Nat)
    (hseg : sseg (fun a => (s.mem a).next) s.fifo.head (L' ++ [t]) none)
    (htail : s.fifo.tail = (L' ++ [t]).getLast?) (hsize : s.fifo.size = (L' ++ [t]).length)
    (hnd : (L' ++ [t]).Nodup) (hnew : new ∉ L' ++ [t])
    (hfit : (L' ++ [t]).length + 1 < 2 ^ bits) :
    (fifo_push bits s (some new) (some x) f).1 = 0 ∧
    (fifo_push bits s (some new) (some x) f).2.queues (L' ++ [t] ++ [new]) ∧
    (fifo_push bits s (some new) (some x) f).2.elems (L' ++ [t] ++ [new])
      = s.elems (L' ++ [t]) ++ [some x] := by
  have hhead : s.fifo.head ≠ none := by
    intro h0
    rw [h0] at hseg
    cases L' with
    | nil => exact Option.noConfusion hseg.1
    | cons a l => exact Option.noConfusion hseg.1
  have htail' : s.fifo.tail = some t := by simpa using htail
  have htn : t ≠ new := fun h => hnew (by simp [h])
  have hL'n : ∀ a ∈ L', a ≠ new := fun a ha h => hnew (by simp [← h, ha])
  have hL't : ∀ a ∈ L', a ≠ t := by
    intro a ha h
    rw [List.nodup_append] at hnd
    exact hnd.2.2 ha (by simp [h])
  rw [sseg_concat] at hseg
  refine ⟨rfl, ⟨?_, ?_, ?_, ?_⟩, ?_⟩
  · simp only [fifo_push, hhead, if_false, htail']
    rw [sseg_concat, sseg_concat]
    refine ⟨⟨?_, ?_⟩, ?_⟩
    · refine (sseg_congr _ _ L' _ _ ?_).1 hseg.1
      intro a ha
      simp [Function.update_noteq (hL't a ha), Function.update_noteq (hL'n a ha)]
    · simp
    · simp [Function.update_noteq htn.symm]
  · simp [fifo_push, hhead]
  · simp only [fifo_push, hhead, if_false, hsize, List.length_append,
      List.length_singleton]
    exact Nat.mod_eq_of_lt (by simpa using hfit)
  · rw [List.nodup_append]
    refine ⟨hnd, List.nodup_singleton _, ?_⟩
    intro a ha hb
    simp at hb
    exact hnew (hb ▸ ha)
  · simp only [fifo_push, hhead, if_false, htail', FifoState.elems, List.map_append,
      List.map_cons, List.map_nil]
    congr 1
    · congr 1
      · apply List.map_congr_left
        intro a ha
        simp [Function.update_noteq (hL't a ha), Function.update_noteq (hL'n a ha)]
      · simp [Function.update_noteq htn]
    · simp [Function.update_noteq htn.symm]

theorem fifo_push_queues (bits : Nat) (s : FifoState) (L : List Nat) (new x : Nat)
    (f : Option Nat) (h : s.queues L) (hnew : new ∉ L) (hfit : L.length + 1 < 2 ^ bits) :
    (fifo_push bits s (some new) (some x) f).1 = 0 ∧
    (fifo_push bits s (some new) (some x) f).2.queues (L ++ [new]) ∧
    (fifo_push bits s (some new) (some x) f).2.elems (L ++ [new])
      = s.elems L ++ [some x] := by
  obtain ⟨hseg, htail, hsize, hnd⟩ := h
  rcases List.eq_nil_or_concat L with rfl | ⟨L', t, hL⟩
  rotate_left
  · rw [List.concat_eq_append] at hL
    subst hL
    exact fifo_push_queues_concat bits s L' t new x f hseg htail hsize hnd hnew hfit
  · have hhead : s.fifo.head = none := hseg
    have htail' : s.fifo.tail = none := htail
    have hsize' : s.fifo.size = 0 := hsize
    have hmod : 1 % 2 ^ bits = 1 := Nat.mod_eq_of_lt (by simpa using hfit)
    simp [fifo_push, hhead, htail', FifoState.queues, sseg, FifoState.elems, hsize', hmod]

theorem fifo_pop_queues (bits : Nat) (s : FifoState) (a : Nat) (L : List Nat)
    (h : s.queues (a :: L)) (hfit : L.length + 1 < 2 ^ bits) :
    (fifo_pop bits s).1 = (s.mem a).node ∧ (fifo_pop bits s).2.queues L ∧
    (fifo_pop bits s).2.mem = s.mem := by
  obtain ⟨hseg, htail, hsize, hnd⟩ := h
  have hhead : s.fifo.head = some a := hseg.1
  have hrest : sseg (fun b => (s.mem b).next) (s.mem a).next L none := hseg.2
  have hsize' : s.fifo.size = L.length + 1 := hsize
  have hmod : (s.fifo.size + 2 ^ bits - 1) % 2 ^ bits = L.length := by
    have e : s.fifo.size + 2 ^ bits - 1 = L.length + 2 ^ bits := by omega
    rw [e, Nat.add_mod_right]
    exact Nat.mod_eq_of_lt (by omega)
  unfold fifo_pop
  simp only [hhead]
  refine ⟨trivial, ⟨?_, ?_, ?_, (List.nodup_cons.1 hnd).2⟩, trivial⟩
  · cases L with
    | nil =>
      have hn : (s.mem a).next = none := hrest
      simp [hn, sseg]
    | cons b L =>
      have hn : (s.mem a).next = some b := hrest.1
      simpa [hn] using hrest
  · cases L with
    | nil =>
      have hn : (s.mem a).next = none := hrest
      simp [hn]
    | cons b L =>
      have hn : (s.mem a).next = some b := hrest.1
      simpa [hn] using htail
  · cases L with
    | nil =>
      have hn : (s.mem a).next = none := hrest
      simpa [hn] using hmod
    | cons b L =>
      have hn : (s.mem a).next = some b := hrest.1
      simpa [hn] using hmod

theorem fifo_pop_empty (bits : Nat) (s : FifoState) (h : s.queues []) :
    fifo_pop bits s = (none, s) := by
  have hhead : s.fifo.head = none := h.1
  unfold fifo_pop
  simp only [hhead]

theorem fifo_get_eq_pop (bits : Nat) (s : FifoState) :
    fifo_get s = (fifo_pop bits s).1 := by
  unfold fifo_get fifo_pop
  cases s.fifo.head <;> rfl

theorem fifo_push_all_queues (bits : Nat) (f : Option Nat) :
    ∀ (l : List (Nat × Nat)) (s : FifoState) (L : List Nat), s.queues L →
      (L ++ l.map Prod.fst).Nodup → L.length + l.length < 2 ^ bits →
      (fifo_push_all bits f s l).1 = l.map (fun _ => 0) ∧
      (fifo_push_all bits f s l).2.queues (L ++ l.map Prod.fst) ∧
      (fifo_push_all bits f s l).2.elems (L ++ l.map Prod.fst)
        = s.elems L ++ l.map (fun p => some p.2)
  | [], s, L, h, _, _ => by simpa [fifo_push_all] using h
  | p :: l, s, L, h, hnd, hfit => by
    have hnew : p.1 ∉ L := by
      intro hm
      rw [List.nodup_append] at hnd
      exact hnd.2.2 hm (by simp)
    have hlen : (p :: l).length = l.length + 1 := rfl
    obtain ⟨h1, h2, h3⟩ := fifo_push_queues bits s L p.1 p.2 f h hnew (by omega)
    have hnd' : ((L ++ [p.1]) ++ l.map Prod.fst).Nodup := by simpa using hnd
    obtain ⟨ih1, ih2, ih3⟩ := fifo_push_all_queues bits f l _ (L ++ [p.1]) h2 hnd'
      (by simp only [List.length_append, List.length_singleton]; omega)
    have happ : L ++ [p.1] ++ l.map Prod.fst = L ++ (p :: l).map Prod.fst := by simp
    rw [happ] at ih2 ih3
    unfold fifo_push_all
    refine ⟨by simp [h1, ih1], ih2, ?_⟩
    rw [ih3, h3]
    simp

theorem fifo_pop_n_queues (bits : Nat) :
    ∀ (k : Nat) (s : FifoState) (L : List Nat), s.queues L → k ≤ L.length →
      L.length < 2 ^ bits →
      (fifo_pop_n bits k s).1 = s.elems (L.take k) ∧
      (fifo_pop_n bits k s).2.queues (L.drop k) ∧
      (fifo_pop_n bits k s).2.mem = s.mem
  | 0, s, L, h, _, _ => by simpa [fifo_pop_n, FifoState.elems] using h
  | k + 1, s, [], _, hk, _ => absurd hk (by simp)
  | k + 1, s, a :: L, h, hk, hfit => by
    have hlen : (a :: L).length = L.length + 1 := rfl
    obtain ⟨h1, h2, h3⟩ := fifo_pop_queues bits s a L h (by omega)
    obtain ⟨ih1, ih2, ih3⟩ := fifo_pop_n_queues bits k (fifo_pop bits s).2 L h2
      (by omega) (by omega)
    unfold fifo_pop_n
    refine ⟨?_, by simpa using ih2, ih3.trans h3⟩
    simp only [List.take_succ_cons, FifoState.elems, List.map_cons, h1, ih1, h3]

/-- Claim C18: the fifo is first-in first-out.  On the empty fifo `s0` that
`fifo_create` returns, push the non-null elements of `l`, one `fifo_push` after
the other, each node at the fresh address `calloc` returns for it, their number
within the range of the size counter.  Then every push returns 0 and after `j`
pushes the size is `j`; for every `k ≤ n` the first `k` calls of `fifo_pop`
return the first `k` elements in push order and leave the size `n - k`, and in
the fifo they leave `fifo_get` returns what the next `fifo_pop` returns, the
element `k + 1`, or `NULL` when `k = n`; the pop after the `n`-th returns
`NULL` and leaves the fifo as it is, empty, with size 0. -/
theorem fifo_first_in_first_out (bits : Nat) (f : Option Nat) (mem : Nat → t_fifonode) (live : Nat → Bool)
    (s0 : FifoState) (l : List (Nat × Nat))
    (hcreate : fifo_create true mem live = some s0)
    (hfresh : (l.map Prod.fst).Nodup) (hfit : l.length < 2 ^ bits) :
    (fifo_push_all bits f s0 l).1 = l.map (fun _ => 0) ∧
    (∀ j ≤ l.length, (fifo_push_all bits f s0 (l.take j)).2.fifo.size = j) ∧
    (∀ k ≤ l.length,
      (fifo_pop_n bits k (fifo_push_all bits f s0 l).2).1
        = (l.take k).map (fun p => some p.2) ∧
      (fifo_pop_n bits k (fifo_push_all bits f s0 l).2).2.fifo.size = l.length - k ∧
      fifo_get (fifo_pop_n bits k (fifo_push_all bits f s0 l).2).2
        = (fifo_pop bits (fifo_pop_n bits k (fifo_push_all bits f s0 l).2).2).1 ∧
      fifo_get (fifo_pop_n bits k (fifo_push_all bits f s0 l).2).2
        = (l.drop k).head?.map (fun p => p.2)) ∧
    fifo_pop bits (fifo_pop_n bits l.length (fifo_push_all bits f s0 l).2).2
      = (none, (fifo_pop_n bits l.length (fifo_push_all bits f s0 l).2).2) ∧
    (fifo_pop_n bits l.length (fifo_push_all bits f s0 l).2).2.fifo = ⟨none, none, 0⟩ := by
  have hs0 : s0 = ⟨⟨none, none, 0⟩, mem, live⟩ := by
    simpa [fifo_create] using hcreate.symm
  have hq0 : s0.queues [] := by
    subst hs0
    simp [FifoState.queues, sseg]
  obtain ⟨hret, hq, hel⟩ := fifo_push_all_queues bits f l s0 [] hq0 (by simpa using hfresh)
    (by simpa using hfit)
  simp only [List.nil_append, FifoState.elems, List.map_nil] at hq hel
  have hlen : (l.map Prod.fst).length = l.length := List.length_map _ _
  have hnode : ∀ p ∈ l, ((fifo_push_all bits f s0 l).2.mem p.1).node = some p.2 := by
    rw [List.map_map] at hel
    exact List.map_inj_left.1 hel
  refine ⟨hret, ?_, ?_, ?_, ?_⟩
  · intro j hj
    have hsub : ((l.take j).map Prod.fst).Nodup :=
      hfresh.sublist ((List.take_sublist j l).map Prod.fst)
    have hjl : (l.take j).length = j := by simp [hj]
    obtain ⟨_, hqj, _⟩ := fifo_push_all_queues bits f (l.take j) s0 [] hq0
      (by simpa using hsub) (by simp only [List.length_nil, hjl]; omega)
    rw [hqj.2.2.1]
    simp [hj]
  · intro k hk
    obtain ⟨hp1, hp2, hp3⟩ := fifo_pop_n_queues bits k _ (l.map Prod.fst) hq
      (by rw [hlen]; exact hk) (by rw [hlen]; exact hfit)
    refine ⟨?_, ?_, fifo_get_eq_pop bits _, ?_⟩
    · rw [hp1, FifoState.elems, ← List.map_take, List.map_map]
      exact List.map_congr_left (fun p hp => hnode p (List.mem_of_mem_take hp))
    · rw [hp2.2.2.1]
      simp
    · have hdrop : ((l.map Prod.fst).drop k).map
          (fun a => ((fifo_push_all bits f s0 l).2.mem a).node)
          = (l.drop k).map (fun p => some p.2) := by
        rw [← List.map_drop, List.map_map]
        exact List.map_congr_left (fun p hp => hnode p (List.mem_of_mem_drop hp))
      have hhead := hp2.1
      unfold fifo_get
      rw [hp3]
      cases hd : l.drop k with
      | nil =>
        rw [← List.map_drop, hd] at hhead
        have hnone : (fifo_pop_n bits k (fifo_push_all bits f s0 l).2).2.fifo.head = none :=
          hhead
        simp [hnone]
      | cons p r =>
        rw [← List.map_drop, hd] at hhead hdrop
        have hsome : (fifo_pop_n bits k (fifo_push_all bits f s0 l).2).2.fifo.head
            = some p.1 := hhead.1
        simp only [List.map_cons, List.cons.injEq] at hdrop
        simp [hsome, hdrop.1]
  · obtain ⟨_, hp2, _⟩ := fifo_pop_n_queues bits l.length _ (l.map Prod.fst) hq
      (by rw [hlen]) (by rw [hlen]; exact hfit)
    rw [← hlen, List.drop_length] at hp2
    rw [← hlen]
    exact fifo_pop_empty bits _ hp2
  · obtain ⟨_, hp2, _⟩ := fifo_pop_n_queues bits l.length _ (l.map Prod.fst) hq
      (by rw [hlen]) (by rw [hlen]; exact hfit)
    rw [← hlen, List.drop_length] at hp2
    rw [← hlen]
    obtain ⟨h1, h2, h3, _⟩ := hp2
    have e1 : (fifo_pop_n bits (l.map Prod.fst).length (fifo_push_all bits f s0 l).2).2.fifo.head
        = none := h1
    have e2 : (fifo_pop_n bits (l.map Prod.fst).length (fifo_push_all bits f s0 l).2).2.fifo.tail
        = none := h2
    have e3 : (fifo_pop_n bits (l.map Prod.fst).length (fifo_push_all bits f s0 l).2).2.fifo.size
        = 0 := h3
    cases hf : (fifo_pop_n bits (l.map Prod.fst).length (fifo_push_all bits f s0 l).2).2.fifo
    rw [hf] at e1 e2 e3
    simp only at e1 e2 e3
    rw [e1, e2, e3]

/-- Three elements 7, 8, 9 pushed at the addresses 10, 11, 12 onto the empty
fifo come back in that order, the size going 3, 2, 1, 0. -/
theorem fifo_first_in_first_out_witness :
    (fifo_push_all 32 none fifo0 [(10, 7), (11, 8), (12, 9)]).1 = [0, 0, 0] ∧
    (fifo_pop_n 32 3 (fifo_push_all 32 none fifo0 [(10, 7), (11, 8), (12, 9)]).2).1
      = [some 7, some 8, some 9] ∧
    (fifo_pop_n 32 2 (fifo_push_all 32 none fifo0 [(10, 7), (11, 8), (12, 9)]).2).2.fifo.size = 1 ∧
    fifo_get (fifo_pop_n 32 2 (fifo_push_all 32 none fifo0 [(10, 7), (11, 8), (12, 9)]).2).2
      = some 9 ∧
    (fifo_pop 32 (fifo_pop_n 32 3 (fifo_push_all 32 none fifo0 [(10, 7), (11, 8), (12, 9)]).2).2).1
      = none := by
  have h := fifo_first_in_first_out 32 none fifo0.mem fifo0.live fifo0 [(10, 7), (11, 8), (12, 9)]
    rfl (by decide) (by decide)
  refine ⟨h.1, (h.2.2.1 3 (by decide)).1, (h.2.2.1 2 (by decide)).2.1,
    (h.2.2.1 2 (by decide)).2.2.2, congrArg Prod.fst h.2.2.2.1⟩

/-! ## Claim C19: list_remove and list_find -/

theorem sseg_link (nx : Nat → Option Nat) (A B : List Nat) (n : Nat) (p : Option Nat)
    (h : sseg nx p (A ++ n :: B) none) : nx n = B.head? := by
  rw [sseg_append] at h
  obtain ⟨m, _, h2⟩ := h
  cases B with
  | nil => exact h2.2
  | cons b B => exact h2.2.1

theorem sseg_unlink (nx nx' : Nat → Option Nat) (A B : List Nat) (n : Nat) (p : Option Nat)
    (h : sseg nx p (A ++ n :: B) none) (hnd : A.Nodup)
    (hA : ∀ a ∈ A, A.getLast? ≠ some a → nx' a = nx a)
    (hB : ∀ a ∈ B, nx' a = nx a)
    (hlast : ∀ pr, A.getLast? = some pr → nx' pr = nx n) :
    sseg nx' (if A = [] then nx n else p) (A ++ B) none := by
  rcases List.eq_nil_or_concat A with rfl | ⟨A', pr, hA'⟩
  · simp only [if_true, List.nil_append]
    exact (sseg_congr nx nx' B _ _ (fun a ha => (hB a ha).symm)).1 h.2
  · rw [List.concat_eq_append] at hA'
    subst hA'
    have hne : A' ++ [pr] ≠ [] := by simp
    simp only [hne, if_false]
    rw [sseg_append] at h
    obtain ⟨m, h12, h3⟩ := h
    rw [sseg_concat] at h12
    obtain ⟨h1, h2⟩ := h12
    rw [sseg_append]
    refine ⟨nx n, (sseg_concat _ _ _ _ _).2 ⟨?_, hlast pr (by simp)⟩, ?_⟩
    · refine (sseg_congr nx nx' A' _ _ ?_).1 h1
      intro a ha
      refine (hA a (by simp [ha]) ?_).symm
      intro hl
      rw [List.nodup_append] at hnd
      have hpa : pr = a := by simpa using hl
      exact hnd.2.2 ha (by simp [hpa])
    · exact (sseg_congr nx nx' B _ _ (fun a ha => (hB a ha).symm)).1 h3.2

theorem list_removenode_fields (bits : Nat) (s : ListState) (n : Nat) (P X : Option Nat)
    (needfree : Bool)
    (hprev : (s.mem n).prev = P) (hnext : (s.mem n).next = X)
    (hpn : P ≠ some n) (hxn : X ≠ some n) (hpx : ∀ a, P = some a → X ≠ some a) :
    (list_removenode bits s (some n) needfree).1 = 0 ∧
    (∀ a, ((list_removenode bits s (some n) needfree).2.mem a).next
      = if P = some a then X else (s.mem a).next) ∧
    (∀ a, ((list_removenode bits s (some n) needfree).2.mem a).prev
      = if X = some a then P else (s.mem a).prev) ∧
    (∀ a, ((list_removenode bits s (some n) needfree).2.mem a).node = (s.mem a).node) ∧
    (list_removenode bits s (some n) needfree).2.list.head
      = (if P = none then X else s.list.head) ∧
    (list_removenode bits s (some n) needfree).2.list.tail
      = (if X = none then P else s.list.tail) ∧
    (list_removenode bits s (some n) needfree).2.list.size
      = (s.list.size + 2 ^ bits - 1) % 2 ^ bits ∧
    (list_removenode bits s (some n) needfree).2.list.type = s.list.type ∧
    (list_removenode bits s (some n) needfree).2.list.cmp_func = s.list.cmp_func ∧
    (list_removenode bits s (some n) needfree).2.live = Function.update s.live n false := by
  cases P with
  | none =>
    cases X with
    | none =>
      simp [list_removenode, hprev, hnext]
    | some x =>
      have hx : x ≠ n := fun e => hxn (by rw [e])
      simp only [list_removenode, hprev, hnext]
      refine ⟨trivial, ?_, ?_, ?_, by simp, by simp, trivial, trivial, trivial, trivial⟩
      · intro a
        by_cases hax : a = x
        · subst hax
          simp [Function.update_same]
        · simp [Function.update_noteq hax]
      · intro a
        by_cases hax : a = x
        · subst hax
          simp [Function.update_same]
        · simp [Function.update_noteq hax, Ne.symm hax]
      · intro a
        by_cases hax : a = x
        · subst hax
          simp [Function.update_same]
        · simp [Function.update_noteq hax]
  | some p =>
    have hp : p ≠ n := fun e => hpn (by rw [e])
    have h1 : ∀ v, (Function.update s.mem p v n) = s.mem n :=
      fun v => Function.update_noteq hp.symm _ _
    cases X with
    | none =>
      simp only [list_removenode, hprev, hnext, h1]
      refine ⟨trivial, ?_, ?_, ?_, by simp, by simp, trivial, trivial, trivial, trivial⟩
      · intro a
        by_cases hap : a = p
        · subst hap
          simp [Function.update_same]
        · simp [Function.update_noteq hap, Ne.symm hap]
      · intro a
        by_cases hap : a = p
        · subst hap
          simp [Function.update_same]
        · simp [Function.update_noteq hap]
      · intro a
        by_cases hap : a = p
        · subst hap
          simp [Function.update_same]
        · simp [Function.update_noteq hap]
    | some x =>
      have hx : x ≠ n := fun e => hxn (by rw [e])
      have hpx' : p ≠ x := fun e => hpx p rfl (by rw [e])
      simp only [list_removenode, hprev, hnext, h1]
      refine ⟨trivial, ?_, ?_, ?_, by simp, by simp, trivial, trivial, trivial, trivial⟩
      · intro a
        by_cases hax : a = x
        · subst hax
          simp [Function.update_noteq (Ne.symm hpx'), Function.update_same, hpx']
        · by_cases hap : a = p
          · subst hap
            simp [Function.update_noteq hax, Function.update_same]
          · simp [Function.update_noteq hax, Function.update_noteq hap, Ne.symm hap]
      · intro a
        by_cases hax : a = x
        · subst hax
          simp [Function.update_same]
        · simp only [Function.update_noteq hax, Option.some.injEq, Ne.symm hax, if_false]
          by_cases hap : a = p
          · subst hap
            simp [Function.update_same]
          · simp [Function.update_noteq hap]
      · intro a
        by_cases hax : a = x
        · subst hax
          simp [Function.update_noteq (Ne.symm hpx'), Function.update_same]
        · by_cases hap : a = p
          · subst hap
            simp [Function.update_noteq hax, Function.update_same]
          · simp [Function.update_noteq hax, Function.update_noteq hap, hap]

theorem list_removenode_holds (bits : Nat) (s : ListState) (A B : List Nat) (n : Nat)
    (needfree : Bool) (h : s.holds (A ++ n :: B)) (hfit : (A ++ n :: B).length < 2 ^ bits) :
    (list_removenode bits s (some n) needfree).1 = 0 ∧
    (list_removenode bits s (some n) needfree).2.holds (A ++ B) ∧
    (∀ a, ((list_removenode bits s (some n) needfree).2.mem a).node = (s.mem a).node) ∧
    (list_removenode bits s (some n) needfree).2.list.size + 1 = s.list.size ∧
    (list_removenode bits s (some n) needfree).2.list.type = s.list.type ∧
    (list_removenode bits s (some n) needfree).2.list.cmp_func = s.list.cmp_func ∧
    (list_removenode bits s (some n) needfree).2.live = Function.update s.live n false := by
  obtain ⟨hf, hb, hsize, hnd⟩ := h
  have hrev : (A ++ n :: B).reverse = B.reverse ++ n :: A.reverse := by simp
  rw [hrev] at hb
  have hnext : (s.mem n).next = B.head? := sseg_link _ A B n _ hf
  have hprev : (s.mem n).prev = A.getLast? := by
    have := sseg_link _ B.reverse A.reverse n _ hb
    simpa [List.head?_reverse] using this
  have hnA : n ∉ A := fun hm => (List.nodup_append.1 hnd).2.2 hm (by simp)
  have hnB : n ∉ B := fun hm => by
    have := (List.nodup_append.1 hnd).2.1
    exact (List.nodup_cons.1 this).1 hm
  have hAB : ∀ a, a ∈ A → a ∉ B := fun a ha hb' =>
    (List.nodup_append.1 hnd).2.2 ha (List.mem_cons_of_mem _ hb')
  have hAnd : A.Nodup := (List.nodup_append.1 hnd).1
  have hBnd : B.Nodup := (List.nodup_cons.1 (List.nodup_append.1 hnd).2.1).2
  have hlen : (A ++ n :: B).length = (A ++ B).length + 1 := by
    simp only [List.length_append, List.length_cons]; omega
  obtain ⟨h0, hnx, hpv, hnode, hhead, htail, hsz, hty, hcmp, hlive⟩ :=
    list_removenode_fields bits s n A.getLast? B.head? needfree hprev hnext
      (fun e => hnA (List.mem_of_mem_getLast? e)) (fun e => hnB (List.mem_of_mem_head? e))
      (fun a e1 e2 => hAB a (List.mem_of_mem_getLast? e1) (List.mem_of_mem_head? e2))
  have hsize' : (list_removenode bits s (some n) needfree).2.list.size = (A ++ B).length := by
    rw [hsz, hsize, hlen]
    have e : (A ++ B).length + 1 + 2 ^ bits - 1 = (A ++ B).length + 2 ^ bits := by omega
    rw [e, Nat.add_mod_right]
    exact Nat.mod_eq_of_lt (by omega)
  refine ⟨h0, ⟨?_, ?_, hsize', ?_⟩, hnode, by rw [hsize', hsize, hlen], hty, hcmp, hlive⟩
  · have := sseg_unlink (fun a => (s.mem a).next)
      (fun a => ((list_removenode bits s (some n) needfree).2.mem a).next) A B n _ hf hAnd
      (fun a _ hl => by simp only [hnx, if_neg hl])
      (fun a ha => by
        have : A.getLast? ≠ some a := fun e => hAB a (List.mem_of_mem_getLast? e) ha
        simp only [hnx, if_neg this])
      (fun pr hl => by simp only [hnx, if_pos hl, hnext])
    rw [hhead]
    simp only [hnext] at this
    by_cases hA : A = []
    · simpa [hA] using this
    · have hg : A.getLast? ≠ none := by simpa using hA
      simpa [hA, hg] using this
  · have := sseg_unlink (fun a => (s.mem a).prev)
      (fun a => ((list_removenode bits s (some n) needfree).2.mem a).prev) B.reverse A.reverse
      n _ hb (List.nodup_reverse.2 hBnd)
      (fun a _ hl => by
        rw [List.getLast?_reverse] at hl
        simp only [hpv, if_neg hl])
      (fun a ha => by
        have : B.head? ≠ some a := fun e =>
          hAB a (List.mem_reverse.1 ha) (List.mem_of_mem_head? e)
        simp only [hpv, if_neg this])
      (fun pr hl => by
        rw [List.getLast?_reverse] at hl
        simp only [hpv, if_pos hl, hprev])
    rw [htail, List.reverse_append]
    simp only [hprev] at this
    by_cases hB : B = []
    · simpa [hB] using this
    · have hg : B.head? ≠ none := by simpa using hB
      simpa [hB, hg] using this
  · rw [List.nodup_append]
    exact ⟨hAnd, hBnd, fun a ha hb' => hAB a ha hb'⟩

theorem list_search_sseg (s : ListState) (e : Option Nat) :
    ∀ (L : List Nat) (p : Option Nat) (fuel : Nat),
      sseg (fun a => (s.mem a).next) p L none → L.length < fuel →
      list_search s e fuel p
        = some (L.find? (fun a => decide (s.list.cmp_func (s.mem a).node e = 0)))
  | _, _, 0, _, hfuel => absurd hfuel (Nat.not_lt_zero _)
  | [], p, fuel + 1, h, _ => by
    have hp : p = none := h
    subst hp
    rfl
  | a :: L, p, fuel + 1, h, hfuel => by
    have hp : p = some a := h.1
    subst hp
    have ih := list_search_sseg s e L (s.mem a).next fuel h.2
      (by simpa using hfuel)
    by_cases hc : s.list.cmp_func (s.mem a).node e = 0
    · simp [list_search, hc]
    · simp [list_search, hc, ih]

theorem find_first_match (f : Nat → Bool) (A B : List Nat) (n : Nat)
    (hA : ∀ a ∈ A, f a = false) (hn : f n = true) : (A ++ n :: B).find? f = some n := by
  induction A with
  | nil => simp [hn]
  | cons a A ih =>
    have ha : f a = false := hA a (List.mem_cons_self _ _)
    simp only [List.cons_append, List.find?_cons, ha]
    exact ih (fun b hb => hA b (List.mem_cons_of_mem _ hb))

/-- Claim C19: `list_remove` and `list_find` act on the first matching node.
Let the list hold the nodes `L`, their number within the range of the size
counter, and let the search have fuel for more than `L.length` tests.  Then
both functions return.  If `L = A ++ n :: B` where no element of the nodes of
`A` compares equal to `e` under the list's `cmp_func` and the element of `n`
does, `list_remove` returns 0 and leaves a list that holds `A ++ B`, so every
other node in its old place, with their elements unchanged, the size one
less and the node `n` freed, and `list_find` returns the element of `n`.  If
no element of `L` compares equal to `e`, `list_remove` returns -1 and leaves
the state as it is, and `list_find` returns `NULL`. -/
theorem list_remove_first_match (bits fuel : Nat) (s : ListState) (L : List Nat)
    (e : Option Nat) (needfree : Bool)
    (h : s.holds L) (hfit : L.length < 2 ^ bits) (hfuel : L.length < fuel) :
    list_remove bits fuel s e needfree ≠ none ∧ list_find fuel s e ≠ none ∧
    (∀ A n B, L = A ++ n :: B →
      (∀ a ∈ A, s.list.cmp_func (s.mem a).node e ≠ 0) →
      s.list.cmp_func (s.mem n).node e = 0 →
      ∃ s', list_remove bits fuel s e needfree = some (0, s') ∧
        s'.holds (A ++ B) ∧ s'.elems (A ++ B) = s.elems A ++ s.elems B ∧
        (∀ a, (s'.mem a).node = (s.mem a).node) ∧
        s'.list.size + 1 = s.list.size ∧ s'.live n = false ∧
        list_find fuel s e = some (s.mem n).node) ∧
    ((∀ a ∈ L, s.list.cmp_func (s.mem a).node e ≠ 0) →
      list_remove bits fuel s e needfree = some (-1, s) ∧
      list_find fuel s e = some none) := by
  have hs := list_search_sseg s e L s.list.head fuel h.1 hfuel
  refine ⟨?_, ?_, ?_, ?_⟩
  · unfold list_remove
    rw [hs]
    cases L.find? (fun a => decide (s.list.cmp_func (s.mem a).node e = 0)) <;> simp
  · unfold list_find
    rw [hs]
    cases L.find? (fun a => decide (s.list.cmp_func (s.mem a).node e = 0)) <;> simp
  · intro A n B hL hA hn
    subst hL
    have hfind : (A ++ n :: B).find? (fun a => decide (s.list.cmp_func (s.mem a).node e = 0))
        = some n :=
      find_first_match _ A B n (fun a ha => by simpa using hA a ha) (by simpa using hn)
    rw [hfind] at hs
    obtain ⟨_, hholds, hnode, hsize, _, _, hlive⟩ :=
      list_removenode_holds bits s A B n needfree h hfit
    refine ⟨(list_removenode bits s (some n) needfree).2, ?_, hholds, ?_, hnode, hsize, ?_, ?_⟩
    · unfold list_remove
      rw [hs]
    · simp only [ListState.elems, List.map_append, hnode]
    · rw [hlive, Function.update_same]
    · unfold list_find
      rw [hs]
  · intro hno
    have hfind : L.find? (fun a => decide (s.list.cmp_func (s.mem a).node e = 0)) = none := by
      rw [List.find?_eq_none]
      intro a ha
      simpa using hno a ha
    rw [hfind] at hs
    constructor
    · unfold list_remove
      rw [hs]
    · unfold list_find
      rw [hs]

/-- On the list of 7, 17, 8, 9 the element 27 compares equal to 7 and to 17:
`list_remove` takes out the node of 7, the first, and `list_find` returns 7;
nothing compares equal to 5. -/
theorem list_remove_first_match_witness :
    (∃ s', list_remove 32 5 list0 (some 27) true = some (0, s') ∧
      s'.holds [21, 22, 23] ∧ s'.elems [21, 22, 23] = [some 17, some 8, some 9] ∧
      s'.list.size = 3 ∧ list_find 5 list0 (some 27) = some (some 7)) ∧
    list_remove 32 5 list0 (some 5) true = some (-1, list0) ∧
    list_find 5 list0 (some 5) = some none := by
  have h := list_remove_first_match 32 5 list0 [20, 21, 22, 23] (some 27) true
    (by decide) (by decide) (by decide)
  have h5 := list_remove_first_match 32 5 list0 [20, 21, 22, 23] (some 5) true
    (by decide) (by decide) (by decide)
  obtain ⟨s', h1, h2, h3, _, h4, _, h6⟩ := h.2.2.1 [] 20 [21, 22, 23] rfl (by simp) (by decide)
  exact ⟨⟨s', h1, h2, h3, by simpa [list0] using h4, h6⟩, h5.2.2.2 (by decide)⟩

/-! ## Claim C20: list_getnext -/

theorem list_getnext_calls_sseg (s : ListState) :
    ∀ (L : List Nat) (it p : Option Nat),
      (match it with
        | none => s.list.head
        | some cur => (s.mem cur).next) = p →
      sseg (fun a => (s.mem a).next) p L none →
      list_getnext_calls s (L.length + 1) (some it)
        = L.map (fun a => ((s.mem a).node, some (some a))) ++ [(none, some none)]
  | [], it, p, hp, h => by
    have h1 : p = none := h
    subst h1
    simp [list_getnext_calls, list_getnext, hp]
  | a :: L, it, p, hp, h => by
    have h1 : p = some a := h.1
    subst h1
    have ih := list_getnext_calls_sseg s L (some a) (s.mem a).next rfl h.2
    have hstep : list_getnext s (some it) = ((s.mem a).node, some (some a)) := by
      simp [list_getnext, hp]
    rw [List.length_cons, list_getnext_calls, hstep]
    simp only [ih, List.map_cons, List.cons_append]

/-- Claim C20: `list_getnext` walks the list once, head to tail.  On a list
that holds the `n` nodes `L` and is not written in between, `n + 1` calls with
one iterator that starts at `NULL` return: in call `k ≤ n` the element of the
`k`-th node from the head, the iterator then holding that node, and in call
`n + 1` `NULL`, the iterator holding `NULL`.  Every node of the list is held by
the iterator after exactly one of the calls. -/
theorem list_getnext_head_to_tail (s : ListState) (L : List Nat) (h : s.holds L) :
    list_getnext_calls s (L.length + 1) (some none)
      = L.map (fun a => ((s.mem a).node, some (some a))) ++ [(none, some none)] ∧
    (list_getnext_calls s (L.length + 1) (some none)).map Prod.fst = s.elems L ++ [none] ∧
    (∀ a ∈ L, ((list_getnext_calls s (L.length + 1) (some none)).map Prod.snd).count
      (some (some a)) = 1) := by
  have hcalls := list_getnext_calls_sseg s L none s.list.head rfl h.1
  refine ⟨hcalls, ?_, ?_⟩
  · rw [hcalls]
    simp [ListState.elems]
  · intro a ha
    rw [hcalls]
    have hinj : Function.Injective (fun b : Nat => (some (some b) : Option (Option Nat))) :=
      fun x y hxy => by simpa using hxy
    have hmap : (L.map (fun a => ((s.mem a).node, some (some a))) ++ [(none, some none)]).map
        Prod.snd = L.map (fun b => (some (some b) : Option (Option Nat))) ++ [some none] := by
      simp
    have hc := List.count_map_of_injective L _ hinj a
    rw [List.count_eq_one_of_mem h.2.2.2 ha] at hc
    rw [hmap, List.count_append]
    have h0 : List.count (some (some a)) [(some none : Option (Option Nat))] = 0 := by simp
    rw [h0, Nat.add_zero]
    convert hc

/-- On the list of 7, 17, 8, 9 five calls return 7, 17, 8, 9 and `NULL`. -/
theorem list_getnext_head_to_tail_witness :
    (list_getnext_calls list0 5 (some none)).map Prod.fst
      = [some 7, some 17, some 8, some 9, none] ∧
    ((list_getnext_calls list0 5 (some none)).map Prod.snd).count (some (some 22)) = 1 := by
  have h := list_getnext_head_to_tail list0 [20, 21, 22, 23] (by decide)
  exact ⟨h.2.1, h.2.2 22 (by decide)⟩

/-! ## Claim C21: the comparator of the timer tree -/

/-- Claim C21: `rinoo_task_cmp` returns 0 iff its arguments are one and the
same task; for two distinct tasks it returns -1 iff the target time of the
first is strictly less than that of the second in the lexicographic order on
(sec, usec), and 1 otherwise.  So for two distinct tasks with equal target
times it returns 1 in both argument orders, and for tasks with different
target times `cmp(a, b) = -cmp(b, a)`. -/
theorem rinoo_task_cmp_order (s : t_rinoosched) (a b : TaskPtr) :
    (rinoo_task_cmp s a b = 0 ↔ a = b) ∧
    (a ≠ b →
      (rinoo_task_cmp s a b = -1 ↔
        ((s.task a).tv.tv_sec < (s.task b).tv.tv_sec ∨
          ((s.task a).tv.tv_sec = (s.task b).tv.tv_sec ∧
            (s.task a).tv.tv_usec < (s.task b).tv.tv_usec))) ∧
      (rinoo_task_cmp s a b = 1 ↔
        ¬ ((s.task a).tv.tv_sec < (s.task b).tv.tv_sec ∨
          ((s.task a).tv.tv_sec = (s.task b).tv.tv_sec ∧
            (s.task a).tv.tv_usec < (s.task b).tv.tv_usec)))) ∧
    (a ≠ b → (s.task a).tv = (s.task b).tv →
      rinoo_task_cmp s a b = 1 ∧ rinoo_task_cmp s b a = 1) ∧
    ((s.task a).tv ≠ (s.task b).tv → rinoo_task_cmp s a b = - rinoo_task_cmp s b a) := by
  have hlt := timercmp_lt_iff (s.task a).tv (s.task b).tv
  have hgt := timercmp_lt_iff (s.task b).tv (s.task a).tv
  refine ⟨?_, ?_, ?_, ?_⟩
  · unfold rinoo_task_cmp
    split_ifs with h1 h2 <;> simp [h1]
  · intro hab
    unfold rinoo_task_cmp
    simp only [hab, if_false]
    cases hc : timercmp_lt (s.task a).tv (s.task b).tv
    · rw [hc] at hlt
      have hn : ¬ ((s.task a).tv.tv_sec < (s.task b).tv.tv_sec ∨
          ((s.task a).tv.tv_sec = (s.task b).tv.tv_sec ∧
            (s.task a).tv.tv_usec < (s.task b).tv.tv_usec)) :=
        fun h => Bool.noConfusion (hlt.2 h)
      simp [hn]
    · rw [hc] at hlt
      simp [hlt.1 rfl]
  · intro hab heq
    have hba : b ≠ a := fun h => hab h.symm
    unfold rinoo_task_cmp
    simp only [hab, hba, if_false, heq]
    have hirr : timercmp_lt (s.task b).tv (s.task b).tv = false := by
      rw [timercmp_lt_false_iff]
      omega
    simp [hirr]
  · intro hne
    have hab : a ≠ b := fun h => hne (by rw [h])
    have hba : b ≠ a := fun h => hab h.symm
    have hfield : (s.task a).tv.tv_sec ≠ (s.task b).tv.tv_sec ∨
        (s.task a).tv.tv_usec ≠ (s.task b).tv.tv_usec := by
      by_contra hcon
      push_neg at hcon
      apply hne
      cases hta : (s.task a).tv
      cases htb : (s.task b).tv
      rw [hta, htb] at hcon
      simp only at hcon
      rw [hcon.1, hcon.2]
    unfold rinoo_task_cmp
    simp only [hab, hba, if_false]
    cases hc : timercmp_lt (s.task a).tv (s.task b).tv
    · rw [hc] at hlt
      have hn : ¬ ((s.task a).tv.tv_sec < (s.task b).tv.tv_sec ∨
          ((s.task a).tv.tv_sec = (s.task b).tv.tv_sec ∧
            (s.task a).tv.tv_usec < (s.task b).tv.tv_usec)) :=
        fun h => Bool.noConfusion (hlt.2 h)
      have h2 : timercmp_lt (s.task b).tv (s.task a).tv = true := hgt.2 (by omega)
      simp [h2]
    · rw [hc] at hlt
      have h1 := hlt.1 rfl
      have h2 : timercmp_lt (s.task b).tv (s.task a).tv = false := by
        rw [timercmp_lt_false_iff]
        omega
      simp [h2]

/-- In `sched1` task 2 (target 3 s) compares below task 1 (target 5 s) and task
1 above task 2; in `sched2` task 5 and main both have target zero and each
compares above the other. -/
theorem rinoo_task_cmp_order_witness :
    rinoo_task_cmp sched1 (TaskPtr.heap 2) (TaskPtr.heap 1) = -1 ∧
    rinoo_task_cmp sched1 (TaskPtr.heap 1) (TaskPtr.heap 2) = 1 ∧
    rinoo_task_cmp sched2 (TaskPtr.heap 5) TaskPtr.main = 1 ∧
    rinoo_task_cmp sched2 TaskPtr.main (TaskPtr.heap 5) = 1 :=
  ⟨((rinoo_task_cmp_order sched1 (TaskPtr.heap 2) (TaskPtr.heap 1)).2.1 (by decide)).1.2
      (by decide),
    by decide,
    ((rinoo_task_cmp_order sched2 (TaskPtr.heap 5) TaskPtr.main).2.2.1 (by decide)
      (by decide)).1,
    ((rinoo_task_cmp_order sched2 (TaskPtr.heap 5) TaskPtr.main).2.2.1 (by decide)
      (by decide)).2⟩

/-! ## Claim C22: the timer tree and the scheduled flags agree -/

theorem t_rinoosched.consistent_congr {s s' : t_rinoosched} (hn : s'.nodes = s.nodes)
    (ht : s'.task = s.task) (hl : s'.live = s.live) (h : s.consistent) : s'.consistent := by
  unfold t_rinoosched.consistent at h ⊢
  rw [hn, ht, hl]
  exact h

theorem rinoo_task_driver_init_consistent (s : t_rinoosched)
    (hinit : ∀ t, s.live t = true → (s.task t).scheduled = false) :
    (rinoo_task_driver_init s).2.consistent := by
  refine ⟨List.nodup_nil, ?_, ?_⟩
  · intro t ht
    exact absurd ht (List.not_mem_nil t)
  · intro t hl hsch
    have h0 : (s.task t).scheduled = false := hinit t hl
    have h1 : (s.task t).scheduled = true := hsch
    rw [h0] at h1
    exact Bool.noConfusion h1

theorem rinoo_task_consistent (s : t_rinoosched) (malloc : Option Nat)
    (parent : Option TaskPtr) (function : Option Nat) (arg : Nat) (h : s.consistent)
    (hfresh : ∀ a, malloc = some a → s.live (TaskPtr.heap a) = false) :
    (rinoo_task s malloc parent function arg).2.consistent := by
  unfold rinoo_task
  cases function with
  | none => exact h
  | some f =>
    cases malloc with
    | none => exact h
    | some a =>
      obtain ⟨hnd, hnodes, hflag⟩ := h
      have hfree := hfresh a rfl
      have hne : ∀ u, s.live u = true → u ≠ TaskPtr.heap a := by
        intro u hu heq
        rw [heq, hfree] at hu
        exact Bool.noConfusion hu
      refine ⟨hnd, ?_, ?_⟩
      · intro u hu
        have hu' : u ∈ s.nodes := hu
        have hlive := (hnodes u hu').1
        simp only [Function.update_noteq (hne u hlive)]
        exact hnodes u hu'
      · intro u hl hsch
        by_cases hua : u = TaskPtr.heap a
        · subst hua
          simp at hsch
        · simp only [Function.update_noteq hua] at hl hsch
          exact hflag u hl hsch

theorem rinoo_task_unschedule_consistent (s : t_rinoosched) (task : Option TaskPtr)
    (h : s.consistent) : (rinoo_task_unschedule s task).2.consistent := by
  cases task with
  | none => exact h
  | some t =>
    cases hs : (s.task t).sched
    · rw [rinoo_task_unschedule_nosched s t hs]
      exact h
    · cases hsch : (s.task t).scheduled
      · rw [rinoo_task_unschedule_unscheduled s t hs hsch]
        exact h
      · rw [rinoo_task_unschedule_scheduled s t hs hsch]
        obtain ⟨hnd, hnodes, hflag⟩ := h
        have hne : ∀ u ∈ s.nodes.erase t, u ≠ t := fun u hu heq =>
          hnd.not_mem_erase (heq ▸ hu)
        refine ⟨?_, ?_, ?_⟩
        · simpa [rinoorbtree_remove, nodes_def] using hnd.erase t
        · intro u hu
          simp only [set_task_nodes, set_tree_nodes, rinoorbtree_remove, nodes_def] at hu
          simp only [set_task_task, set_tree_task, set_task_live, set_tree_live,
            Function.update_noteq (hne u hu)]
          exact hnodes u (List.mem_of_mem_erase hu)
        · intro u hl hu
          simp only [set_task_nodes, set_tree_nodes, rinoorbtree_remove, nodes_def]
          by_cases hut : u = t
          · subst hut
            simp at hu
          · simp only [set_task_task, set_tree_task, set_task_live, set_tree_live,
              Function.update_noteq hut] at hl hu
            exact (List.mem_erase_of_ne hut).2 (hflag u hl hu)

theorem rinoo_task_unschedule_not_mem (s : t_rinoosched) (t : TaskPtr) (h : s.consistent) :
    t ∉ (rinoo_task_unschedule s (some t)).2.nodes := by
  obtain ⟨hnd, hnodes, _⟩ := h
  cases hs : (s.task t).sched
  · rw [rinoo_task_unschedule_nosched s t hs]
    intro hm
    rw [(hnodes t hm).2.1] at hs
    exact Bool.noConfusion hs
  · cases hsch : (s.task t).scheduled
    · rw [rinoo_task_unschedule_unscheduled s t hs hsch]
      intro hm
      rw [(hnodes t hm).2.2] at hsch
      exact Bool.noConfusion hsch
    · rw [rinoo_task_unschedule_scheduled s t hs hsch]
      simpa [rinoorbtree_remove, nodes_def] using hnd.not_mem_erase

theorem rinoo_task_schedule_consistent (s : t_rinoosched) (task : Option TaskPtr)
    (tv : Option Timeval) (h : s.consistent)
    (hlive : ∀ t, task = some t → s.live t = true) :
    (rinoo_task_schedule s task tv).2.consistent := by
  cases task with
  | none => exact h
  | some t =>
    cases hs : (s.task t).sched
    · rw [rinoo_task_schedule_nosched s t tv hs]
      exact h
    · obtain ⟨hnd, hnodes, hflag⟩ := h
      rw [rinoo_task_schedule_eq s t tv hs hnd (fun hm => (hnodes t hm).2.2)]
      have hte : t ∉ s.nodes.erase t := hnd.not_mem_erase
      refine ⟨?_, ?_, ?_⟩
      · simp only [set_task_nodes, set_tree_nodes]
        exact (placed_perm s _ t _).nodup_iff.2 (List.nodup_cons.2 ⟨hte, hnd.erase t⟩)
      · intro u hu
        simp only [set_task_nodes, set_tree_nodes, mem_placed] at hu
        simp only [set_task_task, set_tree_task, set_task_live, set_tree_live]
        rcases hu with rfl | hu
        · simp [hlive u rfl, hs]
        · have hut : u ≠ t := fun heq => hte (heq ▸ hu)
          rw [Function.update_noteq hut]
          exact hnodes u (List.mem_of_mem_erase hu)
      · intro u hl hu
        simp only [set_task_nodes, set_tree_nodes, mem_placed]
        by_cases hut : u = t
        · exact Or.inl hut
        · simp only [set_task_task, set_tree_task, set_task_live, set_tree_live,
            Function.update_noteq hut] at hl hu
          exact Or.inr ((List.mem_erase_of_ne hut).2 (hflag u hl hu))

theorem rinoo_task_start_consistent (s : t_rinoosched) (malloc : Option Nat)
    (function : Option Nat) (arg : Nat) (h : s.consistent)
    (hfresh : ∀ a, malloc = some a → s.live (TaskPtr.heap a) = false) :
    (rinoo_task_start s malloc function arg).2.consistent := by
  have hc := rinoo_task_consistent s malloc (some TaskPtr.main) function arg h hfresh
  cases hr : (rinoo_task s malloc (some TaskPtr.main) function arg).1 with
  | none =>
    unfold rinoo_task_start
    simp only [hr]
    exact hc
  | some task =>
    unfold rinoo_task_start
    simp only [hr]
    refine rinoo_task_schedule_consistent _ (some task) none hc ?_
    intro t ht
    cases ht
    obtain ⟨hf, a, ha, rfl⟩ :=
      (rinoo_task_ok_iff s malloc (some TaskPtr.main) function arg _).1 hr
    obtain ⟨f, rfl⟩ := Option.isSome_iff_exists.1 hf
    subst ha
    simp [rinoo_task]

theorem rinoo_task_destroy_consistent (s : t_rinoosched) (t : TaskPtr) (h : s.consistent) :
    (rinoo_task_destroy s t).consistent := by
  have hnot := rinoo_task_unschedule_not_mem s t h
  obtain ⟨hnd, hnodes, hflag⟩ := rinoo_task_unschedule_consistent s (some t) h
  refine ⟨hnd, ?_, ?_⟩
  · intro u hu
    have hu' : u ∈ (rinoo_task_unschedule s (some t)).2.nodes := hu
    have hut : u ≠ t := fun heq => hnot (heq ▸ hu')
    have := hnodes u hu'
    simpa [rinoo_task_destroy, Function.update_noteq hut] using this
  · intro u hl hu
    by_cases hut : u = t
    · subst hut
      simp [rinoo_task_destroy] at hl
    · have hl' : (rinoo_task_unschedule s (some t)).2.live u = true := by
        simpa [rinoo_task_destroy, Function.update_noteq hut] using hl
      exact hflag u hl' hu

theorem rinoo_task_resume_consistent (swap : Swap) (hswap : swap.consistent)
    (s : t_rinoosched) (t : TaskPtr) (h : s.consistent) (hlive : s.live t = true) :
    (rinoo_task_resume swap s (some t)).2.consistent := by
  have h1 : ((swap (s.set_current t) s.driver.current t).2.set_current
      s.driver.current).consistent :=
    t_rinoosched.consistent_congr rfl rfl rfl
      (hswap (s.set_current t) s.driver.current t
        (t_rinoosched.consistent_congr rfl rfl rfl h) hlive rfl)
  unfold rinoo_task_resume
  simp only
  split_ifs
  · exact rinoo_task_destroy_consistent _ t h1
  · exact h1

theorem rinoo_task_unschedule_live (s : t_rinoosched) (task : Option TaskPtr) :
    (rinoo_task_unschedule s task).2.live = s.live := by
  unfold rinoo_task_unschedule
  cases task with
  | none => rfl
  | some t =>
    simp only
    split_ifs <;> rfl

theorem rinoo_task_driver_run_consistent (swap : Swap) (hswap : swap.consistent) :
    ∀ (fuel : Nat) (s : t_rinoosched), s.consistent →
      (rinoo_task_driver_run swap fuel s).sched.consistent
  | 0, s, h => by simpa [rinoo_task_driver_run_zero] using h
  | fuel + 1, s, h => by
    cases hn : s.nodes with
    | nil => simpa [rinoo_task_driver_run_nil swap fuel s hn] using h
    | cons t rest =>
      cases hdue : timercmp_le (s.task t).tv s.clock
      · simpa [rinoo_task_driver_run_later swap fuel s t rest hn hdue] using h
      · rw [rinoo_task_driver_run_due swap fuel s t rest hn hdue]
        have hlive : s.live t = true := (h.2.1 t (by rw [hn]; exact List.mem_cons_self _ _)).1
        exact rinoo_task_driver_run_consistent swap hswap fuel _
          (rinoo_task_resume_consistent swap hswap _ t
            (rinoo_task_unschedule_consistent s (some t) h)
            (by rw [rinoo_task_unschedule_live]; exact hlive))

theorem driver_call_consistent (s : t_rinoosched) (c : DriverCall) (h : s.consistent)
    (hc : DriverCall.allowed s c) : (DriverCall.result s c).consistent := by
  cases c with
  | task malloc parent function arg =>
    refine rinoo_task_consistent s malloc parent function arg h ?_
    intro a ha
    subst ha
    exact hc
  | schedule t tv =>
    refine rinoo_task_schedule_consistent s t tv h ?_
    intro p hp
    subst hp
    exact hc
  | unschedule t => exact rinoo_task_unschedule_consistent s t h
  | start malloc function arg =>
    refine rinoo_task_start_consistent s malloc function arg h ?_
    intro a ha
    subst ha
    exact hc
  | destroy t => exact rinoo_task_destroy_consistent s t h
  | driver_run swap fuel => exact rinoo_task_driver_run_consistent swap hc fuel s h

theorem run_calls_consistent :
    ∀ (calls : List DriverCall) (s : t_rinoosched), s.consistent → calls_allowed s calls →
      (run_calls s calls).consistent
  | [], _, h, _ => h
  | c :: calls, s, h, hc =>
    run_calls_consistent calls _ (driver_call_consistent s c h hc.1) hc.2

/-- Claim C22: in every scheduler reached from `rinoo_task_driver_init` (called
when no allocated task has its flag set) by calls of `rinoo_task`,
`rinoo_task_schedule` (successful or failing), `rinoo_task_unschedule`,
`rinoo_task_start`, `rinoo_task_destroy` and `rinoo_task_driver_run`, each call
allowed where it is made: an allocated task is a node of the timer tree iff its
`scheduled` flag is true, each node is in the tree exactly once, a task that is
not allocated (a destroyed one) is not in the tree, and
`rinoo_task_driver_nbpending` is the number of allocated tasks whose
`scheduled` flag is true. -/
theorem rinoo_task_driver_tree_agrees (s0 : t_rinoosched)
    (hinit : ∀ t, s0.live t = true → (s0.task t).scheduled = false)
    (calls : List DriverCall)
    (hcalls : calls_allowed (rinoo_task_driver_init s0).2 calls) :
    (∀ t, (run_calls (rinoo_task_driver_init s0).2 calls).live t = true →
      (t ∈ (run_calls (rinoo_task_driver_init s0).2 calls).nodes ↔
        ((run_calls (rinoo_task_driver_init s0).2 calls).task t).scheduled = true)) ∧
    (∀ t ∈ (run_calls (rinoo_task_driver_init s0).2 calls).nodes,
      (run_calls (rinoo_task_driver_init s0).2 calls).nodes.count t = 1) ∧
    (∀ t, (run_calls (rinoo_task_driver_init s0).2 calls).live t = false →
      t ∉ (run_calls (rinoo_task_driver_init s0).2 calls).nodes) ∧
    Set.ncard {t | (run_calls (rinoo_task_driver_init s0).2 calls).live t = true ∧
        ((run_calls (rinoo_task_driver_init s0).2 calls).task t).scheduled = true}
      = rinoo_task_driver_nbpending (run_calls (rinoo_task_driver_init s0).2 calls) := by
  obtain ⟨hnd, hnodes, hflag⟩ := run_calls_consistent calls _
    (rinoo_task_driver_init_consistent s0 hinit) hcalls
  refine ⟨?_, ?_, ?_, ?_⟩
  · intro t hl
    exact ⟨fun hm => (hnodes t hm).2.2, fun hs => hflag t hl hs⟩
  · intro t ht
    exact List.count_eq_one_of_mem hnd ht
  · intro t hl hm
    rw [(hnodes t hm).1] at hl
    exact Bool.noConfusion hl
  · have hset : {t | (run_calls (rinoo_task_driver_init s0).2 calls).live t = true ∧
          ((run_calls (rinoo_task_driver_init s0).2 calls).task t).scheduled = true}
        = ((run_calls (rinoo_task_driver_init s0).2 calls).nodes.toFinset : Set TaskPtr) := by
      ext t
      simp only [Set.mem_setOf_eq, Finset.mem_coe, List.mem_toFinset]
      exact ⟨fun h => hflag t h.1 h.2, fun hm => ⟨(hnodes t hm).1, (hnodes t hm).2.2⟩⟩
    rw [hset, Set.ncard_coe_Finset, List.toFinset_card_of_nodup hnd]
    rfl

/-- The calls of `calls0` from the scheduler `sched_boot`: at the end task 2 is
the one node of the tree and the one allocated task with its flag set; the
tasks 1 and 3, destroyed, are not in the tree. -/
theorem rinoo_task_driver_tree_agrees_witness :
    (run_calls (rinoo_task_driver_init sched_boot).2 calls0).nodes = [TaskPtr.heap 2] ∧
    (∀ t, (run_calls (rinoo_task_driver_init sched_boot).2 calls0).live t = true →
      (t ∈ (run_calls (rinoo_task_driver_init sched_boot).2 calls0).nodes ↔
        ((run_calls (rinoo_task_driver_init sched_boot).2 calls0).task t).scheduled = true)) ∧
    Set.ncard {t | (run_calls (rinoo_task_driver_init sched_boot).2 calls0).live t = true ∧
        ((run_calls (rinoo_task_driver_init sched_boot).2 calls0).task t).scheduled = true}
      = 1 :=
  have h := rinoo_task_driver_tree_agrees sched_boot
    (by intro t _; rfl) calls0
    ⟨rfl, rfl, rfl, fun _ _ _ h _ _ => h, rfl, rfl, rfl, rfl, rfl, trivial⟩
  ⟨by decide, h.1, h.2.2.2⟩

/-! ## Claim C23: list_add keeps the list in order -/

theorem sseg_start (nx : Nat → Option Nat) (p : Option Nat) (l : List Nat)
    (h : sseg nx p l none) : p = l.head? := by
  cases l with
  | nil => exact h
  | cons a l => exact h.1

theorem list_addnode_head_spec (cmp : Option Nat → Option Nat → Int) (new : Nat)
    (x : Option Nat) (el : Nat → Option Nat) :
    ∀ (B A : List Nat) (fuel : Nat) (mem : Nat → t_listnode),
      new ∉ B → (mem new).node = x → (∀ b ∈ B, (mem b).node = el b) →
      sseg (fun a => (mem a).next) (mem new).next B none →
      (mem new).prev = A.getLast? → B.length < fuel →
      ∃ mem', list_addnode_head cmp new fuel mem = some mem' ∧
        (∀ a, a ≠ new → mem' a = mem a) ∧ (mem' new).node = x ∧
        (mem' new).free_func = (mem new).free_func ∧
        (mem' new).next = (B.dropWhile (fun b => decide (cmp x (el b) > 0))).head? ∧
        (mem' new).prev = (A ++ B.takeWhile (fun b => decide (cmp x (el b) > 0))).getLast?
  | _, _, 0, _, _, _, _, _, _, hfuel => absurd hfuel (Nat.not_lt_zero _)
  | [], A, fuel + 1, mem, _, hx, _, hseg, hprev, _ => by
    have hnext : (mem new).next = none := hseg
    refine ⟨mem, ?_, fun _ _ => rfl, hx, rfl, ?_, ?_⟩
    · simp [list_addnode_head, hnext]
    · simpa using hnext
    · simpa using hprev
  | b :: B, A, fuel + 1, mem, hnew, hx, hel, hseg, hprev, hfuel => by
    have hnext : (mem new).next = some b := hseg.1
    have hbn : b ≠ new := fun e => hnew (by simp [e])
    have hnB : new ∉ B := fun hm => hnew (List.mem_cons_of_mem _ hm)
    have hb : (mem b).node = el b := hel b (List.mem_cons_self _ _)
    by_cases hc : cmp x (el b) > 0
    · have hstep : list_addnode_head cmp new (fuel + 1) mem
          = list_addnode_head cmp new fuel
              (Function.update (Function.update mem new { mem new with prev := some b }) new
                { mem new with prev := some b, next := (mem b).next }) := by
        conv_lhs => unfold list_addnode_head
        simp [hnext, hx, hb, hc, Function.update_noteq hbn]
      obtain ⟨mem', h1, h2, h3, h4, h5, h6⟩ := list_addnode_head_spec cmp new x el B (A ++ [b])
        fuel (Function.update (Function.update mem new { mem new with prev := some b }) new
          { mem new with prev := some b, next := (mem b).next })
        hnB (by simp [hx])
        (fun c hcm => by
          have hcn : c ≠ new := fun e => hnB (e ▸ hcm)
          simp only [Function.update_noteq hcn]
          exact hel c (List.mem_cons_of_mem _ hcm))
        (by
          simp only [Function.update_same]
          refine (sseg_congr _ _ B _ _ ?_).1 hseg.2
          intro c hcm
          have hcn : c ≠ new := fun e => hnB (e ▸ hcm)
          simp only [Function.update_noteq hcn])
        (by simp) (by simpa using hfuel)
      refine ⟨mem', hstep.trans h1, ?_, h3, ?_, ?_, ?_⟩
      · intro a ha
        rw [h2 a ha]
        simp only [Function.update_noteq ha]
      · simpa using h4
      · simpa [List.dropWhile_cons, hc] using h5
      · simpa [List.takeWhile_cons, hc] using h6
    · refine ⟨mem, ?_, fun _ _ => rfl, hx, rfl, ?_, ?_⟩
      · conv_lhs => unfold list_addnode_head
        simp [hnext, hx, hb, hc]
      · simpa [List.dropWhile_cons, hc] using hnext
      · simpa [List.takeWhile_cons, hc] using hprev

theorem list_addnode_tail_spec (cmp : Option Nat → Option Nat → Int) (new : Nat)
    (x : Option Nat) (el : Nat → Option Nat) :
    ∀ (B A : List Nat) (fuel : Nat) (mem : Nat → t_listnode),
      new ∉ B → (mem new).node = x → (∀ b ∈ B, (mem b).node = el b) →
      sseg (fun a => (mem a).prev) (mem new).prev B none →
      (mem new).next = A.getLast? → B.length < fuel →
      ∃ mem', list_addnode_tail cmp new fuel mem = some mem' ∧
        (∀ a, a ≠ new → mem' a = mem a) ∧ (mem' new).node = x ∧
        (mem' new).free_func = (mem new).free_func ∧
        (mem' new).prev = (B.dropWhile (fun b => decide (cmp x (el b) < 0))).head? ∧
        (mem' new).next = (A ++ B.takeWhile (fun b => decide (cmp x (el b) < 0))).getLast?
  | _, _, 0, _, _, _, _, _, _, hfuel => absurd hfuel (Nat.not_lt_zero _)
  | [], A, fuel + 1, mem, _, hx, _, hseg, hnext, _ => by
    have hprev : (mem new).prev = none := hseg
    refine ⟨mem, ?_, fun _ _ => rfl, hx, rfl, ?_, ?_⟩
    · simp [list_addnode_tail, hprev]
    · simpa using hprev
    · simpa using hnext
  | b :: B, A, fuel + 1, mem, hnew, hx, hel, hseg, hnext, hfuel => by
    have hprev : (mem new).prev = some b := hseg.1
    have hbn : b ≠ new := fun e => hnew (by simp [e])
    have hnB : new ∉ B := fun hm => hnew (List.mem_cons_of_mem _ hm)
    have hb : (mem b).node = el b := hel b (List.mem_cons_self _ _)
    by_cases hc : cmp x (el b) < 0
    · have hstep : list_addnode_tail cmp new (fuel + 1) mem
          = list_addnode_tail cmp new fuel
              (Function.update (Function.update mem new { mem new with next := some b }) new
                { mem new with next := some b, prev := (mem b).prev }) := by
        conv_lhs => unfold list_addnode_tail
        simp [hprev, hx, hb, hc, Function.update_noteq hbn]
      obtain ⟨mem', h1, h2, h3, h4, h5, h6⟩ := list_addnode_tail_spec cmp new x el B (A ++ [b])
        fuel (Function.update (Function.update mem new { mem new with next := some b }) new
          { mem new with next := some b, prev := (mem b).prev })
        hnB (by simp [hx])
        (fun c hcm => by
          have hcn : c ≠ new := fun e => hnB (e ▸ hcm)
          simp only [Function.update_noteq hcn]
          exact hel c (List.mem_cons_of_mem _ hcm))
        (by
          simp only [Function.update_same]
          refine (sseg_congr _ _ B _ _ ?_).1 hseg.2
          intro c hcm
          have hcn : c ≠ new := fun e => hnB (e ▸ hcm)
          simp only [Function.update_noteq hcn])
        (by simp) (by simpa using hfuel)
      refine ⟨mem', hstep.trans h1, ?_, h3, ?_, ?_, ?_⟩
      · intro a ha
        rw [h2 a ha]
        simp only [Function.update_noteq ha]
      · simpa using h4
      · simpa [List.dropWhile_cons, hc] using h5
      · simpa [List.takeWhile_cons, hc] using h6
    · refine ⟨mem, ?_, fun _ _ => rfl, hx, rfl, ?_, ?_⟩
      · conv_lhs => unfold list_addnode_tail
        simp [hprev, hx, hb, hc]
      · simpa [List.dropWhile_cons, hc] using hprev
      · simpa [List.takeWhile_cons, hc] using hnext
theorem list_insertnode_fields (bits : Nat) (s : ListState) (n : Nat) (P X : Option Nat)
    (hpn : P ≠ some n) (hxn : X ≠ some n) (hpx : ∀ a, P = some a → X ≠ some a) :
    (∀ a, ((list_insertnode bits s (some n) P X).mem a).next
      = if a = n then X else if P = some a then some n else (s.mem a).next) ∧
    (∀ a, ((list_insertnode bits s (some n) P X).mem a).prev
      = if a = n then P else if X = some a then some n else (s.mem a).prev) ∧
    (∀ a, ((list_insertnode bits s (some n) P X).mem a).node = (s.mem a).node) ∧
    (list_insertnode bits s (some n) P X).list.head
      = (if P = none then some n else s.list.head) ∧
    (list_insertnode bits s (some n) P X).list.tail
      = (if X = none then some n else s.list.tail) ∧
    (list_insertnode bits s (some n) P X).list.size = (s.list.size + 1) % 2 ^ bits ∧
    (list_insertnode bits s (some n) P X).list.type = s.list.type ∧
    (list_insertnode bits s (some n) P X).list.cmp_func = s.list.cmp_func ∧
    (list_insertnode bits s (some n) P X).live = s.live := by
  cases P with
  | none =>
    cases X with
    | none =>
      simp only [list_insertnode]
      refine ⟨?_, ?_, ?_, by simp, by simp, trivial, trivial, trivial, trivial⟩
      · intro a
        by_cases han : a = n
        · subst han
          simp [Function.update_same]
        · simp [Function.update_noteq han, han]
      · intro a
        by_cases han : a = n
        · subst han
          simp [Function.update_same]
        · simp [Function.update_noteq han, han]
      · intro a
        by_cases han : a = n
        · subst han
          simp [Function.update_same]
        · simp [Function.update_noteq han]
    | some x =>
      have hx : x ≠ n := fun e => hxn (by rw [e])
      simp only [list_insertnode]
      refine ⟨?_, ?_, ?_, by simp, by simp, trivial, trivial, trivial, trivial⟩
      · intro a
        by_cases hax : a = x
        · subst hax
          simp [Function.update_same, hx]
        · by_cases han : a = n
          · subst han
            simp [Function.update_noteq hax, Function.update_same]
          · simp [Function.update_noteq hax, Function.update_noteq han, han]
      · intro a
        by_cases hax : a = x
        · subst hax
          simp [Function.update_same, hx]
        · by_cases han : a = n
          · subst han
            simp [Function.update_noteq hax, Function.update_same]
          · simp [Function.update_noteq hax, Function.update_noteq han, han, Ne.symm hax]
      · intro a
        by_cases hax : a = x
        · subst hax
          simp [Function.update_same, Function.update_noteq hx]
        · by_cases han : a = n
          · subst han
            simp [Function.update_noteq hax, Function.update_same]
          · simp [Function.update_noteq hax, Function.update_noteq han]
  | some p =>
    have hp : p ≠ n := fun e => hpn (by rw [e])
    cases X with
    | none =>
      simp only [list_insertnode]
      refine ⟨?_, ?_, ?_, by simp, by simp, trivial, trivial, trivial, trivial⟩
      · intro a
        by_cases hap : a = p
        · subst hap
          simp [Function.update_same, hp]
        · by_cases han : a = n
          · subst han
            simp [Function.update_noteq hap, Function.update_same]
          · simp [Function.update_noteq hap, Function.update_noteq han, han, Ne.symm hap]
      · intro a
        by_cases hap : a = p
        · subst hap
          simp [Function.update_same, hp, Function.update_noteq hp]
        · by_cases han : a = n
          · subst han
            simp [Function.update_noteq hap, Function.update_same]
          · simp [Function.update_noteq hap, Function.update_noteq han, han]
      · intro a
        by_cases hap : a = p
        · subst hap
          simp [Function.update_same, Function.update_noteq hp]
        · by_cases han : a = n
          · subst han
            simp [Function.update_noteq hap, Function.update_same]
          · simp [Function.update_noteq hap, Function.update_noteq han]
    | some x =>
      have hx : x ≠ n := fun e => hxn (by rw [e])
      have hpx' : p ≠ x := fun e => hpx p rfl (by rw [e])
      simp only [list_insertnode]
      refine ⟨?_, ?_, ?_, by simp, by simp, trivial, trivial, trivial, trivial⟩
      · intro a
        by_cases hax : a = x
        · subst hax
          simp [Function.update_same, hx, Function.update_noteq (Ne.symm hpx'),
            Function.update_noteq hx, hpx']
        · by_cases hap : a = p
          · subst hap
            simp [Function.update_noteq hax, Function.update_same, hp]
          · by_cases han : a = n
            · subst han
              simp [Function.update_noteq hax, Function.update_noteq hap, Function.update_same]
            · simp [Function.update_noteq hax, Function.update_noteq hap,
                Function.update_noteq han, han, Ne.symm hap]
      · intro a
        by_cases hax : a = x
        · subst hax
          simp [Function.update_same, hx]
        · by_cases hap : a = p
          · subst hap
            simp [Function.update_noteq hax, Function.update_same, hp,
              Function.update_noteq hp, Ne.symm hax]
          · by_cases han : a = n
            · subst han
              simp [Function.update_noteq hax, Function.update_noteq hap, Function.update_same]
            · simp [Function.update_noteq hax, Function.update_noteq hap,
                Function.update_noteq han, han, Ne.symm hax]
      · intro a
        by_cases hax : a = x
        · subst hax
          simp [Function.update_same, Function.update_noteq (Ne.symm hpx'),
            Function.update_noteq hx]
        · by_cases hap : a = p
          · subst hap
            simp [Function.update_noteq hax, Function.update_same, Function.update_noteq hp]
          · by_cases han : a = n
            · subst han
              simp [Function.update_noteq hax, Function.update_noteq hap, Function.update_same]
            · simp [Function.update_noteq hax, Function.update_noteq hap,
                Function.update_noteq han]
theorem sseg_insert (nx nx' : Nat → Option Nat) (A B : List Nat) (n : Nat) (p : Option Nat)
    (h : sseg nx p (A ++ B) none) (hnd : A.Nodup)
    (hA : ∀ a ∈ A, A.getLast? ≠ some a → nx' a = nx a)
    (hB : ∀ a ∈ B, nx' a = nx a)
    (hn : nx' n = B.head?)
    (hlast : ∀ pr, A.getLast? = some pr → nx' pr = some n) :
    sseg nx' (if A = [] then some n else p) (A ++ n :: B) none := by
  rw [sseg_append] at h
  obtain ⟨m, h1, h2⟩ := h
  have hm : m = B.head? := sseg_start nx m B h2
  have hB' : sseg nx' (nx' n) B none := by
    rw [hn, ← hm]
    exact (sseg_congr nx nx' B _ _ (fun a ha => (hB a ha).symm)).1 h2
  rcases List.eq_nil_or_concat A with rfl | ⟨A', pr, hA'⟩
  · simp only [if_true, List.nil_append]
    exact ⟨rfl, hB'⟩
  · rw [List.concat_eq_append] at hA'
    subst hA'
    have hne : A' ++ [pr] ≠ [] := by simp
    simp only [hne, if_false]
    rw [sseg_concat] at h1
    rw [sseg_append]
    refine ⟨some n, (sseg_concat _ _ _ _ _).2 ⟨?_, hlast pr (by simp)⟩, rfl, hB'⟩
    refine (sseg_congr nx nx' A' _ _ ?_).1 h1.1
    intro a ha
    refine (hA a (by simp [ha]) ?_).symm
    intro hl
    rw [List.nodup_append] at hnd
    have hpa : pr = a := by simpa using hl
    exact hnd.2.2 ha (by simp [hpa])

theorem list_insertnode_holds (bits : Nat) (s : ListState) (A B : List Nat) (n : Nat)
    (h : s.holds (A ++ B)) (hn : n ∉ A ++ B) (hfit : (A ++ B).length + 1 < 2 ^ bits) :
    (list_insertnode bits s (some n) A.getLast? B.head?).holds (A ++ n :: B) ∧
    (∀ a, ((list_insertnode bits s (some n) A.getLast? B.head?).mem a).node
      = (s.mem a).node) ∧
    (list_insertnode bits s (some n) A.getLast? B.head?).list.size = s.list.size + 1 ∧
    (list_insertnode bits s (some n) A.getLast? B.head?).list.type = s.list.type ∧
    (list_insertnode bits s (some n) A.getLast? B.head?).list.cmp_func = s.list.cmp_func ∧
    (list_insertnode bits s (some n) A.getLast? B.head?).live = s.live := by
  obtain ⟨hf, hb, hsize, hnd⟩ := h
  have hrev : (A ++ B).reverse = B.reverse ++ A.reverse := by simp
  rw [hrev] at hb
  have hnA : n ∉ A := fun hm => hn (List.mem_append_left _ hm)
  have hnB : n ∉ B := fun hm => hn (List.mem_append_right _ hm)
  have hAB : ∀ a, a ∈ A → a ∉ B := fun a ha hb' => (List.nodup_append.1 hnd).2.2 ha hb'
  have hAnd : A.Nodup := (List.nodup_append.1 hnd).1
  have hBnd : B.Nodup := (List.nodup_append.1 hnd).2.1
  obtain ⟨hnx, hpv, hnode, hhead, htail, hsz, hty, hcmp, hlive⟩ :=
    list_insertnode_fields bits s n A.getLast? B.head?
      (fun e => hnA (List.mem_of_mem_getLast? e)) (fun e => hnB (List.mem_of_mem_head? e))
      (fun a e1 e2 => hAB a (List.mem_of_mem_getLast? e1) (List.mem_of_mem_head? e2))
  have hsize' : (list_insertnode bits s (some n) A.getLast? B.head?).list.size
      = s.list.size + 1 := by
    rw [hsz]
    exact Nat.mod_eq_of_lt (by rw [hsize]; exact hfit)
  refine ⟨⟨?_, ?_, ?_, ?_⟩, hnode, hsize', hty, hcmp, hlive⟩
  · have := sseg_insert (fun a => (s.mem a).next)
      (fun a => ((list_insertnode bits s (some n) A.getLast? B.head?).mem a).next) A B n _
      hf hAnd
      (fun a ha hl => by
        have han : a ≠ n := fun e => hnA (e ▸ ha)
        simp only [hnx, if_neg han, if_neg hl])
      (fun a ha => by
        have han : a ≠ n := fun e => hnB (e ▸ ha)
        have hl : A.getLast? ≠ some a := fun e => hAB a (List.mem_of_mem_getLast? e) ha
        simp only [hnx, if_neg han, if_neg hl])
      (by simp only [hnx, if_true])
      (fun pr hl => by
        have hpn : pr ≠ n := fun e => hnA (e ▸ List.mem_of_mem_getLast? hl)
        simp only [hnx, if_neg hpn, if_pos hl])
    rw [hhead]
    by_cases hA : A = []
    · simpa [hA] using this
    · have hg : A.getLast? ≠ none := by simpa using hA
      simpa [hA, hg] using this
  · have := sseg_insert (fun a => (s.mem a).prev)
      (fun a => ((list_insertnode bits s (some n) A.getLast? B.head?).mem a).prev)
      B.reverse A.reverse n _ hb (List.nodup_reverse.2 hBnd)
      (fun a ha hl => by
        have han : a ≠ n := fun e => hnB (e ▸ List.mem_reverse.1 ha)
        rw [List.getLast?_reverse] at hl
        simp only [hpv, if_neg han, if_neg hl])
      (fun a ha => by
        have han : a ≠ n := fun e => hnA (e ▸ List.mem_reverse.1 ha)
        have hl : B.head? ≠ some a := fun e =>
          hAB a (List.mem_reverse.1 ha) (List.mem_of_mem_head? e)
        simp only [hpv, if_neg han, if_neg hl])
      (by simp only [hpv, if_true, List.head?_reverse])
      (fun pr hl => by
        rw [List.getLast?_reverse] at hl
        have hpn : pr ≠ n := fun e => hnB (e ▸ List.mem_of_mem_head? hl)
        simp only [hpv, if_neg hpn, if_pos hl])
    have hrev' : (A ++ n :: B).reverse = B.reverse ++ n :: A.reverse := by simp
    rw [htail, hrev']
    by_cases hB : B = []
    · simpa [hB] using this
    · have hg : B.head? ≠ none := by simpa using hB
      simpa [hB, hg] using this
  · rw [hsize', hsize]
    simp only [List.length_append, List.length_cons]
    omega
  · rw [List.nodup_append]
    refine ⟨hAnd, List.nodup_cons.2 ⟨hnB, hBnd⟩, ?_⟩
    intro a ha hb'
    rcases List.mem_cons.1 hb' with rfl | hb'
    · exact hnA ha
    · exact hAB a ha hb'

theorem dropWhile_head_false {α : Type} (p : α → Bool) :
    ∀ (l : List α) (b : α), (l.dropWhile p).head? = some b → p b = false
  | [], b, h => by simp at h
  | a :: l, b, h => by
    cases hp : p a
    · simp only [List.dropWhile_cons, hp] at h
      simp only [Bool.false_eq_true, if_false, List.head?_cons, Option.some.injEq] at h
      rw [← h, hp]
    · simp only [List.dropWhile_cons, hp, if_true] at h
      exact dropWhile_head_false p l b h

theorem ListState.holds_congr (s : ListState) (mem : Nat → t_listnode) (l : List Nat)
    (hm : ∀ a ∈ l, mem a = s.mem a) (h : s.holds l) :
    ({ s with mem := mem } : ListState).holds l := by
  obtain ⟨h1, h2, h3, h4⟩ := h
  refine ⟨?_, ?_, h3, h4⟩
  · exact (sseg_congr _ _ l _ _ (fun a ha => by simp only [hm a ha])).2 h1
  · exact (sseg_congr _ _ l.reverse _ _
      (fun a ha => by simp only [hm a (List.mem_reverse.1 ha)])).2 h2

/-- Where `list_addnode` puts the node. -/
theorem list_addnode_places (bits fuel : Nat) (s : ListState) (L : List Nat) (new : Nat)
    (h : s.holds L) (hnew : new ∉ L) (hfit : L.length + 1 < 2 ^ bits)
    (hfuel : L.length < fuel) :
    ∃ A B s', L = A ++ B ∧ list_addnode bits fuel s (some new) = some (0, s') ∧
      s'.holds (A ++ new :: B) ∧ (∀ a, (s'.mem a).node = (s.mem a).node) ∧
      s'.list.size = s.list.size + 1 ∧
      (s.list.type = t_listtype.LIST_SORTED_HEAD →
        (∀ a ∈ A, s.list.cmp_func (s.mem new).node (s.mem a).node > 0) ∧
        ∀ b, B.head? = some b → ¬ s.list.cmp_func (s.mem new).node (s.mem b).node > 0) ∧
      (s.list.type = t_listtype.LIST_SORTED_TAIL →
        (∀ b ∈ B, s.list.cmp_func (s.mem new).node (s.mem b).node < 0) ∧
        ∀ a, A.getLast? = some a → ¬ s.list.cmp_func (s.mem new).node (s.mem a).node < 0) := by
  have hne : ∀ a ∈ L, a ≠ new := fun a ha e => hnew (e ▸ ha)
  cases hty : s.list.type with
  | LIST_SORTED_HEAD =>
    obtain ⟨mem', h1, h2, h3, _, h5, h6⟩ := list_addnode_head_spec s.list.cmp_func new
      (s.mem new).node (fun a => (s.mem a).node) L [] fuel
      (Function.update (Function.update s.mem new { s.mem new with next := s.list.head }) new
        { Function.update s.mem new { s.mem new with next := s.list.head } new with
          prev := none })
      hnew (by simp)
      (fun b hb => by simp only [Function.update_noteq (hne b hb)])
      (by
        simp only [Function.update_same]
        refine (sseg_congr _ _ L _ _ ?_).1 h.1
        intro a ha
        simp only [Function.update_noteq (hne a ha)])
      (by simp) hfuel
    simp only [List.nil_append] at h6
    have hsplit := (List.takeWhile_append_dropWhile
      (fun b => decide (s.list.cmp_func (s.mem new).node (s.mem b).node > 0)) L).symm
    have hmem : ∀ a ∈ L, mem' a = s.mem a := by
      intro a ha
      rw [h2 a (hne a ha)]
      simp only [Function.update_noteq (hne a ha)]
    have hholds := ListState.holds_congr s mem' L hmem h
    rw [hsplit] at hholds hnew hfit
    obtain ⟨i1, i2, i3, _, _, _⟩ := list_insertnode_holds bits { s with mem := mem' } _ _ new
      hholds hnew hfit
    refine ⟨_, _, _, hsplit, ?_, i1, ?_, i3, ?_, ?_⟩
    · unfold list_addnode
      simp only [hty, h1, h5, h6]
    · intro a
      rw [i2 a]
      by_cases han : a = new
      · rw [han]
        exact h3
      · simp only [h2 a han, Function.update_noteq han]
    · intro _
      refine ⟨?_, ?_⟩
      · intro a ha
        simpa using List.mem_takeWhile_imp ha
      · intro b hb
        simpa using dropWhile_head_false _ L b hb
    · intro hcon
      cases hcon
  | LIST_SORTED_TAIL =>
    obtain ⟨mem', h1, h2, h3, _, h5, h6⟩ := list_addnode_tail_spec s.list.cmp_func new
      (s.mem new).node (fun a => (s.mem a).node) L.reverse [] fuel
      (Function.update (Function.update s.mem new { s.mem new with next := none }) new
        { Function.update s.mem new { s.mem new with next := none } new with
          prev := s.list.tail })
      (fun hm => hnew (List.mem_reverse.1 hm)) (by simp)
      (fun b hb => by simp only [Function.update_noteq (hne b (List.mem_reverse.1 hb))])
      (by
        simp only [Function.update_same]
        refine (sseg_congr _ _ L.reverse _ _ ?_).1 h.2.1
        intro a ha
        simp only [Function.update_noteq (hne a (List.mem_reverse.1 ha))])
      (by simp) (by simpa using hfuel)
    simp only [List.nil_append] at h6
    have hsplit : L = (L.reverse.dropWhile
          (fun b => decide (s.list.cmp_func (s.mem new).node (s.mem b).node < 0))).reverse
        ++ (L.reverse.takeWhile
          (fun b => decide (s.list.cmp_func (s.mem new).node (s.mem b).node < 0))).reverse := by
      rw [← List.reverse_append, List.takeWhile_append_dropWhile, List.reverse_reverse]
    have hmem : ∀ a ∈ L, mem' a = s.mem a := by
      intro a ha
      rw [h2 a (hne a ha)]
      simp only [Function.update_noteq (hne a ha)]
    have hholds := ListState.holds_congr s mem' L hmem h
    rw [hsplit] at hholds hnew hfit
    obtain ⟨i1, i2, i3, _, _, _⟩ := list_insertnode_holds bits { s with mem := mem' } _ _ new
      hholds hnew hfit
    rw [List.getLast?_reverse, List.head?_reverse] at i1 i2 i3
    refine ⟨_, _, _, hsplit, ?_, i1, ?_, i3, ?_, ?_⟩
    · unfold list_addnode
      simp only [hty, h1, h5, h6]
    · intro a
      rw [i2 a]
      by_cases han : a = new
      · rw [han]
        exact h3
      · simp only [h2 a han, Function.update_noteq han]
    · intro hcon
      cases hcon
    · intro _
      refine ⟨?_, ?_⟩
      · intro b hb
        simpa using List.mem_takeWhile_imp (List.mem_reverse.1 hb)
      · intro a ha
        rw [List.getLast?_reverse] at ha
        simpa using dropWhile_head_false _ L.reverse a ha

/-- The function `list_addnode` adds the node in order. -/
theorem list_addnode_added (bits fuel : Nat) (s : ListState) (L : List Nat) (new : Nat)
    (h : s.holds L) (hnew : new ∉ L) (hfit : L.length + 1 < 2 ^ bits)
    (hfuel : L.length < fuel) (hcmp : cmp_total_preorder s.list.cmp_func)
    (hsorted : non_decreasing s.list.cmp_func (s.elems L)) :
    ∃ s', list_addnode bits fuel s (some new) = some (0, s') ∧
      s.added L new (s.mem new).node s' := by
  obtain ⟨A, B, s', hL, hadd, hholds, hnode, hsize, hhead, htail⟩ :=
    list_addnode_places bits fuel s L new h hnew hfit hfuel
  subst hL
  obtain ⟨hanti, htrans⟩ := hcmp
  have hs : (A ++ B).Pairwise
      (fun a b => s.list.cmp_func (s.mem a).node (s.mem b).node ≤ 0) := by
    have := hsorted
    unfold non_decreasing ListState.elems at this
    rwa [List.pairwise_map] at this
  obtain ⟨hsA, hsB, hsAB⟩ := List.pairwise_append.1 hs
  have hF : (∀ a ∈ A, s.list.cmp_func (s.mem a).node (s.mem new).node ≤ 0) ∧
      (∀ b ∈ B, s.list.cmp_func (s.mem new).node (s.mem b).node ≤ 0) ∧
      (s.list.type = t_listtype.LIST_SORTED_HEAD →
        ∀ a ∈ A, s.list.cmp_func (s.mem new).node (s.mem a).node ≠ 0 ∧
          s.list.cmp_func (s.mem a).node (s.mem new).node ≠ 0) ∧
      (s.list.type = t_listtype.LIST_SORTED_TAIL →
        ∀ b ∈ B, s.list.cmp_func (s.mem new).node (s.mem b).node ≠ 0 ∧
          s.list.cmp_func (s.mem b).node (s.mem new).node ≠ 0) := by
    cases hty : s.list.type with
    | LIST_SORTED_HEAD =>
      obtain ⟨hA, hB⟩ := hhead hty
      have hA' : ∀ a ∈ A, s.list.cmp_func (s.mem a).node (s.mem new).node < 0 :=
        fun a ha => (hanti _ _).2 (hA a ha)
      refine ⟨fun a ha => le_of_lt (hA' a ha), ?_,
        fun _ a ha => ⟨ne_of_gt (hA a ha), ne_of_lt (hA' a ha)⟩, fun hcon => by cases hcon⟩
      intro b hb
      cases B with
      | nil => exact absurd hb (List.not_mem_nil b)
      | cons b0 B' =>
        have h0 : s.list.cmp_func (s.mem new).node (s.mem b0).node ≤ 0 :=
          not_lt.1 (hB b0 rfl)
        rcases List.mem_cons.1 hb with rfl | hb'
        · exact h0
        · exact htrans _ _ _ h0 ((List.pairwise_cons.1 hsB).1 b hb')
    | LIST_SORTED_TAIL =>
      obtain ⟨hB, hA⟩ := htail hty
      have hB' : ∀ b ∈ B, 0 < s.list.cmp_func (s.mem b).node (s.mem new).node :=
        fun b hb => (hanti _ _).1 (hB b hb)
      refine ⟨?_, fun b hb => le_of_lt (hB b hb), fun hcon => (by cases hcon),
        fun _ b hb => ⟨ne_of_lt (hB b hb), ne_of_gt (hB' b hb)⟩⟩
      intro a ha
      rcases List.eq_nil_or_concat A with rfl | ⟨A', a0, hA'⟩
      · exact absurd ha (List.not_mem_nil a)
      · rw [List.concat_eq_append] at hA'
        subst hA'
        have h0 : s.list.cmp_func (s.mem a0).node (s.mem new).node ≤ 0 := by
          have hn := hA a0 (by simp)
          exact not_lt.1 (fun hpos => hn ((hanti _ _).2 hpos))
        rcases List.mem_append.1 ha with ha' | ha'
        · have hp := (List.pairwise_append.1 hsA).2.2 a ha' a0 (by simp)
          exact htrans _ _ _ hp h0
        · have : a = a0 := by simpa using ha'
          rw [this]
          exact h0
  obtain ⟨hF1, hF2, hF3, hF4⟩ := hF
  refine ⟨s', hadd, A, B, rfl, hholds, ?_, ?_, hsize, ?_, ?_⟩
  · simp only [ListState.elems, List.map_append, List.map_cons, hnode]
  · unfold non_decreasing ListState.elems
    rw [List.pairwise_map]
    simp only [hnode]
    rw [List.pairwise_append]
    refine ⟨hsA, List.pairwise_cons.2 ⟨hF2, hsB⟩, ?_⟩
    intro a ha b hb
    rcases List.mem_cons.1 hb with rfl | hb'
    · exact hF1 a ha
    · exact hsAB a ha b hb'
  · intro hty e he
    simp only [ListState.elems, List.mem_map] at he
    obtain ⟨a, ha, rfl⟩ := he
    exact hF3 hty a ha
  · intro hty e he
    simp only [ListState.elems, List.mem_map] at he
    obtain ⟨b, hb, rfl⟩ := he
    exact hF4 hty b hb

/-- Claim C23: `list_add` and `list_addnode` keep a list in order.  Let the list
hold the nodes `L`, their elements in non-decreasing order under its
`cmp_func`, which stands for a total preorder; let the new node be none of `L`,
the size one more than `L.length` within the range of the size counter, and
the search have fuel for more than `L.length` tests.  Then `list_add` of the
element `x` returns the new node, and `list_addnode` of a node whose element is
`x` returns 0, each leaving a list that holds the old nodes in their old order
with the new one among them, the elements in non-decreasing order, the size
one larger; in a `LIST_SORTED_HEAD` list no element before the new one
compares equal to it, in a `LIST_SORTED_TAIL` list none after it. -/
theorem list_add_keeps_order (bits fuel : Nat) (s : ListState) (L : List Nat) (new : Nat)
    (x free_func : Option Nat)
    (h : s.holds L) (hnew : new ∉ L) (hfit : L.length + 1 < 2 ^ bits)
    (hfuel : L.length < fuel) (hcmp : cmp_total_preorder s.list.cmp_func)
    (hsorted : non_decreasing s.list.cmp_func (s.elems L)) :
    (∃ s', list_add bits fuel s (some new) x free_func = some (some new, s') ∧
      s.added L new x s') ∧
    ((s.mem new).node = x →
      ∃ s', list_addnode bits fuel s (some new) = some (0, s') ∧ s.added L new x s') := by
  have hne : ∀ a ∈ L, a ≠ new := fun a ha e => hnew (e ▸ ha)
  refine ⟨?_, ?_⟩
  · have hmem : ∀ a ∈ L,
        (Function.update s.mem new ⟨x, none, none, free_func⟩) a = s.mem a := by
      intro a ha
      simp only [Function.update_noteq (hne a ha)]
    have hholds := ListState.holds_congr s _ L hmem h
    have hel : ({ s with
        mem := Function.update s.mem new ⟨x, none, none, free_func⟩,
        live := Function.update s.live new true } : ListState).elems L = s.elems L := by
      unfold ListState.elems
      exact List.map_congr_left (fun a ha => by simp only [hmem a ha])
    obtain ⟨s', hadd, A, B, hL, h1, h2, h3, h4, h5, h6⟩ := list_addnode_added bits fuel
      { s with
        mem := Function.update s.mem new ⟨x, none, none, free_func⟩,
        live := Function.update s.live new true } L new
      ⟨hholds.1, hholds.2.1, hholds.2.2.1, hholds.2.2.2⟩ hnew hfit hfuel hcmp
      (by rw [hel]; exact hsorted)
    have hA : ∀ a ∈ A, a ∈ L := fun a ha => hL ▸ List.mem_append_left _ ha
    have hB : ∀ a ∈ B, a ∈ L := fun a ha => hL ▸ List.mem_append_right _ ha
    simp only [Function.update_same] at h2 h5 h6
    have hEA : ({ s with
        mem := Function.update s.mem new ⟨x, none, none, free_func⟩,
        live := Function.update s.live new true } : ListState).elems A = s.elems A := by
      unfold ListState.elems
      exact List.map_congr_left (fun a ha => by simp only [hmem a (hA a ha)])
    have hEB : ({ s with
        mem := Function.update s.mem new ⟨x, none, none, free_func⟩,
        live := Function.update s.live new true } : ListState).elems B = s.elems B := by
      unfold ListState.elems
      exact List.map_congr_left (fun a ha => by simp only [hmem a (hB a ha)])
    rw [hEA, hEB] at h2
    rw [hEA] at h5
    rw [hEB] at h6
    refine ⟨s', ?_, A, B, hL, h1, h2, h3, h4, h5, h6⟩
    unfold list_add
    simp [hadd]
  · intro hx
    obtain ⟨s', hadd, hres⟩ := list_addnode_added bits fuel s L new h hnew hfit hfuel hcmp
      hsorted
    rw [hx] at hres
    exact ⟨s', hadd, hres⟩

theorem cmp_digit_total_preorder : cmp_total_preorder cmp_digit := by
  unfold cmp_total_preorder cmp_digit
  constructor
  · intro a b
    omega
  · intro a b c
    omega

/-- The element 27, which compares equal to 7 and to 17, added at the address
30 to the list of 7, 17, 8, 9: a `LIST_SORTED_HEAD` list puts it before them
(27, 7, 17, 8, 9), a `LIST_SORTED_TAIL` list after them (7, 17, 27, 8, 9). -/
theorem list_add_keeps_order_witness :
    (∃ s', list_add 32 5 list0 (some 30) (some 27) none = some (some 30, s') ∧
      list0.added [20, 21, 22, 23] 30 (some 27) s') ∧
    (∃ s', list_add 32 5 list0_tail (some 30) (some 27) none = some (some 30, s') ∧
      list0_tail.added [20, 21, 22, 23] 30 (some 27) s') ∧
    (list_add 32 5 list0 (some 30) (some 27) none).map
        (fun r => r.2.elems [30, 20, 21, 22, 23])
      = some [some 27, some 7, some 17, some 8, some 9] ∧
    (list_add 32 5 list0_tail (some 30) (some 27) none).map
        (fun r => r.2.elems [20, 21, 30, 22, 23])
      = some [some 7, some 17, some 27, some 8, some 9] :=
  ⟨(list_add_keeps_order 32 5 list0 [20, 21, 22, 23] 30 (some 27) none
      (by decide) (by decide) (by decide) (by decide) cmp_digit_total_preorder
      (by decide)).1,
    (list_add_keeps_order 32 5 list0_tail [20, 21, 22, 23] 30 (some 27) none
      (by decide) (by decide) (by decide) (by decide) cmp_digit_total_preorder
      (by decide)).1,
    by decide, by decide⟩

/-! ## Claim C24: the IN step is not guarded by a presence check -/

theorem rinoo_epoll_poll_loop_append (resume : SocketResume) :
    ∀ (pre l : List epoll_event) (s : t_rinoopoll),
      rinoo_epoll_poll_loop resume s (pre ++ l)
        = ((rinoo_epoll_poll_loop resume (rinoo_epoll_poll_loop resume s pre).1 l).1,
            (rinoo_epoll_poll_loop resume s pre).2
              ++ (rinoo_epoll_poll_loop resume (rinoo_epoll_poll_loop resume s pre).1 l).2)
  | [], l, s => by simp [rinoo_epoll_poll_loop]
  | e :: pre, l, s => by
    have ih := rinoo_epoll_poll_loop_append resume pre l (rinoo_epoll_poll_event resume s e).1
    show rinoo_epoll_poll_loop resume s (e :: (pre ++ l)) = _
    simp only [rinoo_epoll_poll_loop, ih, List.append_assoc]

/-- Claim C24: in the loop body of `rinoo_epoll_poll`, for an event whose
descriptor is not in the descriptor table when the body starts: if the flags
contain IN the body begins with the lookup that finds nothing and the call of
`rinoo_socket_resume` with the null socket (with `errno` 0); if they do not
contain IN the body calls `rinoo_socket_resume` not at all and leaves the
state as it is.  This is so within a batch too, for an event that follows
events `pre` whose handling took the descriptor out of the table.  The IN
step is the only one of this kind: in every loop body the calls after the IN
step each come right after a lookup that found the socket they resume. -/
theorem rinoo_epoll_poll_in_unguarded (resume : SocketResume) (s : t_rinoopoll)
    (ev : epoll_event) (habsent : rinoo_sched_get s ev.fd = none) :
    (ev.events &&& EPOLLIN = EPOLLIN →
      (rinoo_epoll_poll_event resume s ev).2.take 2
        = [PollAction.get ev.fd none, PollAction.resume none 0]) ∧
    (ev.events &&& EPOLLIN ≠ EPOLLIN →
      (rinoo_epoll_poll_event resume s ev).2.filter PollAction.is_resume = [] ∧
      (rinoo_epoll_poll_event resume s ev).1 = s) ∧
    (∀ (s0 : t_rinoopoll) (nbevents : Int) (events pre post : List epoll_event),
      events.take nbevents.toNat = pre ++ ev :: post →
      (rinoo_epoll_poll_loop resume s0 pre).1 = s →
      (ev.events &&& EPOLLIN = EPOLLIN →
        PollAction.resume none 0 ∈ (rinoo_epoll_poll resume s0 nbevents events).2.2) ∧
      (ev.events &&& EPOLLIN ≠ EPOLLIN →
        (rinoo_epoll_poll resume s0 nbevents events).2.2.filter PollAction.is_resume
          = (rinoo_epoll_poll_loop resume s0 pre).2.filter PollAction.is_resume
            ++ (rinoo_epoll_poll_loop resume s post).2.filter PollAction.is_resume)) ∧
    (∀ (s' : t_rinoopoll) (ev' : epoll_event),
      guarded ((rinoo_epoll_poll_event resume s' ev').2.drop
        (if ev'.events &&& EPOLLIN = EPOLLIN then 2 else 1)) = true) := by
  have hin : ev.events &&& EPOLLIN = EPOLLIN →
      (rinoo_epoll_poll_event resume s ev).2.take 2
        = [PollAction.get ev.fd none, PollAction.resume none 0] := by
    intro hin
    unfold rinoo_epoll_poll_event
    simp only [hin, if_true, habsent]
    split
    · simp
    · split_ifs <;> split <;> simp
  have hnin : ev.events &&& EPOLLIN ≠ EPOLLIN →
      (rinoo_epoll_poll_event resume s ev).2.filter PollAction.is_resume = [] ∧
      (rinoo_epoll_poll_event resume s ev).1 = s := by
    intro hnin
    unfold rinoo_epoll_poll_event
    simp only [hnin, if_false, habsent]
    simp [PollAction.is_resume]
  refine ⟨hin, hnin, ?_, ?_⟩
  · intro s0 nbevents events pre post hsplit hs
    have hnb : nbevents ≠ -1 := by
      intro h
      subst h
      simp at hsplit
    have hpoll : (rinoo_epoll_poll resume s0 nbevents events).2.2
        = (rinoo_epoll_poll_loop resume s0 pre).2
          ++ ((rinoo_epoll_poll_event resume s ev).2
            ++ (rinoo_epoll_poll_loop resume (rinoo_epoll_poll_event resume s ev).1 post).2) := by
      unfold rinoo_epoll_poll
      simp only [hnb, if_false]
      rw [hsplit, rinoo_epoll_poll_loop_append, hs]
      simp only [rinoo_epoll_poll_loop]
    refine ⟨?_, ?_⟩
    · intro h
      rw [hpoll]
      have hmem : PollAction.resume none 0 ∈ (rinoo_epoll_poll_event resume s ev).2.take 2 := by
        rw [hin h]
        simp
      exact List.mem_append_right _ (List.mem_append_left _ (List.mem_of_mem_take hmem))
    · intro h
      rw [hpoll, List.filter_append, List.filter_append, (hnin h).1, (hnin h).2,
        List.nil_append]
  · intro s' ev'
    unfold rinoo_epoll_poll_event
    by_cases h : ev'.events &&& EPOLLIN = EPOLLIN
    · simp only [h, if_true]
      split
      · simp [guarded]
      · split_ifs <;> split <;> simp [guarded]
    · simp only [h, if_false]
      split
      · simp [guarded]
      · split_ifs <;> split <;> simp [guarded]

/-- A batch of two events, IN on descriptor 3 and IN on descriptor 4, where the
task resumed for the first closes the socket on descriptor 4: the second event
resumes the null socket.  Had the second event carried OUT instead of IN,
nothing would be resumed for it. -/
theorem rinoo_epoll_poll_in_unguarded_witness :
    rinoo_sched_get (rinoo_epoll_poll_loop resume_close_peer poll0 [⟨EPOLLIN, 3⟩]).1 4 = none ∧
    (rinoo_epoll_poll resume_close_peer poll0 2 [⟨EPOLLIN, 3⟩, ⟨EPOLLIN, 4⟩]).2.2.filter
        PollAction.is_resume
      = [PollAction.resume (some 100) 0, PollAction.resume none 0] ∧
    PollAction.resume none 0
      ∈ (rinoo_epoll_poll resume_close_peer poll0 2 [⟨EPOLLIN, 3⟩, ⟨EPOLLIN, 4⟩]).2.2 ∧
    (rinoo_epoll_poll resume_close_peer poll0 2 [⟨EPOLLIN, 3⟩, ⟨EPOLLOUT, 4⟩]).2.2.filter
        PollAction.is_resume
      = [PollAction.resume (some 100) 0] :=
  ⟨by decide, by decide,
    ((rinoo_epoll_poll_in_unguarded resume_close_peer
      (rinoo_epoll_poll_loop resume_close_peer poll0 [⟨EPOLLIN, 3⟩]).1 ⟨EPOLLIN, 4⟩
      (by decide)).2.2.1 poll0 2 [⟨EPOLLIN, 3⟩, ⟨EPOLLIN, 4⟩] [⟨EPOLLIN, 3⟩] [] rfl rfl).1
      (by decide),
    by decide⟩

/-! ## Claim C25: a task that yields with a zero wait is resumed again at once -/

theorem rinoo_task_unschedule_keeps (s : t_rinoosched) (h : TaskPtr) :
    (rinoo_task_unschedule s (some h)).2.clock = s.clock ∧
    (rinoo_task_unschedule s (some h)).2.driver.current = s.driver.current ∧
    ∀ x, ((rinoo_task_unschedule s (some h)).2.task x).sched = (s.task x).sched := by
  cases hs : (s.task h).sched
  · rw [rinoo_task_unschedule_nosched s h hs]
    exact ⟨rfl, rfl, fun _ => rfl⟩
  · cases hsch : (s.task h).scheduled
    · rw [rinoo_task_unschedule_unscheduled s h hs hsch]
      exact ⟨rfl, rfl, fun _ => rfl⟩
    · rw [rinoo_task_unschedule_scheduled s h hs hsch]
      refine ⟨rfl, rfl, ?_⟩
      intro x
      by_cases hx : x = h
      · subst hx
        simp
      · simp [hx]

theorem rinoo_task_resume_undisturbed_at (swap : Swap) (x : TaskPtr) (s : t_rinoosched)
    (h : TaskPtr) (hx : x ≠ h)
    (hsw : Undisturbed x (s.set_current h) (swap (s.set_current h) s.driver.current h).2) :
    Undisturbed x s (rinoo_task_resume swap s (some h)).2 := by
  have h1 : Undisturbed x s ((swap (s.set_current h) s.driver.current h).2.set_current
      s.driver.current) := hsw
  unfold rinoo_task_resume
  simp only
  split_ifs
  · exact undisturbed_trans h1 (rinoo_task_destroy_undisturbed _ h x hx)
  · exact h1

/-- One pass of the driver loop on a head other than `x`, when the task resumed
leaves `x` alone. -/
theorem driver_step_undisturbed_at (swap : Swap) (x : TaskPtr)
    (hothers : ∀ s a b, b ≠ x → s.driver.current = b → s.wf → Undisturbed x s (swap s a b).2)
    (s : t_rinoosched) (hwf : s.wf) (h : TaskPtr) (hx : x ≠ h) :
    Undisturbed x s (driver_step swap s h) :=
  undisturbed_trans (rinoo_task_unschedule_undisturbed s h x hx)
    (rinoo_task_resume_undisturbed_at swap x _ h hx
      (hothers _ _ h (fun e => hx e.symm) rfl
        (t_rinoosched.wf_congr rfl rfl (rinoo_task_unschedule_wf s h hwf))))

/-- The head of a well-formed tree is due when some node is. -/
theorem t_rinoosched.wf_head_due (s : t_rinoosched) (hwf : s.wf) (h : TaskPtr)
    (rest : List TaskPtr) (hn : s.nodes = h :: rest) (x : TaskPtr) (hx : x ∈ s.nodes)
    (hdue : timercmp_le (s.task x).tv s.clock = true) :
    timercmp_le (s.task h).tv s.clock = true := by
  cases hh : timercmp_le (s.task h).tv s.clock
  · have := timercmp_le_false_of_head _ _ _ (t_rinoosched.wf_head_min s hwf h rest hn x hx) hh
    rw [this] at hdue
    exact Bool.noConfusion hdue
  · rfl

/-- What `rinoo_task_wait(sched, 0)` leaves when the current task is attached
and the tree well formed: the task is in the tree with target time zero. -/
theorem rinoo_task_wait_zero_back (s : t_rinoosched) (hwf : s.wf)
    (hs : (s.task s.driver.current).sched = true) :
    (rinoo_task_wait s 0).2.clock = s.clock ∧
    s.driver.current ∈ (rinoo_task_wait s 0).2.nodes ∧
    ((rinoo_task_wait s 0).2.task s.driver.current).tv = Timeval.zero ∧
    (rinoo_task_wait s 0).2.driver.current = s.driver.current := by
  have heq := rinoo_task_schedule_eq s s.driver.current none hs hwf.1
    (fun hm => (hwf.2.2 _ hm).2)
  rw [rinoo_task_wait_eq]
  simp only [if_true]
  rw [heq]
  refine ⟨rfl, ?_, by simp, rfl⟩
  simp only [set_task_nodes, set_tree_nodes]
  exact (mem_placed _ _ _ _ _).2 (Or.inl rfl)

/-- Writing the saved context of a task leaves the timers as they are. -/
theorem set_context_same_timers (s : t_rinoosched) (t : TaskPtr) (ctx : t_fcontext) :
    SameTimers s (s.set_task t { s.task t with context := ctx }) := by
  refine ⟨rfl, rfl, ?_⟩
  intro p
  by_cases hp : p = t
  · subst hp
    simp
  · simp [hp]

/-- One pass of the driver loop on the head `t` when `t` yields with
`rinoo_task_wait(sched, 0)`. -/
theorem driver_step_yield (swap : Swap) (s : t_rinoosched) (hwf : s.wf) (t : TaskPtr)
    (ht : t ∈ s.nodes)
    (hyield : yields_zero swap ((rinoo_task_unschedule s (some t)).2.set_current t)
      s.driver.current t) :
    (driver_step swap s t).clock = s.clock ∧ t ∈ (driver_step swap s t).nodes ∧
    ((driver_step swap s t).task t).tv = Timeval.zero := by
  obtain ⟨ctx, hyield⟩ := hyield
  have hk := rinoo_task_unschedule_keeps s t
  have hwf1 : ((rinoo_task_unschedule s (some t)).2.set_current t).wf :=
    t_rinoosched.wf_congr rfl rfl (rinoo_task_unschedule_wf s t hwf)
  have hwf2 := same_timers_wf
    (set_context_same_timers ((rinoo_task_unschedule s (some t)).2.set_current t) t ctx) hwf1
  have hs2 : ((((rinoo_task_unschedule s (some t)).2.set_current t).set_task t
      { ((rinoo_task_unschedule s (some t)).2.set_current t).task t with
        context := ctx }).task
      (((rinoo_task_unschedule s (some t)).2.set_current t).set_task t
        { ((rinoo_task_unschedule s (some t)).2.set_current t).task t with
          context := ctx }).driver.current).sched = true := by
    simp only [set_task_driver, set_current_current, set_task_task, set_current_task,
      Function.update_same]
    rw [hk.2.2 t]
    exact (hwf.2.2 t ht).1
  obtain ⟨hc, hm, htv, _⟩ := rinoo_task_wait_zero_back _ hwf2 hs2
  simp only [set_task_driver, set_current_current, set_task_clock, set_current_clock]
    at hc hm htv
  have hstep : driver_step swap s t
      = (rinoo_task_wait (((rinoo_task_unschedule s (some t)).2.set_current t).set_task t
          { ((rinoo_task_unschedule s (some t)).2.set_current t).task t with
            context := ctx }) 0).2.set_current s.driver.current := by
    unfold driver_step rinoo_task_resume
    simp only [hk.2.1, hyield]
    simp
  rw [hstep]
  exact ⟨hc.trans hk.1, hm, htv⟩

/-- A due task of the tree that the other tasks leave alone is resumed before
the driver returns. -/
theorem rinoo_task_driver_run_resumes_due (swap : Swap) (x : TaskPtr)
    (hswap : ∀ s a b, s.wf → (swap s a b).2.wf)
    (hothers : ∀ s a b, b ≠ x → s.driver.current = b → s.wf →
      Undisturbed x s (swap s a b).2) :
    ∀ (fuel : Nat) (s : t_rinoosched), s.wf → x ∈ s.nodes →
      timercmp_le (s.task x).tv s.clock = true →
      (rinoo_task_driver_run swap fuel s).ret ≠ none →
      x ∈ (rinoo_task_driver_run swap fuel s).resumed.map Resumption.task
  | 0, s, _, _, _, hr => absurd (rinoo_task_driver_run_zero swap s ▸ rfl) hr
  | fuel + 1, s, hwf, hx, hdue, hr => by
    cases hn : s.nodes with
    | nil =>
      rw [hn] at hx
      exact absurd hx (List.not_mem_nil x)
    | cons h rest =>
      have hh := t_rinoosched.wf_head_due s hwf h rest hn x hx hdue
      rw [rinoo_task_driver_run_due swap fuel s h rest hn hh] at hr ⊢
      simp only [List.map_cons, List.mem_cons]
      by_cases hxh : x = h
      · exact Or.inl hxh
      · right
        have hu := driver_step_undisturbed_at swap x hothers s hwf h hxh
        exact rinoo_task_driver_run_resumes_due swap x hswap hothers fuel _
          (driver_step_wf swap hswap s h hwf) (hu.2.2 hx)
          (by rw [hu.1, hu.2.1]; exact hdue) hr

/-- A task that yields with a zero wait every time keeps the driver looping. -/
theorem rinoo_task_driver_run_spins (swap : Swap) (t : TaskPtr) (c : Timeval)
    (hc : timercmp_le Timeval.zero c = true)
    (hswap : ∀ s a b, s.wf → (swap s a b).2.wf)
    (hothers : ∀ s a b, b ≠ t → s.driver.current = b → s.wf →
      Undisturbed t s (swap s a b).2)
    (hyield : ∀ s a, yields_zero swap s a t) :
    ∀ (fuel : Nat) (s : t_rinoosched), s.wf → s.clock = c → t ∈ s.nodes →
      timercmp_le (s.task t).tv s.clock = true →
      (rinoo_task_driver_run swap fuel s).ret = none
  | 0, s, _, _, _, _ => rfl
  | fuel + 1, s, hwf, hclock, ht, hdue => by
    cases hn : s.nodes with
    | nil =>
      rw [hn] at ht
      exact absurd ht (List.not_mem_nil t)
    | cons h rest =>
      have hh := t_rinoosched.wf_head_due s hwf h rest hn t ht hdue
      rw [rinoo_task_driver_run_due swap fuel s h rest hn hh]
      have hwf' := driver_step_wf swap hswap s h hwf
      by_cases hth : t = h
      · subst hth
        obtain ⟨h1, h2, h3⟩ := driver_step_yield swap s hwf t ht (hyield _ _)
        exact rinoo_task_driver_run_spins swap t c hc hswap hothers hyield fuel _ hwf'
          (h1.trans hclock) h2 (by rw [h3, h1, hclock]; exact hc)
      · have hu := driver_step_undisturbed_at swap t hothers s hwf h hth
        exact rinoo_task_driver_run_spins swap t c hc hswap hothers hyield fuel _ hwf'
          (hu.1.trans hclock) (hu.2.2 ht) (by rw [hu.1, hu.2.1]; exact hdue)

/-- The driver returns within `μ s` resumptions when every pass of its loop
lowers the measure `μ`. -/
theorem rinoo_task_driver_run_measure (swap : Swap)
    (hswap : ∀ s a b, s.wf → (swap s a b).2.wf) (μ : t_rinoosched → Nat)
    (hμ : ∀ s h rest, s.wf → s.nodes = h :: rest →
      timercmp_le (s.task h).tv s.clock = true → μ (driver_step swap s h) < μ s) :
    ∀ (fuel : Nat) (s : t_rinoosched), s.wf → μ s < fuel →
      (rinoo_task_driver_run swap fuel s).ret ≠ none ∧
      (rinoo_task_driver_run swap fuel s).resumed.length ≤ μ s
  | 0, s, _, hlt => absurd hlt (Nat.not_lt_zero _)
  | fuel + 1, s, hwf, hlt => by
    cases hn : s.nodes with
    | nil => simp [rinoo_task_driver_run_nil swap fuel s hn]
    | cons h rest =>
      cases hdue : timercmp_le (s.task h).tv s.clock
      · simp [rinoo_task_driver_run_later swap fuel s h rest hn hdue]
      · rw [rinoo_task_driver_run_due swap fuel s h rest hn hdue]
        have hdec := hμ s h rest hwf hn hdue
        obtain ⟨ih1, ih2⟩ := rinoo_task_driver_run_measure swap hswap μ hμ fuel _
          (driver_step_wf swap hswap s h hwf) (by omega)
        exact ⟨ih1, by simp only [List.length_cons]; omega⟩

/-- Scheduling a task leaves every other task alone. -/
theorem rinoo_task_schedule_undisturbed (s : t_rinoosched) (t x : TaskPtr)
    (tv : Option Timeval) (hwf : s.wf) (hx : x ≠ t) :
    Undisturbed x s (rinoo_task_schedule s (some t) tv).2 := by
  cases hs : (s.task t).sched
  · rw [rinoo_task_schedule_nosched s t tv hs]
    exact undisturbed_refl x s
  · rw [rinoo_task_schedule_eq s t tv hs hwf.1 (fun hm => (hwf.2.2 t hm).2)]
    refine ⟨rfl, by simp [hx], ?_⟩
    intro hm
    simp only [set_task_nodes, set_tree_nodes]
    exact (mem_placed _ _ _ _ _).2 (Or.inr ((List.mem_erase_of_ne hx).2 hm))

theorem swap_countdown_wf (s : t_rinoosched) (a b : TaskPtr) (hwf : s.wf) :
    (swap_countdown s a b).2.wf := by
  unfold swap_countdown
  split
  · exact rinoo_task_wait_wf _ 0 (same_timers_wf (set_context_same_timers s b _) hwf)
  · exact hwf

theorem swap_countdown_undisturbed (t : TaskPtr) (s : t_rinoosched) (a b : TaskPtr)
    (hb : b ≠ t) (hcur : s.driver.current = b) (hwf : s.wf) :
    Undisturbed t s (swap_countdown s a b).2 := by
  unfold swap_countdown
  split
  · rename_i f n _
    have hst := set_context_same_timers s b { (s.task b).context with entry := some (f, n) }
    have h1 : Undisturbed t s (s.set_task b
        { s.task b with context := { (s.task b).context with entry := some (f, n) } }) :=
      ⟨hst.1, (hst.2.2 t).1, fun hm => hm⟩
    refine undisturbed_trans h1 ?_
    rw [rinoo_task_wait_eq]
    simp only [if_true, set_task_driver, hcur]
    exact rinoo_task_schedule_undisturbed _ b t none (same_timers_wf hst hwf)
      (fun e => hb e.symm)
  · exact undisturbed_refl t s

theorem yield_budget_sum_congr (s s' : t_rinoosched) (l : List TaskPtr)
    (h : ∀ u ∈ l, (s'.task u).context = (s.task u).context) :
    (l.map (fun u => yields_left s' u + 1)).sum = (l.map (fun u => yields_left s u + 1)).sum := by
  congr 1
  apply List.map_congr_left
  intro u hu
  unfold yields_left
  rw [h u hu]

/-- Resuming the task `h`, taken out of the tree, over `swap_countdown`: the
budget of the tree left is below that of the tree with `h`. -/
theorem swap_countdown_resume_budget (S : t_rinoosched) (hwf : S.wf) (h : TaskPtr)
    (hnot : h ∉ S.nodes) (hs : (S.task h).sched = true)
    (hsch : (S.task h).scheduled = false) :
    yield_budget (rinoo_task_resume swap_countdown S (some h)).2
      < (yields_left S h + 1) + yield_budget S := by
  have hne : ∀ u ∈ S.nodes, u ≠ h := fun u hu e => hnot (e ▸ hu)
  by_cases hy : ∃ f n, (S.task h).context.entry = some (f, n + 1)
  · obtain ⟨f, n, he⟩ := hy
    obtain ⟨S1, hS1⟩ : ∃ S1, S1 = (S.set_current h).set_task h
        { S.task h with context := { (S.task h).context with entry := some (f, n) } } :=
      ⟨_, rfl⟩
    have hst := set_context_same_timers (S.set_current h) h
      { (S.task h).context with entry := some (f, n) }
    have hwf1 : S1.wf := by
      rw [hS1]
      exact same_timers_wf hst (t_rinoosched.wf_congr (s := S) rfl rfl hwf)
    have hn1 : S1.nodes = S.nodes := by rw [hS1]; rfl
    have hc1 : S1.driver.current = h := by rw [hS1]; rfl
    have hs1 : (S1.task h).sched = true := by rw [hS1]; simp [hs]
    have he1 : (S1.task h).context.entry = some (f, n) := by rw [hS1]; simp
    have ht1 : ∀ u, u ≠ h → S1.task u = S.task u := by
      intro u hu
      rw [hS1]
      simp [hu]
    have hsw : swap_countdown (S.set_current h) S.driver.current h
        = (1, (rinoo_task_wait S1 0).2) := by
      rw [hS1]
      unfold swap_countdown
      simp only [set_current_task, he]
    have hres : (rinoo_task_resume swap_countdown S (some h)).2
        = (rinoo_task_wait S1 0).2.set_current S.driver.current := by
      unfold rinoo_task_resume
      simp only [hsw]
      simp
    have heq := rinoo_task_schedule_eq S1 h none hs1 hwf1.1
      (fun hm => absurd (hn1 ▸ hm) hnot)
    have herase : S1.nodes.erase h = S.nodes := by
      rw [hn1]
      exact List.erase_of_not_mem hnot
    rw [herase] at heq
    have hperm := placed_perm S1 ((none : Option Timeval).getD Timeval.zero) h S.nodes
    rw [hres, rinoo_task_wait_eq]
    simp only [if_true, hc1]
    rw [heq]
    obtain ⟨E, hE⟩ : ∃ E, E = ((S1.set_tree
        ⟨placed S1 ((none : Option Timeval).getD Timeval.zero) h S.nodes⟩).set_task h
        { S1.task h with tv := (none : Option Timeval).getD Timeval.zero,
                         scheduled := true }).set_current S.driver.current := ⟨_, rfl⟩
    have hnE : E.nodes = placed S1 ((none : Option Timeval).getD Timeval.zero) h S.nodes := by
      rw [hE]; rfl
    have heE : (E.task h).context.entry = some (f, n) := by
      rw [hE]
      simp [he1]
    have htE : ∀ u, u ≠ h → (E.task u).context = (S.task u).context := by
      intro u hu
      rw [hE]
      simp [hu, ht1 u hu]
    rw [← hE]
    unfold yield_budget
    rw [hnE, (hperm.map _).sum_eq, List.map_cons, List.sum_cons,
      yield_budget_sum_congr S E S.nodes (fun u hu => htE u (hne u hu))]
    have hl : yields_left S h = n + 1 := by
      unfold yields_left
      rw [he]
    have hl1 : yields_left E h = n := by
      unfold yields_left
      rw [heE]
    rw [hl, hl1]
    omega
  · have hsw : swap_countdown (S.set_current h) S.driver.current h
        = (0, S.set_current h) := by
      unfold swap_countdown
      simp only [set_current_task]
      split
      · rename_i f n he
        exact absurd ⟨f, n, he⟩ hy
      · rfl
    have hres : (rinoo_task_resume swap_countdown S (some h)).2
        = rinoo_task_destroy ((S.set_current h).set_current S.driver.current) h := by
      unfold rinoo_task_resume
      simp only [hsw]
      simp
    rw [hres]
    unfold rinoo_task_destroy
    rw [rinoo_task_unschedule_unscheduled _ h (by simpa using hs) (by simpa using hsch)]
    show (S.nodes.map (fun u => yields_left S u + 1)).sum
      < (yields_left S h + 1) + (S.nodes.map (fun u => yields_left S u + 1)).sum
    omega

/-- Each pass of the driver loop over `swap_countdown` lowers the budget. -/
theorem swap_countdown_budget (s : t_rinoosched) (hwf : s.wf) (h : TaskPtr)
    (rest : List TaskPtr) (hn : s.nodes = h :: rest) :
    yield_budget (driver_step swap_countdown s h) < yield_budget s := by
  have hh := hwf.2.2 h (by rw [hn]; exact List.mem_cons_self _ _)
  have hnot : h ∉ rest := by
    have hnd := hwf.1
    rw [hn] at hnd
    exact (List.nodup_cons.1 hnd).1
  have hu : rinoo_task_unschedule s (some h) = _ :=
    rinoo_task_unschedule_scheduled s h hh.1 hh.2
  have hnodes : (rinoo_task_unschedule s (some h)).2.nodes = rest := by
    rw [hu]
    simp [rinoorbtree_remove, nodes_def, hn]
  have hctx : ∀ u, ((rinoo_task_unschedule s (some h)).2.task u).context
      = (s.task u).context := by
    intro u
    rw [hu]
    by_cases huh : u = h
    · subst huh
      simp
    · simp [huh]
  have hres := swap_countdown_resume_budget (rinoo_task_unschedule s (some h)).2
    (rinoo_task_unschedule_wf s h hwf) h (by rw [hnodes]; exact hnot)
    (by rw [hu]; simp [hh.1]) (by rw [hu]; simp)
  have hl : yields_left (rinoo_task_unschedule s (some h)).2 h = yields_left s h := by
    unfold yields_left
    rw [hctx h]
  have hb : yield_budget (rinoo_task_unschedule s (some h)).2
      = (rest.map (fun u => yields_left s u + 1)).sum := by
    unfold yield_budget
    rw [hnodes]
    exact yield_budget_sum_congr s _ rest (fun u _ => hctx u)
  rw [hl, hb] at hres
  unfold driver_step
  refine lt_of_lt_of_le hres ?_
  unfold yield_budget
  rw [hn]
  simp

/-- Writing back the saved context a task already has changes nothing. -/
theorem set_task_same (s : t_rinoosched) (t : TaskPtr) :
    s.set_task t { s.task t with context := (s.task t).context } = s := by
  unfold t_rinoosched.set_task
  simp

/-- Claim C25: let the clock be at or after the epoch, the timer tree well
formed, the resumed tasks keep it so and the tasks other than `t` leave `t`
and the clock alone.  A task yields with `rinoo_task_wait(sched, 0)` when the
swap into it returns 1 with the scheduler that call leaves, the task having
changed before the call nothing but its own saved context, where its private
state is kept (`yields_zero`).  (1) If `t`, the due head of the tree, yields
so when `rinoo_task_driver_run` resumes it, that pass of the loop leaves `t`
in the tree with target time zero, not later than the clock, and a call that
returns has resumed `t` at least twice.  (2) When the call returns, no task of
the tree has a target time not later than the clock.  (3) If every pass of the
loop lowers a measure `μ` of the scheduler (the tasks stop rescheduling
themselves at or before the clock), the call returns after at most `μ s`
resumptions.  (4) If `t` is in the tree, due, and yields with a zero wait
every time it is resumed, the call never returns, however long the loop
runs. -/
theorem rinoo_task_driver_run_wait_zero (swap : Swap) (t : TaskPtr) (s : t_rinoosched)
    (hclock : timercmp_le Timeval.zero s.clock = true) (hwf : s.wf)
    (hswap : ∀ s a b, s.wf → (swap s a b).2.wf)
    (hothers : ∀ s a b, b ≠ t → s.driver.current = b → s.wf →
      Undisturbed t s (swap s a b).2) :
    (∀ rest, s.nodes = t :: rest → timercmp_le (s.task t).tv s.clock = true →
      yields_zero swap ((rinoo_task_unschedule s (some t)).2.set_current t)
        s.driver.current t →
      t ∈ (driver_step swap s t).nodes ∧
      ((driver_step swap s t).task t).tv = Timeval.zero ∧
      timercmp_le ((driver_step swap s t).task t).tv (driver_step swap s t).clock = true ∧
      ∀ fuel, (rinoo_task_driver_run swap fuel s).ret ≠ none →
        2 ≤ ((rinoo_task_driver_run swap fuel s).resumed.map Resumption.task).count t) ∧
    (∀ fuel, (rinoo_task_driver_run swap fuel s).ret ≠ none →
      ∀ u ∈ (rinoo_task_driver_run swap fuel s).sched.nodes,
        timercmp_le ((rinoo_task_driver_run swap fuel s).sched.task u).tv
          (rinoo_task_driver_run swap fuel s).sched.clock = false) ∧
    (∀ μ : t_rinoosched → Nat,
      (∀ s' h rest, s'.wf → s'.nodes = h :: rest →
        timercmp_le (s'.task h).tv s'.clock = true → μ (driver_step swap s' h) < μ s') →
      ∀ fuel, μ s < fuel →
        (rinoo_task_driver_run swap fuel s).ret ≠ none ∧
        (rinoo_task_driver_run swap fuel s).resumed.length ≤ μ s) ∧
    ((∀ s' a, yields_zero swap s' a t) → t ∈ s.nodes →
      timercmp_le (s.task t).tv s.clock = true →
      ∀ fuel, (rinoo_task_driver_run swap fuel s).ret = none) := by
  refine ⟨?_, ?_, ?_, ?_⟩
  · intro rest hn hdue hyield
    have ht : t ∈ s.nodes := by rw [hn]; exact List.mem_cons_self _ _
    obtain ⟨h1, h2, h3⟩ := driver_step_yield swap s hwf t ht hyield
    have hdue' : timercmp_le ((driver_step swap s t).task t).tv (driver_step swap s t).clock
        = true := by rw [h3, h1]; exact hclock
    refine ⟨h2, h3, hdue', ?_⟩
    intro fuel hr
    cases fuel with
    | zero => exact absurd rfl hr
    | succ fuel =>
      rw [rinoo_task_driver_run_due swap fuel s t rest hn hdue] at hr ⊢
      have hagain := rinoo_task_driver_run_resumes_due swap t hswap hothers fuel _
        (driver_step_wf swap hswap s t hwf) h2 hdue' hr
      have hpos := List.count_pos_iff.2 hagain
      simp only [List.map_cons, List.count_cons_self]
      omega
  · intro fuel hr u hu
    have hwf' := rinoo_task_driver_run_wf swap hswap fuel s hwf
    obtain ⟨r, hr'⟩ := Option.ne_none_iff_exists'.1 hr
    rcases rinoo_task_driver_run_returned swap fuel s r hr' with
      ⟨hn, _⟩ | ⟨h, rest, hn, hlater, _⟩
    · rw [hn] at hu
      exact absurd hu (List.not_mem_nil u)
    · exact timercmp_le_false_of_head _ _ _
        (t_rinoosched.wf_head_min _ hwf' h rest hn u hu) hlater
  · intro μ hμ fuel hlt
    exact rinoo_task_driver_run_measure swap hswap μ hμ fuel s hwf hlt
  · intro hyield ht hdue fuel
    exact rinoo_task_driver_run_spins swap t s.clock hclock hswap hothers hyield fuel s hwf
      rfl ht hdue

set_option maxHeartbeats 2000000

/-- In the scheduler `sched_yield2` (clock 10 s) task 1, started with the
argument 2, runs over `swap_countdown`: resumed by the driver it yields with a
zero wait, having lowered the count in its saved context to 1, and is back in
the tree with target time zero; it yields twice in all, the loop lowers
`yield_budget` at every pass, and the call returns 1000 after three
resumptions of task 1.  In the scheduler `sched1` over `swap_spin`, where task
1 yields with a zero wait every time it is resumed, the driver resumes task 2,
then task 1 again and again, and never returns. -/
theorem rinoo_task_driver_run_wait_zero_witness :
    (yields_zero swap_countdown
        ((rinoo_task_unschedule sched_yield2 (some (TaskPtr.heap 1))).2.set_current
          (TaskPtr.heap 1)) sched_yield2.driver.current (TaskPtr.heap 1) ∧
      TaskPtr.heap 1 ∈ (driver_step swap_countdown sched_yield2 (TaskPtr.heap 1)).nodes ∧
      ((driver_step swap_countdown sched_yield2 (TaskPtr.heap 1)).task (TaskPtr.heap 1)).tv
        = Timeval.zero ∧
      2 ≤ ((rinoo_task_driver_run swap_countdown 4 sched_yield2).resumed.map
        Resumption.task).count (TaskPtr.heap 1)) ∧
    ((rinoo_task_driver_run swap_countdown 4 sched_yield2).ret = some 1000 ∧
      (rinoo_task_driver_run swap_countdown 4 sched_yield2).sched.nodes = [] ∧
      (rinoo_task_driver_run swap_countdown 4 sched_yield2).resumed.map Resumption.task
        = [TaskPtr.heap 1, TaskPtr.heap 1, TaskPtr.heap 1]) ∧
    (yield_budget sched_yield2 = 3 ∧
      (rinoo_task_driver_run swap_countdown 4 sched_yield2).ret ≠ none ∧
      (rinoo_task_driver_run swap_countdown 4 sched_yield2).resumed.length
        ≤ yield_budget sched_yield2) ∧
    (∀ fuel, (rinoo_task_driver_run swap_spin fuel sched1).ret = none) ∧
    (rinoo_task_driver_run swap_spin 4 sched1).resumed.map Resumption.task
      = [TaskPtr.heap 2, TaskPtr.heap 1, TaskPtr.heap 1, TaskPtr.heap 1] :=
  have hyield : yields_zero swap_countdown
      ((rinoo_task_unschedule sched_yield2 (some (TaskPtr.heap 1))).2.set_current
        (TaskPtr.heap 1)) sched_yield2.driver.current (TaskPtr.heap 1) :=
    ⟨⟨some TaskPtr.main, some (7, 1)⟩, rfl⟩
  have hcount := rinoo_task_driver_run_wait_zero swap_countdown (TaskPtr.heap 1) sched_yield2
    (by decide) (by decide) swap_countdown_wf
    (fun s a b hb hcur hwf => swap_countdown_undisturbed (TaskPtr.heap 1) s a b hb hcur hwf)
  have hback := hcount.1 [] (by decide) (by decide) hyield
  have hspin := rinoo_task_driver_run_wait_zero swap_spin (TaskPtr.heap 1) sched1
    (by decide) (by decide)
    (fun s a b hwf => by
      unfold swap_spin
      split_ifs
      · exact rinoo_task_wait_wf s 0 hwf
      · exact hwf)
    (fun s a b hb _ _ => by
      unfold swap_spin
      rw [if_neg hb]
      exact undisturbed_refl _ s)
  ⟨⟨hyield, hback.1, hback.2.1, hback.2.2.2 4 (by decide)⟩,
    ⟨by decide, by decide, by decide⟩,
    ⟨by decide,
      hcount.2.2.1 yield_budget
        (fun s' h rest hwf' hn _ => swap_countdown_budget s' hwf' h rest hn) 4 (by decide)⟩,
    hspin.2.2.2
      (fun s' a => ⟨(s'.task (TaskPtr.heap 1)).context, by
        rw [set_task_same]
        simp [swap_spin]⟩)
      (by decide) (by decide),
    by decide⟩
end Rinoo
